import Mathlib

/-!
# machine_exporter: the scrape routines of `exporter/exporter.go`

A shallow embedding of the collector of `joyieldInc/machine_exporter`.

* Go strings are byte strings: `GoString` is a list of byte values.
* The library functions the collector calls (`strings.Split`, `strings.Fields`,
  `strings.Trim`, `strings.ToLower`, `strconv.ParseInt`, `strconv.Atoi`) are
  embedded from the Go standard library, on bytes, with its UTF-8 decoding.
* `int64` values are integers reduced by `wrap64` after every operation that
  can overflow; the `uint32` link speed is reduced modulo `2 ^ 32`.
* A gauge holds a `float64`. The collector only ever stores `float64(n)` or
  `float64(n) / 100.` for an integer `n`, and the embedding keeps that
  expression instead of a rounded number.
* A run-time panic is an outcome of its own (`Except Panic`): the slice
  expression `ss[0][:3]` on a short string, and `WithLabelValues` of the
  metrics library on a label value that is not valid UTF-8.
* `int` is 64 bits wide.
-/

set_option maxRecDepth 100000

namespace MachineExporter

/-- A Go string: its bytes. -/
abbrev GoString := List Nat

/-! ## unicode/utf8 -/

namespace utf8

/-- The replacement rune U+FFFD that decoding yields for an invalid byte. -/
def RuneError : Nat := 0xFFFD

/-- Continuation byte range `0x80..0xBF`. -/
def isCont (b : Nat) : Bool := decide (0x80 ≤ b) && decide (b ≤ 0xBF)

/-- `utf8.EncodeRune`: the bytes of a rune; surrogates and values above
U+10FFFF are written as `RuneError`. -/
def EncodeRune (r : Nat) : GoString :=
  if r < 0x80 then [r]
  else if r < 0x800 then [0xC0 + r / 64, 0x80 + r % 64]
  else if (0xD800 ≤ r ∧ r ≤ 0xDFFF) ∨ 0x10FFFF < r then [0xEF, 0xBF, 0xBD]
  else if r < 0x10000 then [0xE0 + r / 4096, 0x80 + r / 64 % 64, 0x80 + r % 64]
  else [0xF0 + r / 262144, 0x80 + r / 4096 % 64, 0x80 + r / 64 % 64, 0x80 + r % 64]

/-- The library's `acceptRanges`: the range the second byte of a sequence must
lie in, by the first byte. -/
def acceptRange (b0 : Nat) : Nat × Nat :=
  if b0 = 0xE0 then (0xA0, 0xBF)
  else if b0 = 0xED then (0x80, 0x9F)
  else if b0 = 0xF0 then (0x90, 0xBF)
  else if b0 = 0xF4 then (0x80, 0x8F)
  else (0x80, 0xBF)

/-- `utf8.DecodeRuneInString`: the first rune of a non-empty string and the
number of bytes it takes. An invalid or incomplete sequence gives
`(RuneError, 1)`. -/
def DecodeRuneInString : GoString → Nat × Nat
  | [] => (RuneError, 0)
  | b0 :: rest =>
    if b0 < 0x80 then (b0, 1)
    else if 0xC2 ≤ b0 ∧ b0 ≤ 0xDF then
      match rest with
      | b1 :: _ =>
        if isCont b1 = true then ((b0 - 0xC0) * 64 + (b1 - 0x80), 2) else (RuneError, 1)
      | [] => (RuneError, 1)
    else if 0xE0 ≤ b0 ∧ b0 ≤ 0xEF then
      match rest with
      | b1 :: b2 :: _ =>
        if (acceptRange b0).1 ≤ b1 ∧ b1 ≤ (acceptRange b0).2 ∧ isCont b2 = true then
          ((b0 - 0xE0) * 4096 + (b1 - 0x80) * 64 + (b2 - 0x80), 3)
        else (RuneError, 1)
      | _ => (RuneError, 1)
    else if 0xF0 ≤ b0 ∧ b0 ≤ 0xF4 then
      match rest with
      | b1 :: b2 :: b3 :: _ =>
        if (acceptRange b0).1 ≤ b1 ∧ b1 ≤ (acceptRange b0).2
            ∧ isCont b2 = true ∧ isCont b3 = true then
          ((b0 - 0xF0) * 262144 + (b1 - 0x80) * 4096 + (b2 - 0x80) * 64 + (b3 - 0x80), 4)
        else (RuneError, 1)
      | _ => (RuneError, 1)
    else (RuneError, 1)

/-- The runes of a string in order, each with the bytes it was decoded from:
what `for i, c := range s` visits. The first argument counts the bytes of the
current rune that are still to be passed over. -/
def runesFrom : Nat → GoString → List (Nat × GoString)
  | _, [] => []
  | 0, b :: rest =>
    let d := DecodeRuneInString (b :: rest)
    (d.1, (b :: rest).take d.2) :: runesFrom (d.2 - 1) rest
  | k + 1, _ :: rest => runesFrom k rest

/-- The runes of a string. -/
def runes (s : GoString) : List (Nat × GoString) := runesFrom 0 s

/-- `utf8.ValidString`: the string is made of valid UTF-8 sequences only, so
no position of it decodes to `RuneError` of width 1. -/
def ValidString (s : GoString) : Bool :=
  (runes s).all (fun c => !(decide (c.1 = RuneError) && decide (c.2.length = 1)))

end utf8

/-- The bytes of a string literal (its UTF-8 encoding). -/
def str (s : String) : GoString := s.data.flatMap (fun c => utf8.EncodeRune c.toNat)

/-! ## unicode -/

namespace unicode

/-- `unicode.IsSpace`: the runes with the White_Space property. -/
def IsSpace (r : Nat) : Bool :=
  decide (0x09 ≤ r ∧ r ≤ 0x0D) || decide (r = 0x20) || decide (r = 0x85)
    || decide (r = 0xA0) || decide (r = 0x1680) || decide (0x2000 ≤ r ∧ r ≤ 0x200A)
    || decide (r = 0x2028) || decide (r = 0x2029) || decide (r = 0x202F)
    || decide (r = 0x205F) || decide (r = 0x3000)

/-- `unicode.ToLower`, given on every rune whose lower case is below U+0080:
the letters `A`..`Z`, U+0130 (capital I with dot, lower case `i`) and U+212A
(the Kelvin sign, lower case `k`). Every other rune at or above U+0080 has a
lower case at or above U+0080; the collector compares lowered strings with
ASCII words only, so those runes are left as they are here. -/
def ToLower (r : Nat) : Nat :=
  if 0x41 ≤ r ∧ r ≤ 0x5A then r + 0x20
  else if r = 0x130 then 0x69
  else if r = 0x212A then 0x6B
  else r

end unicode

/-! ## strings -/

namespace strings

/-- `strings.Split(s, sep)` for a one-byte separator: the pieces of `s`
between the occurrences of the byte; always at least one piece. -/
def Split (sep : Nat) : GoString → List GoString
  | [] => [[]]
  | b :: rest =>
    if b = sep then [] :: Split sep rest
    else
      match Split sep rest with
      | [] => [[b]]
      | p :: ps => (b :: p) :: ps

/-- The loop of `strings.FieldsFunc`: `cur` is the field being read. -/
def fieldsLoop (f : Nat → Bool) : List (Nat × GoString) → GoString → List GoString
  | [], cur => if cur = [] then [] else [cur]
  | (r, bs) :: rest, cur =>
    if f r then
      if cur = [] then fieldsLoop f rest [] else cur :: fieldsLoop f rest []
    else fieldsLoop f rest (cur ++ bs)

/-- `strings.Fields(s)`: the maximal runs of runes that are not white space
(`strings.FieldsFunc(s, unicode.IsSpace)`). -/
def Fields (s : GoString) : List GoString :=
  fieldsLoop unicode.IsSpace (utf8.runes s) []

/-- `strings.Trim(s, cutset)` for a cutset of one ASCII byte: `s` without the
leading and trailing occurrences of the byte. -/
def Trim (s : GoString) (cutset : Nat) : GoString :=
  ((s.dropWhile (fun b => decide (b = cutset))).reverse.dropWhile
    (fun b => decide (b = cutset))).reverse

/-- `strings.ToLower(s)`: every rune replaced by its lower case and written
back; an invalid byte comes out as the encoding of `RuneError`. -/
def ToLower (s : GoString) : GoString :=
  (utf8.runes s).flatMap (fun c => utf8.EncodeRune (unicode.ToLower c.1))

end strings

/-! ## strconv -/

namespace strconv

/-- The two kinds of `strconv.NumError`. -/
inductive NumError
  | ErrSyn
  | ErrRange
  deriving DecidableEq, Repr

/-- The digit loop of `strconv.ParseUint(s, 10, 64)`: `n` is the value read so
far. A byte that is not a decimal digit ends the loop with `(0, ErrSyn)`; a
value that no longer fits 64 bits ends it with `(2^64 - 1, ErrRange)` at the
digit where it overflows, before the bytes after it are looked at. -/
def parseUintLoop : GoString → Nat → Nat × Option NumError
  | [], n => (n, none)
  | c :: cs, n =>
    if 0x30 ≤ c ∧ c ≤ 0x39 then
      if n ≥ (2 ^ 64 - 1) / 10 + 1 then (2 ^ 64 - 1, some NumError.ErrRange)
      else
        let n1 := (n * 10 + (c - 0x30)) % 2 ^ 64
        if n1 < n * 10 ∨ n1 > 2 ^ 64 - 1 then (2 ^ 64 - 1, some NumError.ErrRange)
        else parseUintLoop cs n1
    else (0, some NumError.ErrSyn)

/-- `strconv.ParseUint(s, 10, 64)`. -/
def ParseUint (s : GoString) : Nat × Option NumError :=
  if s = [] then (0, some NumError.ErrSyn) else parseUintLoop s 0

/-- `strconv.ParseInt(s, 10, 64)`: an optional sign, then `ParseUint`. A
syntax error returns 0; a range error returns the bound `2^63 - 1` or
`-2^63` of the sign. -/
def ParseInt (s : GoString) : Int × Option NumError :=
  match s with
  | [] => (0, some NumError.ErrSyn)
  | c :: cs =>
    let neg : Bool := decide (c = 0x2D)
    let body : GoString := if c = 0x2B ∨ c = 0x2D then cs else c :: cs
    match ParseUint body with
    | (_, some NumError.ErrSyn) => (0, some NumError.ErrSyn)
    | (un, _) =>
      if neg = false ∧ un ≥ 2 ^ 63 then (2 ^ 63 - 1, some NumError.ErrRange)
      else if neg = true ∧ un > 2 ^ 63 then (-(2 ^ 63), some NumError.ErrRange)
      else if neg = true then (-(un : Int), none)
      else ((un : Int), none)

/-- `strconv.Atoi(s)`, with `int` 64 bits wide: `ParseInt(s, 10, 0)`. -/
def Atoi (s : GoString) : Int × Option NumError := ParseInt s

end strconv

/-! ## Machine integers and gauge values -/

/-- The `int64` that an integer result is stored as (two's complement). -/
def wrap64 (x : Int) : Int := (x + 2 ^ 63) % 2 ^ 64 - 2 ^ 63

/-- The `float64` values the collector stores, as the expressions that
produce them: `ofInt n` is `float64(n)` and `ofIntDiv100 n` is
`float64(n) / 100.`. -/
inductive float64
  | ofInt (n : Int)
  | ofIntDiv100 (n : Int)
  deriving DecidableEq, Repr

/-- The real number a stored expression denotes, before it is rounded to the
nearest `float64`. -/
def float64.exact : float64 → ℚ
  | float64.ofInt n => n
  | float64.ofIntDiv100 n => n / 100

/-! ## The metric container -/

/-- The names of `globalGauges`, the catalogue `NewExporter` registers. -/
inductive GlobalName
  | used_memory
  | available_memory
  | total_memory
  | used_cpu_user
  | used_cpu_sys
  | used_cpu_iowait
  | used_cpu
  | used_cpu_idle
  | cpu
  deriving DecidableEq, Repr

/-- The names of `netGauges`, the per-interface catalogue. -/
inductive NetName
  | total_net_input_bytes
  | total_net_input_errs
  | total_net_input_drop
  | total_net_output_bytes
  | total_net_output_errs
  | total_net_output_drop
  | interface_speed
  deriving DecidableEq, Repr, Fintype

/-- The run-time panics of the scrape routines: a slice expression out of the
bounds of its string, and a label value that the metrics library refuses. -/
inductive Panic
  | sliceBounds
  | invalidLabelValue
  deriving DecidableEq, Repr

/-- The `Exporter` struct. `NewExporter` fills both maps with one gauge per
catalogue name and nothing removes one, so the maps are functions of the
name. A `GaugeVec` maps the value of its one label `iface` to the value
published for it, if any. -/
structure Exporter where
  globalGauges : GlobalName → float64
  netGauges : NetName → GoString → Option float64

/-- `NewExporter`: every gauge at 0, every label set empty. -/
def NewExporter : Exporter :=
  { globalGauges := fun _ => float64.ofInt 0
    netGauges := fun _ _ => none }

/-- `e.globalGauges[name].Set(v)`. -/
def Exporter.setGlobal (e : Exporter) (name : GlobalName) (v : float64) : Exporter :=
  { e with globalGauges := fun k => if k = name then v else e.globalGauges k }

/-- The state with `v` stored in the gauge `name` for the label `iface`: what
`Set(v)` does to the child of the label. -/
def Exporter.storeNet (e : Exporter) (name : NetName) (iface : GoString)
    (v : float64) : Exporter :=
  { e with
    netGauges := fun k l => if k = name ∧ l = iface then some v else e.netGauges k l }

/-- `e.netGauges[name].WithLabelValues(iface).Set(v)`. `WithLabelValues` panics
when `GetMetricWithLabelValues` returns an error, which it does for a label
value that is not valid UTF-8 (the number of label values, one, is the right
one here). -/
def Exporter.setNetGauge (e : Exporter) (name : NetName) (iface : GoString)
    (v : float64) : Except Panic Exporter :=
  if utf8.ValidString iface = true then Except.ok (e.storeNet name iface v)
  else Except.error Panic.invalidLabelValue

/-- `resetMetrics`: `Reset` on every per-interface gauge. -/
def Exporter.resetMetrics (e : Exporter) : Exporter :=
  { e with netGauges := fun _ _ => none }

/-! ## unit -/

/-- The function `unit`. -/
def unit (s : GoString) : Int :=
  let v := strings.ToLower s
  if v = str "kb" then 2 ^ 10
  else if v = str "mb" then 2 ^ 20
  else if v = str "gb" then 2 ^ 30
  else if v = str "tb" then 2 ^ 40
  else 1

/-! ## scrapeCpu -/

/-- The inner loop of `scrapeCpu`, `for i := 1; i < len(ss); i++`, run over
the tokens from index `i` on: `used += v` for every index but 4. -/
def usedLoop : List GoString → Nat → Int → Int
  | [], _, used => used
  | t :: ts, i, used =>
    usedLoop ts (i + 1) (if i ≠ 4 then wrap64 (used + (strconv.ParseInt t).1) else used)

/-- The body of the line loop of `scrapeCpu`, on the fields `ss` of a line;
`cpu_num` is threaded through. `ss[0][:3]` panics when `ss[0]` has fewer than
3 bytes. `int` is taken 64 bits wide. -/
def scrapeCpuLine (e : Exporter) (cpu_num : Int) (ss : List GoString) :
    Except Panic (Exporter × Int) :=
  match ss with
  | s0 :: s1 :: s2 :: s3 :: s4 :: s5 :: rest =>
    if s0 = str "cpu" then
      let user := (strconv.ParseInt s1).1
      let e := e.setGlobal GlobalName.used_cpu_user (float64.ofIntDiv100 user)
      let sys := (strconv.ParseInt s3).1
      let e := e.setGlobal GlobalName.used_cpu_sys (float64.ofIntDiv100 sys)
      let idle := (strconv.ParseInt s4).1
      let e := e.setGlobal GlobalName.used_cpu_idle (float64.ofIntDiv100 idle)
      let iowait := (strconv.ParseInt s5).1
      let e := e.setGlobal GlobalName.used_cpu_iowait (float64.ofIntDiv100 iowait)
      let used := usedLoop (s1 :: s2 :: s3 :: s4 :: s5 :: rest) 1 0
      Except.ok (e.setGlobal GlobalName.used_cpu (float64.ofIntDiv100 used), cpu_num)
    else if s0.length < 3 then Except.error Panic.sliceBounds
    else if s0.take 3 = str "cpu" then
      let id := (strconv.Atoi (s0.drop 3)).1
      if wrap64 (id + 1) > cpu_num then Except.ok (e, wrap64 (id + 1))
      else Except.ok (e, cpu_num)
    else Except.ok (e, cpu_num)
  | _ => Except.ok (e, cpu_num)

/-- The line loop of `scrapeCpu`. -/
def scrapeCpuLoop : List GoString → Exporter → Int → Except Panic (Exporter × Int)
  | [], e, cpu_num => Except.ok (e, cpu_num)
  | line :: lines, e, cpu_num =>
    match scrapeCpuLine e cpu_num (strings.Fields line) with
    | Except.error p => Except.error p
    | Except.ok (e1, n1) => scrapeCpuLoop lines e1 n1

/-- `scrapeCpu`. The argument is the content of `/proc/stat`, `none` when
`ReadFile` fails (the failure is logged and nothing else is done). -/
def Exporter.scrapeCpu (e : Exporter) (proc_stat : Option GoString) : Except Panic Exporter :=
  match proc_stat with
  | none => Except.ok e
  | some s =>
    match scrapeCpuLoop (strings.Split 0x0A s) e 1 with
    | Except.error p => Except.error p
    | Except.ok (e1, cpu_num) =>
      Except.ok (e1.setGlobal GlobalName.cpu (float64.ofInt cpu_num))

/-! ## scrapeMem -/

/-- The map `mem` of `scrapeMem`. -/
abbrev MemMap := GoString → Option Int

/-- The map literal `mem` starts as: the five field names, at 0. -/
def memInit : MemMap := fun k =>
  if k = str "MemTotal:" ∨ k = str "MemFree:" ∨ k = str "MemAvailable:"
      ∨ k = str "Buffers:" ∨ k = str "Cached:" then some 0
  else none

/-- The value of `mem[k]`: 0 for a key that is not in the map. -/
def MemMap.value (mem : MemMap) (k : GoString) : Int := (mem k).getD 0

/-- The body of the line loop of `scrapeMem`, on the fields of a line. -/
def scrapeMemLine (mem : MemMap) (ss : List GoString) : MemMap :=
  match ss with
  | s0 :: s1 :: s2 :: _ =>
    if (mem s0).isSome then
      let v := (strconv.ParseInt s1).1
      let v := wrap64 (v * unit s2)
      fun k => if k = s0 then some v else mem k
    else mem
  | _ => mem

/-- The line loop of `scrapeMem`. -/
def scrapeMemLoop : List GoString → MemMap → MemMap
  | [], mem => mem
  | line :: lines, mem => scrapeMemLoop lines (scrapeMemLine mem (strings.Fields line))

/-- `scrapeMem`. The argument is the content of `/proc/meminfo`, `none` when
`ReadFile` fails. -/
def Exporter.scrapeMem (e : Exporter) (proc_meminfo : Option GoString) : Exporter :=
  match proc_meminfo with
  | none => e
  | some s =>
    let mem := scrapeMemLoop (strings.Split 0x0A s) memInit
    let total := mem.value (str "MemTotal:")
    let available := mem.value (str "MemAvailable:")
    let available :=
      if available = 0 then
        wrap64 (wrap64 (mem.value (str "MemFree:") + mem.value (str "Buffers:"))
          + mem.value (str "Cached:"))
      else available
    let e := e.setGlobal GlobalName.used_memory (float64.ofInt (wrap64 (total - available)))
    let e := e.setGlobal GlobalName.available_memory (float64.ofInt available)
    e.setGlobal GlobalName.total_memory (float64.ofInt total)

/-! ## scrapeNet -/

/-- What the scrape sees of the machine in one cycle: the content of the three
pseudo-files (`none` when `ReadFile` fails) and the hardware query layer.
`NewEthtool` is `none` when the query handle cannot be opened; otherwise it
is the answer of `CmdGet` for an interface name, the `uint32` speed or `none`
for an error. -/
structure Machine where
  proc_stat : Option GoString
  proc_meminfo : Option GoString
  proc_net_dev : Option GoString
  NewEthtool : Option (GoString → Option Nat)

/-- The calls a scrape makes to the hardware query layer, in order. -/
inductive HwCall
  | NewEthtool
  | CmdGet (iface : GoString)
  | Close
  deriving DecidableEq, Repr

/-- `setNet`: the gauge is set only when `ParseInt` returns no error. -/
def Exporter.setNet (e : Exporter) (name : NetName) (val iface : GoString) :
    Except Panic Exporter :=
  match strconv.ParseInt val with
  | (v, none) => e.setNetGauge name iface (float64.ofInt v)
  | (_, some _) => Except.ok e

/-- The body of the line loop of `scrapeNet`; `ifaces` is threaded through.
The indices into `ss` are in range after the test of its length. -/
def scrapeNetLine (e : Exporter) (ifaces : List GoString) (line : GoString) :
    Except Panic (Exporter × List GoString) :=
  match strings.Split 0x3A line with
  | [seg0, seg1] =>
    let iface := strings.Trim seg0 0x20
    let ss := strings.Fields seg1
    if ss.length < 16 then Except.ok (e, ifaces)
    else do
      let e ← e.setNet NetName.total_net_input_bytes (ss.getD 0 []) iface
      let e ← e.setNet NetName.total_net_input_errs (ss.getD 2 []) iface
      let e ← e.setNet NetName.total_net_input_drop (ss.getD 3 []) iface
      let e ← e.setNet NetName.total_net_output_bytes (ss.getD 8 []) iface
      let e ← e.setNet NetName.total_net_output_errs (ss.getD 10 []) iface
      let e ← e.setNet NetName.total_net_output_drop (ss.getD 11 []) iface
      Except.ok (e, ifaces ++ [iface])
  | _ => Except.ok (e, ifaces)

/-- The line loop of `scrapeNet`. -/
def scrapeNetLoop :
    List GoString → Exporter → List GoString → Except Panic (Exporter × List GoString)
  | [], e, ifaces => Except.ok (e, ifaces)
  | line :: lines, e, ifaces =>
    match scrapeNetLine e ifaces line with
    | Except.error p => Except.error p
    | Except.ok (e1, ifaces1) => scrapeNetLoop lines e1 ifaces1

/-- The loop over `ifaces` at the end of `scrapeNet`; `calls` collects the
queries made. `speed << 17` is a shift of a `uint32`. -/
def speedLoop (CmdGet : GoString → Option Nat) :
    List GoString → Exporter → List HwCall → Except Panic (Exporter × List HwCall)
  | [], e, calls => Except.ok (e, calls)
  | iface :: rest, e, calls =>
    if iface = str "lo" then
      match e.setNetGauge NetName.interface_speed iface (float64.ofInt 0) with
      | Except.error p => Except.error p
      | Except.ok e1 => speedLoop CmdGet rest e1 calls
    else
      match CmdGet iface with
      | none => speedLoop CmdGet rest e (calls ++ [HwCall.CmdGet iface])
      | some speed =>
        match e.setNetGauge NetName.interface_speed iface
            (float64.ofInt ((speed * 2 ^ 17 % 2 ^ 32 : Nat) : Int)) with
        | Except.error p => Except.error p
        | Except.ok e1 => speedLoop CmdGet rest e1 (calls ++ [HwCall.CmdGet iface])

/-- `scrapeNet`, with the calls it makes to the hardware query layer. -/
def Exporter.scrapeNet (e : Exporter) (proc_net_dev : Option GoString)
    (NewEthtool : Option (GoString → Option Nat)) : Except Panic (Exporter × List HwCall) :=
  match proc_net_dev with
  | none => Except.ok (e, [])
  | some s =>
    let lines := strings.Split 0x0A s
    if lines.length ≤ 2 then Except.ok (e, [])
    else
      match scrapeNetLoop (lines.drop 2) e [] with
      | Except.error p => Except.error p
      | Except.ok (e1, ifaces) =>
        if ifaces.length > 0 then
          match NewEthtool with
          | none => Except.ok (e1, [HwCall.NewEthtool])
          | some CmdGet =>
            match speedLoop CmdGet ifaces e1 [HwCall.NewEthtool] with
            | Except.error p => Except.error p
            | Except.ok (e2, calls) => Except.ok (e2, calls ++ [HwCall.Close])
        else Except.ok (e1, [])

/-! ## Collect -/

/-- `scrape`: the three routines in order. -/
def Exporter.scrape (e : Exporter) (m : Machine) : Except Panic (Exporter × List HwCall) :=
  match e.scrapeCpu m.proc_stat with
  | Except.error p => Except.error p
  | Except.ok e1 => (e1.scrapeMem m.proc_meminfo).scrapeNet m.proc_net_dev m.NewEthtool

/-- `Collect`, up to the point where the gauges are sent to the channel:
`resetMetrics`, then `scrape`. -/
def Exporter.Collect (e : Exporter) (m : Machine) : Except Panic (Exporter × List HwCall) :=
  e.resetMetrics.scrape m

/-! ## Vocabulary of the specification -/

/-- A non-negative decimal integer: one or more ASCII digits. -/
def IsDecimal (t : GoString) : Prop := t ≠ [] ∧ ∀ c ∈ t, 0x30 ≤ c ∧ c ≤ 0x39

instance IsDecimal.decidable (t : GoString) : Decidable (IsDecimal t) :=
  inferInstanceAs (Decidable (t ≠ [] ∧ ∀ c ∈ t, 0x30 ≤ c ∧ c ≤ 0x39))

/-- The number a string of ASCII digits denotes. -/
def decimalValue (t : GoString) : Nat := t.foldl (fun n c => n * 10 + (c - 0x30)) 0

/-- The sum `S` of the specification of `used_cpu`, over the tokens that
follow the leading `cpu`: every token but the idle one, which is the fourth
of them. -/
def sumExceptIdle (toks : List GoString) : Nat :=
  ((toks.take 3).map decimalValue).sum + ((toks.drop 4).map decimalValue).sum

/-- An aggregate line: at least 6 fields, the first exactly `cpu`. -/
def isAggregate (line : GoString) : Bool :=
  match strings.Fields line with
  | s0 :: _ :: _ :: _ :: _ :: _ :: _ => decide (s0 = str "cpu")
  | _ => false

/-- A line of at least 6 fields whose first field has fewer than 3 bytes. -/
def hasShortHead (line : GoString) : Bool :=
  match strings.Fields line with
  | s0 :: _ :: _ :: _ :: _ :: _ :: _ => decide (s0.length < 3)
  | _ => false

/-- The value of a global gauge after a routine that may panic. -/
def gaugeAfter (r : Except Panic Exporter) (name : GlobalName) : Option float64 :=
  match r with
  | Except.ok e => some (e.globalGauges name)
  | Except.error _ => none

/-- The spellings of `kb` up to case: `k`, `K` or the Kelvin sign U+212A
(bytes E2 84 AA), whose lower case is `k`, then `b` or `B`. -/
def spellings_kb : List GoString :=
  [str "kb", str "kB", str "Kb", str "KB", [0xE2, 0x84, 0xAA, 0x62], [0xE2, 0x84, 0xAA, 0x42]]

/-- The spellings of `mb` up to case. -/
def spellings_mb : List GoString := [str "mb", str "mB", str "Mb", str "MB"]

/-- The spellings of `gb` up to case. -/
def spellings_gb : List GoString := [str "gb", str "gB", str "Gb", str "GB"]

/-- The spellings of `tb` up to case. -/
def spellings_tb : List GoString := [str "tb", str "tB", str "Tb", str "TB"]

/-- A line that gives a memory field: at least 3 fields, the first the name. -/
def isFieldLine (name line : GoString) : Bool :=
  match strings.Fields line with
  | s0 :: _ :: _ :: _ => decide (s0 = name)
  | _ => false

/-- The unit-normalised value a line of at least 3 fields gives: the integer
of the second field times the multiplier of the third, as an `int64`. -/
def lineValue (line : GoString) : Int :=
  match strings.Fields line with
  | _ :: s1 :: s2 :: _ => wrap64 ((strconv.ParseInt s1).1 * unit s2)
  | _ => 0

/-- The unit-normalised value of a memory field in the source: that of the
last line that gives the field, `cur` when no line does. -/
def memField (name : GoString) : List GoString → Int → Int
  | [], cur => cur
  | line :: lines, cur =>
    memField name lines (if isFieldLine name line = true then lineValue line else cur)

/-- The unit-normalised value of a memory field, 0 when the line is absent. -/
def memValue (name content : GoString) : Int :=
  memField name (strings.Split 0x0A content) 0

/-- The interface name of a valid line of the network source: the line has
exactly one colon and at least 16 fields after it; the name is the text left
of the colon without its leading and trailing spaces. -/
def ifaceOfLine (line : GoString) : Option GoString :=
  match strings.Split 0x3A line with
  | [seg0, seg1] =>
    if 16 ≤ (strings.Fields seg1).length then some (strings.Trim seg0 0x20) else none
  | _ => none

/-- The statistics fields of a line with exactly one colon. -/
def statsOfLine (line : GoString) : List GoString :=
  match strings.Split 0x3A line with
  | [_, seg1] => strings.Fields seg1
  | _ => []

/-- The interface names parsed from the valid lines of the network source,
the two header lines left out, in the order of the lines. -/
def parsedIfaces (content : GoString) : List GoString :=
  ((strings.Split 0x0A content).drop 2).filterMap ifaceOfLine

/-- The 0-based index of the field each counter is read from. -/
def fieldIndex : NetName → Option Nat
  | NetName.total_net_input_bytes => some 0
  | NetName.total_net_input_errs => some 2
  | NetName.total_net_input_drop => some 3
  | NetName.total_net_output_bytes => some 8
  | NetName.total_net_output_errs => some 10
  | NetName.total_net_output_drop => some 11
  | NetName.interface_speed => none

/-- What `setNet` publishes for a field: its integer when `ParseInt` returns
no error, nothing otherwise. -/
def parsedField (val : GoString) : Option float64 :=
  match strconv.ParseInt val with
  | (v, none) => some (float64.ofInt v)
  | (_, some _) => none

/-- The value a line publishes for a counter, if any. -/
def counterOfLine (name : NetName) (line : GoString) : Option float64 :=
  match fieldIndex name with
  | some i => parsedField ((statsOfLine line).getD i [])
  | none => none

/-- The value of a counter for an interface after the lines have been read:
that of the last valid line of the interface that publishes one, `cur` when
there is none. -/
def lastCounter (name : NetName) (iface : GoString) :
    List GoString → Option float64 → Option float64
  | [], cur => cur
  | line :: lines, cur =>
    lastCounter name iface lines
      (if ifaceOfLine line = some iface then (counterOfLine name line).orElse (fun _ => cur)
       else cur)

/-- The speed gauge the hardware layer yields for an interface, if any: 0 for
`lo`, the shifted `uint32` result of a successful query otherwise; nothing
when the handle does not open or the query fails. -/
def hwSpeed (hw : Option (GoString → Option Nat)) (iface : GoString) : Option float64 :=
  match hw with
  | none => none
  | some CmdGet =>
    if iface = str "lo" then some (float64.ofInt 0)
    else (CmdGet iface).map (fun speed => float64.ofInt ((speed * 2 ^ 17 % 2 ^ 32 : Nat) : Int))

/-- The integer a token denotes: ASCII digits after an optional sign. -/
def integerValue? (t : GoString) : Option Int :=
  match t with
  | [] => none
  | c :: cs =>
    if c = 0x2D then (if IsDecimal cs then some (-(decimalValue cs : Int)) else none)
    else if c = 0x2B then (if IsDecimal cs then some (decimalValue cs : Int) else none)
    else if IsDecimal (c :: cs) then some (decimalValue (c :: cs) : Int)
    else none

/-- A decimal integer in the signed 64-bit range. -/
def IsInt64 (t : GoString) : Bool :=
  match integerValue? t with
  | some v => decide (-(2 ^ 63) ≤ v ∧ v < 2 ^ 63)
  | none => false

/-- The unit multiplier as the specification gives it: `2^10`, `2^20`, `2^30`,
`2^40` for `kb`, `mb`, `gb`, `tb` up to case, and 1 for every other suffix. -/
def specUnit (s : GoString) : Int :=
  if s ∈ spellings_kb then 2 ^ 10
  else if s ∈ spellings_mb then 2 ^ 20
  else if s ∈ spellings_gb then 2 ^ 30
  else if s ∈ spellings_tb then 2 ^ 40
  else 1

/-- The unit-normalised value of a line of at least 3 fields as the
specification gives it: the integer the second field denotes times the
multiplier of the third, an integer without bound; nothing when the second
field is not a decimal integer. -/
def specLineValue (line : GoString) : Option Int :=
  match strings.Fields line with
  | _ :: s1 :: s2 :: _ => (integerValue? s1).map (fun v => v * specUnit s2)
  | _ => none

/-- The unit-normalised value of a memory field as the specification gives it:
that of the last line of at least 3 fields that names the field, `cur` when no
line does. -/
def specMemField (name : GoString) : List GoString → Option Int → Option Int
  | [], cur => cur
  | line :: lines, cur =>
    specMemField name lines (if isFieldLine name line = true then specLineValue line else cur)

/-- The unit-normalised value of a memory field as the specification gives it,
0 when the line is absent. -/
def specMemValue (name content : GoString) : Option Int :=
  specMemField name (strings.Split 0x0A content) (some 0)

/-- An integer of the signed 64-bit range. -/
def inInt64 (x : Int) : Bool := decide (-(2 ^ 63) ≤ x ∧ x < 2 ^ 63)

/-- An interface label that carries at least one published per-interface
value. -/
def Exporter.labelled (e : Exporter) (iface : GoString) : Prop :=
  ∃ name, (e.netGauges name iface).isSome = true

instance Exporter.labelled.decidable (e : Exporter) (iface : GoString) :
    Decidable (e.labelled iface) :=
  inferInstanceAs (Decidable (∃ name, (e.netGauges name iface).isSome = true))

/-- The labels of a run that completed; no label after a panic. -/
def labelledAfter (r : Except Panic (Exporter × List HwCall)) (iface : GoString) : Bool :=
  match r with
  | Except.ok (e, _) => decide (e.labelled iface)
  | Except.error _ => false

/-- A container state left by an earlier cycle, with a value for `eth9`. -/
def staleExporter : Exporter :=
  NewExporter.storeNet NetName.total_net_input_bytes (str "eth9") (float64.ofInt 7)

/-- A machine with one interface `eth0` and one `lo`, whose handle opens and
whose queries succeed with 1000. -/
def exampleMachine : Machine :=
  { proc_stat := some (str "cpu 100 0 200 700 50 0\ncpu0 100 0 200 700 50 0")
    proc_meminfo := some (str "MemTotal: 2048 kB\nMemFree: 1024 kB")
    proc_net_dev := some (str
      "h1\nh2\n  eth0: 1000 0 5 2 0 0 0 0 500 0 3 1 0 0 0 0\n    lo: 1 0 0 0 0 0 0 0 1 0 0 0 0 0 0 0")
    NewEthtool := some (fun _ => some 1000) }

/-- A machine whose only interface line has no field that parses and whose
query fails. -/
def silentMachine : Machine :=
  { proc_stat := some (str "cpu 100 0 200 700 50 0")
    proc_meminfo := some (str "MemTotal: 2048 kB")
    proc_net_dev := some (str "h1\nh2\n  eth0: x x x x x x x x x x x x x x x x")
    NewEthtool := some (fun _ => none) }

/-- A machine whose one interface line is named by the byte FF, which is not
valid UTF-8. -/
def rawNameMachine : Machine :=
  { proc_stat := some (str "cpu 100 0 200 700 50 0")
    proc_meminfo := some (str "MemTotal: 2048 kB")
    proc_net_dev := some
      (str "h1\nh2\n" ++ 0xFF :: str ": 1 2 3 4 5 6 7 8 9 10 11 12 13 14 15 16")
    NewEthtool := some (fun _ => some 1000) }

/-- The list `ifaces` after the body of the network loop; nothing after a
panic. -/
def ifacesAfter (r : Except Panic (Exporter × List GoString)) : Option (List GoString) :=
  match r with
  | Except.ok (_, ifaces) => some ifaces
  | Except.error _ => none

/-- A machine whose CPU source is a line of 6 fields with a first field of one
byte, beside a valid `eth0` line. -/
def shortHeadMachine : Machine :=
  { proc_stat := some (str "a b c d e f")
    proc_meminfo := some (str "MemTotal: 2048 kB")
    proc_net_dev := some (str "h1\nh2\n  eth0: 1000 0 5 2 0 0 0 0 500 0 3 1 0 0 0 0")
    NewEthtool := some (fun _ => some 1000) }

/-- The five field names of the map `mem`. -/
def memNames : List GoString :=
  [str "MemTotal:", str "MemFree:", str "MemAvailable:", str "Buffers:", str "Cached:"]

/-- A suffix that `unit` recognises. -/
def isUnitSuffix (s : GoString) : Bool :=
  decide (s ∈ spellings_kb ∨ s ∈ spellings_mb ∨ s ∈ spellings_gb ∨ s ∈ spellings_tb)

/-- A machine whose one interface line starts with a tab. -/
def tabMachine : Machine :=
  { proc_stat := some (str "cpu 100 0 200 700 50 0")
    proc_meminfo := some (str "MemTotal: 2048 kB")
    proc_net_dev := some (str "h1\nh2\n\teth0: 1000 0 5 2 0 0 0 0 500 0 3 1 0 0 0 0")
    NewEthtool := some (fun _ => some 1000) }

/-- The value of a per-interface gauge after a run that completed; no value
after a panic. -/
def netGaugeAfter (r : Except Panic (Exporter × List HwCall)) (name : NetName)
    (iface : GoString) : Option float64 :=
  match r with
  | Except.ok (e, _) => e.netGauges name iface
  | Except.error _ => none

/-- A machine whose network source names `eth0` on two valid lines, the second
with a first field that does not parse. -/
def dupMachine : Machine :=
  { proc_stat := some (str "cpu 100 0 200 700 50 0")
    proc_meminfo := some (str "MemTotal: 2048 kB")
    proc_net_dev := some (str
      "h1\nh2\neth0: 5 0 0 0 0 0 0 0 0 0 0 0 0 0 0 0\neth0: x 0 0 0 0 0 0 0 0 0 0 0 0 0 0 0")
    NewEthtool := some (fun _ => some 1000) }

/-- A machine whose `eth0` line has a first field that does not parse. -/
def partMachine : Machine :=
  { proc_stat := some (str "cpu 100 0 200 700 50 0")
    proc_meminfo := some (str "MemTotal: 2048 kB")
    proc_net_dev := some (str "h1\nh2\n  eth0: x 0 5 2 0 0 0 0 500 0 3 1 0 0 0 0")
    NewEthtool := some (fun _ => some 1000) }

/-- The core index of a per-core line: the line has at least 6 fields and its
first field is `cpu` followed at once by a decimal integer `N` (digits, an
optional sign before them) with `0 ≤ N < 2^63 - 1`. -/
def coreIndex? (line : GoString) : Option Int :=
  match strings.Fields line with
  | s0 :: _ :: _ :: _ :: _ :: _ :: _ =>
    if s0.take 3 = str "cpu" then
      match integerValue? (s0.drop 3) with
      | some N => if 0 ≤ N ∧ N < 2 ^ 63 - 1 then some N else none
      | none => none
    else none
  | _ => none

/-- The count a line asks for: one more than its core index, 1 without one. -/
def coreStep (line : GoString) : Int :=
  match coreIndex? line with
  | some N => N + 1
  | none => 1

/-- The core count of a CPU source: 1 + the maximum core index of its lines,
1 when no line has one. -/
def coreCount (content : GoString) : Int :=
  match ((strings.Split 0x0A content).filterMap coreIndex?).max? with
  | some N => 1 + N
  | none => 1

/-- The calls made to the hardware query layer by a run that completed; none
is recorded for a run that panics. -/
def callsAfter (r : Except Panic (Exporter × List HwCall)) : List HwCall :=
  match r with
  | Except.ok (_, calls) => calls
  | Except.error _ => []

/-- The CPU gauges. -/
def cpuGauges : List GlobalName :=
  [GlobalName.used_cpu_user, GlobalName.used_cpu_sys, GlobalName.used_cpu_idle,
    GlobalName.used_cpu_iowait, GlobalName.used_cpu, GlobalName.cpu]

/-- The memory gauges. -/
def memGauges : List GlobalName :=
  [GlobalName.used_memory, GlobalName.available_memory, GlobalName.total_memory]

/-- A machine on which no source can be read. -/
def darkMachine : Machine :=
  { proc_stat := none, proc_meminfo := none, proc_net_dev := none,
    NewEthtool := some (fun _ => some 1000) }

/-- A container state left by an earlier cycle, with gauges that are not 0. -/
def usedExporter : Exporter :=
  ((staleExporter.setGlobal GlobalName.used_cpu (float64.ofIntDiv100 350)).setGlobal
    GlobalName.cpu (float64.ofInt 4)).setGlobal GlobalName.total_memory (float64.ofInt 2048)

/-- A state with some global gauges overwritten: `ov` gives the new value of a
gauge, `none` for a gauge that keeps its value. -/
def Exporter.override (e : Exporter) (ov : GlobalName → Option float64) : Exporter :=
  { globalGauges := fun k => (ov k).getD (e.globalGauges k)
    netGauges := e.netGauges }

/-- A change of state that overwrites some global gauges with fixed values and
does nothing else. -/
def IsOverride (f : Exporter → Exporter) : Prop :=
  ∃ ov, ∀ e : Exporter, f e = e.override ov

/-- Two collection cycles in a row: the second starts from the state the first
leaves; a panic of the first ends the run. -/
def collectTwice (e : Exporter) (m : Machine) : Except Panic (Exporter × List HwCall) :=
  match e.Collect m with
  | Except.ok (e1, _) => e1.Collect m
  | Except.error p => Except.error p


/-! # Theorems -/

/-! ## Machine integers -/

theorem wrap64_of_range (x : Int) (h0 : -(2 ^ 63) ≤ x) (h1 : x < 2 ^ 63) : wrap64 x = x := by
  unfold wrap64
  omega

theorem wrap64_add_left (a b : Int) : wrap64 (wrap64 a + b) = wrap64 (a + b) := by
  unfold wrap64
  omega

/-! ## UTF-8 decoding and `strings.ToLower` -/

theorem acceptRange_bounds (b0 : Nat) :
    0x80 ≤ (utf8.acceptRange b0).1 ∧ (utf8.acceptRange b0).2 ≤ 0xBF
      ∧ (b0 = 0xE0 → (utf8.acceptRange b0).1 = 0xA0)
      ∧ (b0 = 0xF0 → (utf8.acceptRange b0).1 = 0x90) := by
  unfold utf8.acceptRange
  split_ifs <;> simp <;> omega

/-- The shapes of a decoded rune. -/
theorem decode_cases (b0 : Nat) (rest : GoString) :
    (b0 < 0x80 ∧ utf8.DecodeRuneInString (b0 :: rest) = (b0, 1))
    ∨ utf8.DecodeRuneInString (b0 :: rest) = (0xFFFD, 1)
    ∨ (∃ b1 tl, rest = b1 :: tl ∧ 0xC2 ≤ b0 ∧ b0 ≤ 0xDF ∧ 0x80 ≤ b1 ∧ b1 ≤ 0xBF
        ∧ utf8.DecodeRuneInString (b0 :: rest) = ((b0 - 0xC0) * 64 + (b1 - 0x80), 2))
    ∨ (∃ b1 b2 tl, rest = b1 :: b2 :: tl ∧ 0xE0 ≤ b0 ∧ b0 ≤ 0xEF ∧ 0x80 ≤ b1 ∧ b1 ≤ 0xBF
        ∧ (b0 = 0xE0 → 0xA0 ≤ b1) ∧ 0x80 ≤ b2 ∧ b2 ≤ 0xBF
        ∧ utf8.DecodeRuneInString (b0 :: rest)
            = ((b0 - 0xE0) * 4096 + (b1 - 0x80) * 64 + (b2 - 0x80), 3))
    ∨ (∃ b1 b2 b3 tl, rest = b1 :: b2 :: b3 :: tl ∧ 0xF0 ≤ b0 ∧ b0 ≤ 0xF4
        ∧ 0x80 ≤ b1 ∧ b1 ≤ 0xBF ∧ (b0 = 0xF0 → 0x90 ≤ b1)
        ∧ utf8.DecodeRuneInString (b0 :: rest)
            = ((b0 - 0xF0) * 262144 + (b1 - 0x80) * 4096 + (b2 - 0x80) * 64 + (b3 - 0x80), 4)) := by
  have hr := acceptRange_bounds b0
  simp only [utf8.DecodeRuneInString, utf8.RuneError]
  by_cases h0 : b0 < 0x80
  · left
    exact ⟨h0, by rw [if_pos h0]⟩
  · right
    rw [if_neg h0]
    by_cases h1 : 0xC2 ≤ b0 ∧ b0 ≤ 0xDF
    · rw [if_pos h1]
      cases rest with
      | nil => left; rfl
      | cons b1 tl =>
        by_cases hc : utf8.isCont b1 = true
        · right; left
          simp only [hc, if_true]
          simp only [utf8.isCont, Bool.and_eq_true, decide_eq_true_eq] at hc
          exact ⟨b1, tl, rfl, h1.1, h1.2, hc.1, hc.2, rfl⟩
        · left
          simp only [hc]
          rfl
    · rw [if_neg h1]
      by_cases h2 : 0xE0 ≤ b0 ∧ b0 ≤ 0xEF
      · rw [if_pos h2]
        match rest with
        | [] => left; rfl
        | [_] => left; rfl
        | b1 :: b2 :: tl =>
          by_cases hc : (utf8.acceptRange b0).1 ≤ b1 ∧ b1 ≤ (utf8.acceptRange b0).2
              ∧ utf8.isCont b2 = true
          · right; right; left
            simp only [hc, and_self, if_true]
            obtain ⟨c1, c2, c3⟩ := hc
            simp only [utf8.isCont, Bool.and_eq_true, decide_eq_true_eq] at c3
            exact ⟨b1, b2, tl, rfl, h2.1, h2.2, by omega, by omega,
              fun h => by have := hr.2.2.1 h; omega, c3.1, c3.2, rfl⟩
          · left
            simp only [if_neg hc]
      · rw [if_neg h2]
        by_cases h3 : 0xF0 ≤ b0 ∧ b0 ≤ 0xF4
        · rw [if_pos h3]
          match rest with
          | [] => left; rfl
          | [_] => left; rfl
          | [_, _] => left; rfl
          | b1 :: b2 :: b3 :: tl =>
            by_cases hc : (utf8.acceptRange b0).1 ≤ b1 ∧ b1 ≤ (utf8.acceptRange b0).2
                ∧ utf8.isCont b2 = true ∧ utf8.isCont b3 = true
            · right; right; right
              simp only [hc, and_self, if_true]
              obtain ⟨c1, c2, c3, c4⟩ := hc
              exact ⟨b1, b2, b3, tl, rfl, h3.1, h3.2, by omega, by omega,
                fun h => by have := hr.2.2.2 h; omega, rfl⟩
            · left
              simp only [if_neg hc]
        · left
          rw [if_neg h3]

theorem decode_ascii (b0 : Nat) (rest : GoString)
    (h : (utf8.DecodeRuneInString (b0 :: rest)).1 < 0x80) :
    utf8.DecodeRuneInString (b0 :: rest) = (b0, 1) ∧ b0 < 0x80 := by
  rcases decode_cases b0 rest with h1 | h1 | ⟨b1, tl, -, c1, c2, c3, c4, h1⟩
    | ⟨b1, b2, tl, -, c1, c2, c3, c4, c5, c6, c7, h1⟩
    | ⟨b1, b2, b3, tl, -, c1, c2, c3, c4, c5, h1⟩
  · exact ⟨h1.2, h1.1⟩
  all_goals
    rw [h1] at h
    simp only at h
    omega

theorem decode_kelvin (b0 : Nat) (rest : GoString)
    (h : (utf8.DecodeRuneInString (b0 :: rest)).1 = 0x212A) :
    ∃ tl, b0 :: rest = 0xE2 :: 0x84 :: 0xAA :: tl
      ∧ utf8.DecodeRuneInString (b0 :: rest) = (0x212A, 3) := by
  rcases decode_cases b0 rest with h1 | h1 | ⟨b1, tl, -, c1, c2, c3, c4, h1⟩
    | ⟨b1, b2, tl, hrest, c1, c2, c3, c4, c5, c6, c7, h1⟩
    | ⟨b1, b2, b3, tl, -, c1, c2, c3, c4, c5, h1⟩
  · rw [h1.2] at h
    simp only at h
    omega
  · rw [h1] at h
    simp only at h
    omega
  · rw [h1] at h
    simp only at h
    omega
  · rw [h1] at h ⊢
    simp only at h
    have hb0 : b0 = 0xE2 := by omega
    have hb1 : b1 = 0x84 := by omega
    have hb2 : b2 = 0xAA := by omega
    subst hb0 hb1 hb2 hrest
    exact ⟨tl, rfl, rfl⟩
  · rw [h1] at h
    simp only at h
    omega

theorem EncodeRune_ascii (r : Nat) (h : r < 0x80) : utf8.EncodeRune r = [r] := by
  unfold utf8.EncodeRune
  rw [if_pos h]

theorem EncodeRune_high (r : Nat) (h : 0x80 ≤ r) :
    ∃ b tl, utf8.EncodeRune r = b :: tl ∧ 0x80 ≤ b := by
  unfold utf8.EncodeRune
  rw [if_neg (by omega)]
  split_ifs
  · exact ⟨_, _, rfl, by omega⟩
  · exact ⟨_, _, rfl, by omega⟩
  · exact ⟨_, _, rfl, by omega⟩
  · exact ⟨_, _, rfl, by omega⟩

theorem runesFrom_drop (k : Nat) (l : GoString) :
    utf8.runesFrom k l = utf8.runesFrom 0 (l.drop k) := by
  induction k generalizing l with
  | zero => rfl
  | succ k ih =>
    cases l with
    | nil => rfl
    | cons b tl =>
      simp only [utf8.runesFrom, List.drop_succ_cons]
      exact ih tl

theorem ToLower_cons_bytes (b0 : Nat) (rest : GoString) :
    strings.ToLower (b0 :: rest)
      = utf8.EncodeRune (unicode.ToLower (utf8.DecodeRuneInString (b0 :: rest)).1)
        ++ strings.ToLower (rest.drop ((utf8.DecodeRuneInString (b0 :: rest)).2 - 1)) := by
  simp only [strings.ToLower, utf8.runes, utf8.runesFrom, List.flatMap_cons]
  rw [runesFrom_drop]

theorem ToLower_eq_nil (s : GoString) (h : strings.ToLower s = []) : s = [] := by
  cases s with
  | nil => rfl
  | cons b0 rest =>
    exfalso
    rw [ToLower_cons_bytes] at h
    have h1 := (List.append_eq_nil.mp h).1
    by_cases hr : unicode.ToLower (utf8.DecodeRuneInString (b0 :: rest)).1 < 0x80
    · rw [EncodeRune_ascii _ hr] at h1
      exact absurd h1 (by simp)
    · obtain ⟨b, tl, hb, -⟩ := EncodeRune_high _ (Nat.le_of_not_lt hr)
      rw [hb] at h1
      exact absurd h1 (by simp)

/-- The first rune of a string whose lower case starts with the ASCII letter
`x` (not `i`): `x` itself, its capital, or the Kelvin sign when `x` is `k`. -/
theorem ToLower_eq_cons (s : GoString) (x : Nat) (w : GoString)
    (hx : 0x61 ≤ x ∧ x ≤ 0x7A) (hi : x ≠ 0x69) (h : strings.ToLower s = x :: w) :
    ∃ c rest, s = c ++ rest ∧ strings.ToLower rest = w
      ∧ (c = [x] ∨ c = [x - 0x20] ∨ (x = 0x6B ∧ c = [0xE2, 0x84, 0xAA])) := by
  cases s with
  | nil => exact absurd h (by simp [strings.ToLower, utf8.runes, utf8.runesFrom])
  | cons b0 rest =>
    rw [ToLower_cons_bytes] at h
    by_cases hr : unicode.ToLower (utf8.DecodeRuneInString (b0 :: rest)).1 < 0x80
    · rw [EncodeRune_ascii _ hr] at h
      simp only [List.singleton_append, List.cons.injEq] at h
      obtain ⟨hlow, hw⟩ := h
      by_cases hd : (utf8.DecodeRuneInString (b0 :: rest)).1 < 0x80
      · obtain ⟨hdec, hb0⟩ := decode_ascii b0 rest hd
        rw [hdec] at hlow hw
        simp only [Nat.sub_self, List.drop_zero] at hw hlow
        refine ⟨[b0], rest, rfl, hw, ?_⟩
        unfold unicode.ToLower at hlow
        split_ifs at hlow
        · right; left
          congr 1
          omega
        · omega
        · omega
        · left
          rw [hlow]
      · by_cases hk : (utf8.DecodeRuneInString (b0 :: rest)).1 = 0x212A
        · obtain ⟨tl, hs, hdec⟩ := decode_kelvin b0 rest hk
          rw [hdec] at hlow hw
          simp only [List.cons.injEq] at hs
          obtain ⟨hb0, hrest⟩ := hs
          subst hb0 hrest
          refine ⟨[0xE2, 0x84, 0xAA], tl, rfl, hw, ?_⟩
          right; right
          refine ⟨?_, rfl⟩
          rw [← hlow]
          decide
        · exfalso
          unfold unicode.ToLower at hlow hr
          split_ifs at hlow hr <;> omega
    · exfalso
      obtain ⟨b, tl, hb, hge⟩ := EncodeRune_high _ (Nat.le_of_not_lt hr)
      rw [hb] at h
      simp only [List.cons_append, List.cons.injEq] at h
      omega

theorem ToLower_two_letters (s : GoString) (x y : Nat)
    (hx : 0x61 ≤ x ∧ x ≤ 0x7A) (hxi : x ≠ 0x69) (hy : 0x61 ≤ y ∧ y ≤ 0x7A) (hyi : y ≠ 0x69)
    (h : strings.ToLower s = [x, y]) :
    ∃ c1 c2, s = c1 ++ c2
      ∧ (c1 = [x] ∨ c1 = [x - 0x20] ∨ (x = 0x6B ∧ c1 = [0xE2, 0x84, 0xAA]))
      ∧ (c2 = [y] ∨ c2 = [y - 0x20] ∨ (y = 0x6B ∧ c2 = [0xE2, 0x84, 0xAA])) := by
  obtain ⟨c1, r1, hs1, hw1, hc1⟩ := ToLower_eq_cons s x [y] hx hxi h
  obtain ⟨c2, r2, hs2, hw2, hc2⟩ := ToLower_eq_cons r1 y [] hy hyi hw1
  have hr2 := ToLower_eq_nil r2 hw2
  subst hr2
  rw [List.append_nil] at hs2
  subst hs2
  exact ⟨c1, r1, hs1, hc1, hc2⟩

theorem ToLower_eq_kb (s : GoString) : strings.ToLower s = str "kb" ↔ s ∈ spellings_kb := by
  constructor
  · intro h
    have hw : str "kb" = [0x6B, 0x62] := by decide
    rw [hw] at h
    obtain ⟨c1, c2, hs, h1, h2⟩ := ToLower_two_letters s _ _ (by omega) (by omega)
      (by omega) (by omega) h
    rcases h1 with h1 | h1 | ⟨-, h1⟩ <;> rcases h2 with h2 | h2 | ⟨h2, -⟩ <;>
      first
        | omega
        | (subst h1 h2 hs; decide)
  · intro h
    simp only [spellings_kb, List.mem_cons, List.mem_singleton, List.not_mem_nil, or_false] at h
    rcases h with h | h | h | h | h | h <;> subst h <;> decide

theorem ToLower_eq_mb (s : GoString) : strings.ToLower s = str "mb" ↔ s ∈ spellings_mb := by
  constructor
  · intro h
    have hw : str "mb" = [0x6D, 0x62] := by decide
    rw [hw] at h
    obtain ⟨c1, c2, hs, h1, h2⟩ := ToLower_two_letters s _ _ (by omega) (by omega)
      (by omega) (by omega) h
    rcases h1 with h1 | h1 | ⟨h1, -⟩ <;> rcases h2 with h2 | h2 | ⟨h2, -⟩ <;>
      first
        | omega
        | (subst h1 h2 hs; decide)
  · intro h
    simp only [spellings_mb, List.mem_cons, List.mem_singleton, List.not_mem_nil, or_false] at h
    rcases h with h | h | h | h <;> subst h <;> decide

theorem ToLower_eq_gb (s : GoString) : strings.ToLower s = str "gb" ↔ s ∈ spellings_gb := by
  constructor
  · intro h
    have hw : str "gb" = [0x67, 0x62] := by decide
    rw [hw] at h
    obtain ⟨c1, c2, hs, h1, h2⟩ := ToLower_two_letters s _ _ (by omega) (by omega)
      (by omega) (by omega) h
    rcases h1 with h1 | h1 | ⟨h1, -⟩ <;> rcases h2 with h2 | h2 | ⟨h2, -⟩ <;>
      first
        | omega
        | (subst h1 h2 hs; decide)
  · intro h
    simp only [spellings_gb, List.mem_cons, List.mem_singleton, List.not_mem_nil, or_false] at h
    rcases h with h | h | h | h <;> subst h <;> decide

theorem ToLower_eq_tb (s : GoString) : strings.ToLower s = str "tb" ↔ s ∈ spellings_tb := by
  constructor
  · intro h
    have hw : str "tb" = [0x74, 0x62] := by decide
    rw [hw] at h
    obtain ⟨c1, c2, hs, h1, h2⟩ := ToLower_two_letters s _ _ (by omega) (by omega)
      (by omega) (by omega) h
    rcases h1 with h1 | h1 | ⟨h1, -⟩ <;> rcases h2 with h2 | h2 | ⟨h2, -⟩ <;>
      first
        | omega
        | (subst h1 h2 hs; decide)
  · intro h
    simp only [spellings_tb, List.mem_cons, List.mem_singleton, List.not_mem_nil, or_false] at h
    rcases h with h | h | h | h <;> subst h <;> decide

/-! ## strconv on decimal tokens -/

theorem foldl_digits_ge (cs : GoString) (n : Nat) :
    n ≤ cs.foldl (fun n c => n * 10 + (c - 0x30)) n := by
  induction cs generalizing n with
  | nil => simp
  | cons c cs ih =>
    simp only [List.foldl_cons]
    exact le_trans (by omega) (ih _)

theorem parseUintLoop_digits (cs : GoString) (n : Nat)
    (hd : ∀ c ∈ cs, 0x30 ≤ c ∧ c ≤ 0x39)
    (hv : cs.foldl (fun n c => n * 10 + (c - 0x30)) n < 2 ^ 64) :
    strconv.parseUintLoop cs n = (cs.foldl (fun n c => n * 10 + (c - 0x30)) n, none) := by
  induction cs generalizing n with
  | nil => simp [strconv.parseUintLoop]
  | cons c cs ih =>
    have hc := hd c (List.mem_cons_self _ _)
    simp only [List.foldl_cons] at hv ⊢
    have hge := foldl_digits_ge cs (n * 10 + (c - 0x30))
    have hlt : n * 10 + (c - 0x30) < 2 ^ 64 := lt_of_le_of_lt hge hv
    have hmod : (n * 10 + (c - 0x30)) % 2 ^ 64 = n * 10 + (c - 0x30) := Nat.mod_eq_of_lt hlt
    unfold strconv.parseUintLoop
    rw [if_pos hc, if_neg (by omega)]
    simp only [hmod]
    rw [if_neg (by omega)]
    exact ih _ (fun c h => hd c (List.mem_cons_of_mem _ h)) hv

theorem ParseInt_decimal (t : GoString) (hd : IsDecimal t) (hv : decimalValue t < 2 ^ 63) :
    strconv.ParseInt t = ((decimalValue t : Int), none) := by
  obtain ⟨hne, hdig⟩ := hd
  cases t with
  | nil => exact absurd rfl hne
  | cons c cs =>
    have hc := hdig c (List.mem_cons_self _ _)
    have hu : strconv.ParseUint (c :: cs) = (decimalValue (c :: cs), none) := by
      unfold strconv.ParseUint
      rw [if_neg (by simp)]
      exact parseUintLoop_digits _ 0 hdig (lt_trans hv (by norm_num))
    unfold strconv.ParseInt
    have h1 : ¬ (c = 0x2B ∨ c = 0x2D) := by omega
    have h2 : decide (c = 0x2D) = false := by simp; omega
    simp only [h1, h2, if_false, hu]
    rw [if_neg (by omega)]
    simp

theorem parseUintLoop_error (cs : GoString) (n : Nat) :
    ((strconv.parseUintLoop cs n).2 = some strconv.NumError.ErrSyn
        → (strconv.parseUintLoop cs n).1 = 0)
    ∧ ((strconv.parseUintLoop cs n).2 = some strconv.NumError.ErrRange
        → (strconv.parseUintLoop cs n).1 = 2 ^ 64 - 1) := by
  induction cs generalizing n with
  | nil => simp [strconv.parseUintLoop]
  | cons c cs ih =>
    unfold strconv.parseUintLoop
    by_cases hc : 0x30 ≤ c ∧ c ≤ 0x39
    · rw [if_pos hc]
      by_cases h1 : n ≥ (2 ^ 64 - 1) / 10 + 1
      · rw [if_pos h1]
        simp
      · rw [if_neg h1]
        dsimp only
        by_cases h2 : (n * 10 + (c - 0x30)) % 2 ^ 64 < n * 10
            ∨ (n * 10 + (c - 0x30)) % 2 ^ 64 > 2 ^ 64 - 1
        · rw [if_pos h2]
          simp
        · rw [if_neg h2]
          exact ih _
    · rw [if_neg hc]
      simp

theorem parseUintLoop_overflow (cs : GoString) (n : Nat) (hn : n < 2 ^ 64)
    (hd : ∀ c ∈ cs, 0x30 ≤ c ∧ c ≤ 0x39)
    (hv : 2 ^ 64 ≤ cs.foldl (fun n c => n * 10 + (c - 0x30)) n) :
    strconv.parseUintLoop cs n = (2 ^ 64 - 1, some strconv.NumError.ErrRange) := by
  induction cs generalizing n with
  | nil =>
    simp only [List.foldl_nil] at hv
    omega
  | cons c cs ih =>
    have hc := hd c (List.mem_cons_self _ _)
    simp only [List.foldl_cons] at hv
    unfold strconv.parseUintLoop
    rw [if_pos hc]
    by_cases h1 : n ≥ (2 ^ 64 - 1) / 10 + 1
    · rw [if_pos h1]
    · rw [if_neg h1]
      dsimp only
      by_cases h2 : (n * 10 + (c - 0x30)) % 2 ^ 64 < n * 10
          ∨ (n * 10 + (c - 0x30)) % 2 ^ 64 > 2 ^ 64 - 1
      · rw [if_pos h2]
      · rw [if_neg h2]
        have hlt : n * 10 + (c - 0x30) < 2 ^ 64 := by
          by_contra hge
          have hmod : (n * 10 + (c - 0x30)) % 2 ^ 64 = n * 10 + (c - 0x30) - 2 ^ 64 := by
            omega
          omega
        have hmod : (n * 10 + (c - 0x30)) % 2 ^ 64 = n * 10 + (c - 0x30) :=
          Nat.mod_eq_of_lt hlt
        rw [hmod]
        exact ih _ hlt (fun c h => hd c (List.mem_cons_of_mem _ h)) hv

theorem ParseUint_error (s : GoString) :
    ((strconv.ParseUint s).2 = some strconv.NumError.ErrSyn → (strconv.ParseUint s).1 = 0)
    ∧ ((strconv.ParseUint s).2 = some strconv.NumError.ErrRange
        → (strconv.ParseUint s).1 = 2 ^ 64 - 1) := by
  unfold strconv.ParseUint
  split_ifs
  · simp
  · exact parseUintLoop_error s 0

/-- `ParseInt` in terms of the result `(un, err)` of `ParseUint` on the digits. -/
theorem ParseInt_cons (c : Nat) (cs : GoString) (un : Nat) (err : Option strconv.NumError)
    (h : strconv.ParseUint (if c = 0x2B ∨ c = 0x2D then cs else c :: cs) = (un, err)) :
    strconv.ParseInt (c :: cs)
      = if err = some strconv.NumError.ErrSyn then (0, some strconv.NumError.ErrSyn)
        else if c ≠ 0x2D ∧ un ≥ 2 ^ 63 then (2 ^ 63 - 1, some strconv.NumError.ErrRange)
        else if c = 0x2D ∧ un > 2 ^ 63 then (-(2 ^ 63), some strconv.NumError.ErrRange)
        else if c = 0x2D then (-(un : Int), none)
        else ((un : Int), none) := by
  unfold strconv.ParseInt
  simp only [h]
  rcases err with _ | e
  · by_cases hc : c = 0x2D <;> simp [hc]
  · cases e
    · simp
    · by_cases hc : c = 0x2D <;> simp [hc]

theorem ParseInt_error (t : GoString) :
    ((strconv.ParseInt t).2 = some strconv.NumError.ErrSyn → (strconv.ParseInt t).1 = 0)
    ∧ ((strconv.ParseInt t).2 = some strconv.NumError.ErrRange
        → (strconv.ParseInt t).1 = 2 ^ 63 - 1 ∨ (strconv.ParseInt t).1 = -(2 ^ 63)) := by
  cases t with
  | nil => simp [strconv.ParseInt]
  | cons c cs =>
    cases hp : strconv.ParseUint (if c = 0x2B ∨ c = 0x2D then cs else c :: cs) with
    | mk un err =>
      rw [ParseInt_cons c cs un err hp]
      split_ifs <;> simp

theorem ParseInt_decimal_overflow (t : GoString) (hd : IsDecimal t)
    (hv : 2 ^ 63 ≤ decimalValue t) :
    strconv.ParseInt t = (2 ^ 63 - 1, some strconv.NumError.ErrRange) := by
  obtain ⟨hne, hdig⟩ := hd
  cases t with
  | nil => exact absurd rfl hne
  | cons c cs =>
    have hc := hdig c (List.mem_cons_self _ _)
    have h1 : ¬ (c = 0x2B ∨ c = 0x2D) := by omega
    have hbody : (if c = 0x2B ∨ c = 0x2D then cs else c :: cs) = c :: cs := if_neg h1
    by_cases hbig : decimalValue (c :: cs) < 2 ^ 64
    · have hu : strconv.ParseUint (c :: cs) = (decimalValue (c :: cs), none) := by
        unfold strconv.ParseUint
        rw [if_neg (by simp)]
        exact parseUintLoop_digits _ 0 hdig hbig
      have hp : strconv.ParseUint (if c = 0x2B ∨ c = 0x2D then cs else c :: cs)
          = (decimalValue (c :: cs), none) := by rw [hbody]; exact hu
      rw [ParseInt_cons c cs _ _ hp, if_neg (by simp), if_pos ⟨by omega, hv⟩]
    · have hu : strconv.ParseUint (c :: cs) = (2 ^ 64 - 1, some strconv.NumError.ErrRange) := by
        unfold strconv.ParseUint
        rw [if_neg (by simp)]
        exact parseUintLoop_overflow _ 0 (by norm_num) hdig (by unfold decimalValue at hbig; omega)
      have hp : strconv.ParseUint (if c = 0x2B ∨ c = 0x2D then cs else c :: cs)
          = (2 ^ 64 - 1, some strconv.NumError.ErrRange) := by rw [hbody]; exact hu
      rw [ParseInt_cons c cs _ _ hp, if_neg (by simp), if_pos ⟨by omega, by norm_num⟩]

theorem ParseInt_integer (t : GoString) (v : Int) (hv : integerValue? t = some v)
    (h0 : -(2 ^ 63) ≤ v) (h1 : v < 2 ^ 63) : strconv.ParseInt t = (v, none) := by
  cases t with
  | nil => simp [integerValue?] at hv
  | cons c cs =>
    simp only [integerValue?] at hv
    by_cases hm : c = 0x2D
    · rw [if_pos hm] at hv
      by_cases hd : IsDecimal cs
      · rw [if_pos hd] at hv
        simp only [Option.some.injEq] at hv
        have hp : strconv.ParseUint (if c = 0x2B ∨ c = 0x2D then cs else c :: cs)
            = (decimalValue cs, none) := by
          rw [if_pos (Or.inr hm)]
          unfold strconv.ParseUint
          rw [if_neg hd.1]
          exact parseUintLoop_digits _ 0 hd.2 (by unfold decimalValue at hv; omega)
        rw [ParseInt_cons c cs _ _ hp, if_neg (by simp), if_neg (by omega),
          if_neg (by omega), if_pos hm, hv]
      · rw [if_neg hd] at hv
        exact absurd hv (by simp)
    · rw [if_neg hm] at hv
      by_cases hp : c = 0x2B
      · rw [if_pos hp] at hv
        by_cases hd : IsDecimal cs
        · rw [if_pos hd] at hv
          simp only [Option.some.injEq] at hv
          have hq : strconv.ParseUint (if c = 0x2B ∨ c = 0x2D then cs else c :: cs)
              = (decimalValue cs, none) := by
            rw [if_pos (Or.inl hp)]
            unfold strconv.ParseUint
            rw [if_neg hd.1]
            exact parseUintLoop_digits _ 0 hd.2 (by unfold decimalValue at hv; omega)
          rw [ParseInt_cons c cs _ _ hq, if_neg (by simp), if_neg (by omega),
            if_neg (by omega), if_neg hm, hv]
        · rw [if_neg hd] at hv
          exact absurd hv (by simp)
      · rw [if_neg hp] at hv
        by_cases hd : IsDecimal (c :: cs)
        · rw [if_pos hd] at hv
          simp only [Option.some.injEq] at hv
          rw [ParseInt_decimal _ hd (by omega), hv]
        · rw [if_neg hd] at hv
          exact absurd hv (by simp)

theorem IsInt64_value (t : GoString) (h : IsInt64 t = true) :
    ∃ v, integerValue? t = some v ∧ -(2 ^ 63) ≤ v ∧ v < 2 ^ 63 := by
  unfold IsInt64 at h
  cases hv : integerValue? t with
  | none => rw [hv] at h; exact absurd h (by simp)
  | some v =>
    rw [hv] at h
    simp only [decide_eq_true_eq] at h
    exact ⟨v, rfl, h.1, h.2⟩

/-! ## scrapeCpu -/

theorem usedLoop_from_five (ts : List GoString) (i : Nat) (hi : 5 ≤ i) (u : Int) :
    usedLoop ts i (wrap64 u) = wrap64 (u + (ts.map (fun t => (strconv.ParseInt t).1)).sum) := by
  induction ts generalizing i u with
  | nil => simp [usedLoop]
  | cons t ts ih =>
    unfold usedLoop
    rw [if_pos (by omega), ih (i + 1) (by omega)]
    simp only [List.map_cons, List.sum_cons]
    unfold wrap64
    omega

theorem usedLoop_line (t1 t2 t3 t4 : GoString) (rest : List GoString) :
    usedLoop (t1 :: t2 :: t3 :: t4 :: rest) 1 0
      = wrap64 ((strconv.ParseInt t1).1 + (strconv.ParseInt t2).1 + (strconv.ParseInt t3).1
          + (rest.map (fun t => (strconv.ParseInt t).1)).sum) := by
  have h := usedLoop_from_five rest 5 (le_refl 5)
    (wrap64 (wrap64 (0 + (strconv.ParseInt t1).1) + (strconv.ParseInt t2).1)
      + (strconv.ParseInt t3).1)
  simp only [usedLoop, Nat.reduceAdd, ne_eq, Nat.reduceEqDiff, not_false_eq_true, if_true,
    not_true_eq_false, if_false]
  rw [h]
  unfold wrap64
  omega

theorem map_ParseInt_decimal (ts : List GoString) (hd : ∀ t ∈ ts, IsDecimal t)
    (hv : (ts.map decimalValue).sum < 2 ^ 63) :
    (ts.map (fun t => (strconv.ParseInt t).1)).sum = ((ts.map decimalValue).sum : Nat) := by
  induction ts with
  | nil => simp
  | cons t ts ih =>
    simp only [List.map_cons, List.sum_cons] at hv ⊢
    rw [ParseInt_decimal t (hd t (List.mem_cons_self _ _)) (by omega),
      ih (fun t h => hd t (List.mem_cons_of_mem _ h)) (by omega)]
    push_cast
    rfl

theorem setGlobal_same (e : Exporter) (name : GlobalName) (v : float64) :
    (e.setGlobal name v).globalGauges name = v := by
  simp [Exporter.setGlobal]

theorem setGlobal_other (e : Exporter) (name k : GlobalName) (v : float64) (h : k ≠ name) :
    (e.setGlobal name v).globalGauges k = e.globalGauges k := by
  simp [Exporter.setGlobal, h]

theorem setGlobal_netGauges (e : Exporter) (name : GlobalName) (v : float64) :
    (e.setGlobal name v).netGauges = e.netGauges := rfl

/-- A line that is neither an aggregate line nor one with a short first field
leaves every gauge as it is. -/
theorem scrapeCpuLine_other (e : Exporter) (n : Int) (line : GoString)
    (ha : isAggregate line = false) (hs : hasShortHead line = false) :
    ∃ n1, scrapeCpuLine e n (strings.Fields line) = Except.ok (e, n1) := by
  unfold isAggregate at ha
  unfold hasShortHead at hs
  unfold scrapeCpuLine
  split
  · rename_i s0 s1 s2 s3 s4 s5 rest heq
    rw [heq] at ha hs
    simp only [decide_eq_false_iff_not] at ha hs
    rw [if_neg ha, if_neg hs]
    dsimp only
    split_ifs <;> exact ⟨_, rfl⟩
  · exact ⟨_, rfl⟩

/-- Without a short first field the body of the loop does not panic. -/
theorem scrapeCpuLine_ok (e : Exporter) (n : Int) (line : GoString)
    (hs : hasShortHead line = false) :
    ∃ e1 n1, scrapeCpuLine e n (strings.Fields line) = Except.ok (e1, n1) := by
  unfold hasShortHead at hs
  unfold scrapeCpuLine
  split
  · rename_i s0 s1 s2 s3 s4 s5 rest heq
    rw [heq] at hs
    simp only [decide_eq_false_iff_not] at hs
    dsimp only
    split_ifs <;> exact ⟨_, _, rfl⟩
  · exact ⟨_, _, rfl⟩

theorem scrapeCpuLoop_ok (lines : List GoString) (e : Exporter) (n : Int)
    (hs : ∀ m ∈ lines, hasShortHead m = false) :
    ∃ e1 n1, scrapeCpuLoop lines e n = Except.ok (e1, n1) := by
  induction lines generalizing e n with
  | nil => exact ⟨_, _, rfl⟩
  | cons l ls ih =>
    obtain ⟨e1, n1, h1⟩ := scrapeCpuLine_ok e n l (hs l (List.mem_cons_self _ _))
    unfold scrapeCpuLoop
    rw [h1]
    exact ih e1 n1 (fun m hm => hs m (List.mem_cons_of_mem _ hm))

theorem scrapeCpuLoop_tail (lines : List GoString) (e : Exporter) (n : Int)
    (ha : ∀ m ∈ lines, isAggregate m = false)
    (hs : ∀ m ∈ lines, hasShortHead m = false) :
    ∃ n1, scrapeCpuLoop lines e n = Except.ok (e, n1) := by
  induction lines generalizing n with
  | nil => exact ⟨_, rfl⟩
  | cons l ls ih =>
    obtain ⟨n1, h1⟩ := scrapeCpuLine_other e n l (ha l (List.mem_cons_self _ _))
      (hs l (List.mem_cons_self _ _))
    unfold scrapeCpuLoop
    rw [h1]
    exact ih n1 (fun m hm => ha m (List.mem_cons_of_mem _ hm))
      (fun m hm => hs m (List.mem_cons_of_mem _ hm))

theorem scrapeCpuLoop_append (pre post : List GoString) (e e1 : Exporter) (n n1 : Int)
    (h : scrapeCpuLoop pre e n = Except.ok (e1, n1)) :
    scrapeCpuLoop (pre ++ post) e n = scrapeCpuLoop post e1 n1 := by
  induction pre generalizing e n with
  | nil =>
    simp only [scrapeCpuLoop, Except.ok.injEq, Prod.mk.injEq] at h
    obtain ⟨h1, h2⟩ := h
    subst h1 h2
    rfl
  | cons l ls ih =>
    simp only [List.cons_append, scrapeCpuLoop] at h ⊢
    cases hl : scrapeCpuLine e n (strings.Fields l) with
    | error p => rw [hl] at h; exact absurd h (by simp)
    | ok r =>
      obtain ⟨e2, n2⟩ := r
      rw [hl] at h
      exact ih e2 n2 h

/-- What the body of the loop does on an aggregate line. -/
theorem scrapeCpuLine_cpu (e : Exporter) (n : Int) (t1 t2 t3 t4 t5 : GoString)
    (rest : List GoString) :
    scrapeCpuLine e n (str "cpu" :: t1 :: t2 :: t3 :: t4 :: t5 :: rest)
      = Except.ok
          (((((e.setGlobal GlobalName.used_cpu_user
                  (float64.ofIntDiv100 (strconv.ParseInt t1).1)).setGlobal
                GlobalName.used_cpu_sys (float64.ofIntDiv100 (strconv.ParseInt t3).1)).setGlobal
              GlobalName.used_cpu_idle (float64.ofIntDiv100 (strconv.ParseInt t4).1)).setGlobal
            GlobalName.used_cpu_iowait (float64.ofIntDiv100 (strconv.ParseInt t5).1)).setGlobal
          GlobalName.used_cpu
            (float64.ofIntDiv100 (usedLoop (t1 :: t2 :: t3 :: t4 :: t5 :: rest) 1 0)), n) := by
  unfold scrapeCpuLine
  simp

theorem scrapeCpuLine_short (e : Exporter) (n : Int) (s0 s1 s2 s3 s4 s5 : GoString)
    (rest : List GoString) (hne : s0 ≠ str "cpu") (hlen : s0.length < 3) :
    scrapeCpuLine e n (s0 :: s1 :: s2 :: s3 :: s4 :: s5 :: rest)
      = Except.error Panic.sliceBounds := by
  unfold scrapeCpuLine
  simp only [if_neg hne, if_pos hlen]

theorem scrapeCpu_one_line (e : Exporter) (s l : GoString)
    (hsp : strings.Split 0x0A s = [l]) :
    e.scrapeCpu (some s)
      = match scrapeCpuLine e 1 (strings.Fields l) with
        | Except.error p => Except.error p
        | Except.ok (e1, cpu_num) =>
          Except.ok (e1.setGlobal GlobalName.cpu (float64.ofInt cpu_num)) := by
  unfold Exporter.scrapeCpu
  simp only [hsp, scrapeCpuLoop]
  cases scrapeCpuLine e 1 (strings.Fields l) with
  | error p => rfl
  | ok r => rfl

/-! ## C1: `used_cpu` -/

/-- C1, as amended. For every content of the CPU source in which no line of
at least 6 fields has a first field shorter than 3 bytes, and whose last
aggregate line (first field exactly `cpu`, at least 6 fields) has only
non-negative decimal integers after the first field, with the sum `S` of all
of them but the idle one (position 4) below `2^63`: `scrapeCpu` completes and
sets `used_cpu` to `float64(S) / 100`. -/
theorem scrapeCpu_used_cpu (e : Exporter) (s : GoString) (pre post : List GoString)
    (l : GoString) (toks : List GoString)
    (hs : strings.Split 0x0A s = pre ++ l :: post)
    (hl : strings.Fields l = str "cpu" :: toks) (hlen : 5 ≤ toks.length)
    (hdec : ∀ t ∈ toks, IsDecimal t)
    (hlast : ∀ m ∈ post, isAggregate m = false)
    (hsafe : ∀ m ∈ strings.Split 0x0A s, hasShortHead m = false)
    (hS : sumExceptIdle toks < 2 ^ 63) :
    gaugeAfter (e.scrapeCpu (some s)) GlobalName.used_cpu
      = some (float64.ofIntDiv100 (sumExceptIdle toks)) := by
  rw [hs] at hsafe
  obtain ⟨e1, n1, hpre⟩ := scrapeCpuLoop_ok pre e 1
    (fun m hm => hsafe m (List.mem_append_left _ hm))
  obtain ⟨t1, t2, t3, t4, t5, rest, rfl⟩ :
      ∃ t1 t2 t3 t4 t5 rest, toks = t1 :: t2 :: t3 :: t4 :: t5 :: rest := by
    match toks, hlen with
    | t1 :: t2 :: t3 :: t4 :: t5 :: rest, _ => exact ⟨t1, t2, t3, t4, t5, rest, rfl⟩
  obtain ⟨n2, hpost⟩ := scrapeCpuLoop_tail post
    (((((e1.setGlobal GlobalName.used_cpu_user
                  (float64.ofIntDiv100 (strconv.ParseInt t1).1)).setGlobal
                GlobalName.used_cpu_sys (float64.ofIntDiv100 (strconv.ParseInt t3).1)).setGlobal
              GlobalName.used_cpu_idle (float64.ofIntDiv100 (strconv.ParseInt t4).1)).setGlobal
            GlobalName.used_cpu_iowait (float64.ofIntDiv100 (strconv.ParseInt t5).1)).setGlobal
          GlobalName.used_cpu
            (float64.ofIntDiv100 (usedLoop (t1 :: t2 :: t3 :: t4 :: t5 :: rest) 1 0))) n1 hlast
    (fun m hm => hsafe m (List.mem_append_right _ (List.mem_cons_of_mem _ hm)))
  have hsum : usedLoop (t1 :: t2 :: t3 :: t4 :: t5 :: rest) 1 0
      = (sumExceptIdle (t1 :: t2 :: t3 :: t4 :: t5 :: rest) : Int) := by
    have hS1 : decimalValue t1 + (decimalValue t2 + (decimalValue t3 + 0))
        + ((t5 :: rest).map decimalValue).sum < 2 ^ 63 := hS
    have h1 := ParseInt_decimal t1 (hdec t1 (by simp)) (by omega)
    have h2 := ParseInt_decimal t2 (hdec t2 (by simp)) (by omega)
    have h3 := ParseInt_decimal t3 (hdec t3 (by simp)) (by omega)
    have h5 := map_ParseInt_decimal (t5 :: rest)
      (fun t ht => hdec t (by
        simp only [List.mem_cons] at ht ⊢
        tauto))
      (by omega)
    rw [usedLoop_line, h1, h2, h3, h5]
    show _ = ((decimalValue t1 + (decimalValue t2 + (decimalValue t3 + 0))
        + ((t5 :: rest).map decimalValue).sum : Nat) : Int)
    generalize ((t5 :: rest).map decimalValue).sum = A at hS1 ⊢
    rw [wrap64_of_range _ (by omega) (by omega)]
    omega
  unfold Exporter.scrapeCpu
  simp only [hs]
  rw [scrapeCpuLoop_append pre (l :: post) e e1 1 n1 hpre]
  simp only [scrapeCpuLoop, hl, scrapeCpuLine_cpu, hpost]
  simp only [gaugeAfter, Option.some.injEq]
  rw [setGlobal_other _ _ _ _ (by decide), setGlobal_same, hsum]

/-- C1, witness: `cpu 100 0 200 700 50 0` followed by a per-core line gives
`used_cpu = float64(350) / 100`. -/
theorem scrapeCpu_used_cpu_witness :
    gaugeAfter (NewExporter.scrapeCpu (some (str "cpu 100 0 200 700 50 0\ncpu0 1 2 3 4 5 6")))
      GlobalName.used_cpu = some (float64.ofIntDiv100 (350 : Nat)) :=
  scrapeCpu_used_cpu NewExporter (str "cpu 100 0 200 700 50 0\ncpu0 1 2 3 4 5 6") []
    [str "cpu0 1 2 3 4 5 6"] (str "cpu 100 0 200 700 50 0")
    [str "100", str "0", str "200", str "700", str "50", str "0"]
    (by decide) (by decide) (by decide) (by decide) (by decide) (by decide) (by decide)

/-- C1, counterexample. On `cpu 99999999999999999999 0 0 0 0` every token
after the first is a non-negative decimal integer and `S` is
99999999999999999999, but `used_cpu` is set to `float64(2^63 - 1) / 100`; on
`cpu 9223372036854775807 1 0 0 0` the sum `S` is `2^63` and `used_cpu` is set
to `float64(-2^63) / 100`; and on `a b c d e f` followed by the aggregate
line `cpu 1 2 3 4 5` the scrape panics before the aggregate line is read. -/
theorem scrapeCpu_used_cpu_counterexample :
    (strings.Fields (str "cpu 99999999999999999999 0 0 0 0")
        = str "cpu" :: [str "99999999999999999999", str "0", str "0", str "0", str "0"]
      ∧ (∀ t ∈ [str "99999999999999999999", str "0", str "0", str "0", str "0"], IsDecimal t)
      ∧ sumExceptIdle [str "99999999999999999999", str "0", str "0", str "0", str "0"]
          = 99999999999999999999
      ∧ gaugeAfter (NewExporter.scrapeCpu (some (str "cpu 99999999999999999999 0 0 0 0")))
          GlobalName.used_cpu = some (float64.ofIntDiv100 (2 ^ 63 - 1)))
    ∧ (strings.Fields (str "cpu 9223372036854775807 1 0 0 0")
        = str "cpu" :: [str "9223372036854775807", str "1", str "0", str "0", str "0"]
      ∧ (∀ t ∈ [str "9223372036854775807", str "1", str "0", str "0", str "0"], IsDecimal t)
      ∧ sumExceptIdle [str "9223372036854775807", str "1", str "0", str "0", str "0"] = 2 ^ 63
      ∧ gaugeAfter (NewExporter.scrapeCpu (some (str "cpu 9223372036854775807 1 0 0 0")))
          GlobalName.used_cpu = some (float64.ofIntDiv100 (-(2 ^ 63))))
    ∧ (isAggregate (str "cpu 1 2 3 4 5") = true
      ∧ NewExporter.scrapeCpu (some (str "a b c d e f\ncpu 1 2 3 4 5"))
          = Except.error Panic.sliceBounds) := by
  refine ⟨⟨by decide, by decide, by decide, by decide⟩,
    ⟨by decide, by decide, by decide, by decide⟩, by decide, rfl⟩

/-! ## C2: the collection operation and panics -/

theorem scrapeCpuLine_shortHead (e : Exporter) (n : Int) (line : GoString)
    (h : hasShortHead line = true) :
    scrapeCpuLine e n (strings.Fields line) = Except.error Panic.sliceBounds := by
  unfold hasShortHead at h
  split at h
  · rename_i s0 s1 s2 s3 s4 s5 rest heq
    simp only [decide_eq_true_eq] at h
    have hne : s0 ≠ str "cpu" := by
      intro hc
      rw [hc] at h
      exact absurd h (by decide)
    rw [heq]
    exact scrapeCpuLine_short e n s0 s1 s2 s3 s4 s5 rest hne h
  · exact absurd h (by simp)

/-- The only panic of the body of the CPU loop is that of the slice
expression. -/
theorem scrapeCpuLine_error (e : Exporter) (n : Int) (ss : List GoString) (p : Panic)
    (h : scrapeCpuLine e n ss = Except.error p) : p = Panic.sliceBounds := by
  unfold scrapeCpuLine at h
  split at h
  · dsimp only at h
    split_ifs at h
    simp only [Except.error.injEq] at h
    exact h.symm
  · exact absurd h (by simp)

theorem scrapeCpuLoop_panics (lines : List GoString) (e : Exporter) (n : Int)
    (h : ∃ l ∈ lines, hasShortHead l = true) :
    scrapeCpuLoop lines e n = Except.error Panic.sliceBounds := by
  induction lines generalizing e n with
  | nil =>
    obtain ⟨l, hl, -⟩ := h
    exact absurd hl (List.not_mem_nil l)
  | cons l ls ih =>
    simp only [scrapeCpuLoop]
    by_cases hs : hasShortHead l = true
    · rw [scrapeCpuLine_shortHead e n l hs]
    · cases hl : scrapeCpuLine e n (strings.Fields l) with
      | error p =>
        rw [scrapeCpuLine_error e n _ p hl]
      | ok r =>
        obtain ⟨e1, n1⟩ := r
        obtain ⟨m, hm, hsm⟩ := h
        rcases List.mem_cons.mp hm with hml | hml
        · rw [hml] at hsm
          exact absurd hsm hs
        · exact ih e1 n1 ⟨m, hml, hsm⟩

/-- `scrapeCpu` panics on every content that has, anywhere, a line of at
least 6 fields whose first field is shorter than 3 bytes. -/
theorem scrapeCpu_panics (e : Exporter) (s : GoString)
    (h : ∃ l ∈ strings.Split 0x0A s, hasShortHead l = true) :
    e.scrapeCpu (some s) = Except.error Panic.sliceBounds := by
  simp only [Exporter.scrapeCpu, scrapeCpuLoop_panics _ e 1 h]

/-- C2, the failing input. With the CPU source `a b c d e f` (a line of 6
fields whose first field has 1 byte) the collection panics in `ss[0][:3]`,
from every container state and whatever the other sources hold. -/
theorem Collect_panics_on_short_first_field (e : Exporter) (mem net : Option GoString)
    (hw : Option (GoString → Option Nat)) :
    e.Collect { proc_stat := some (str "a b c d e f"), proc_meminfo := mem,
                proc_net_dev := net, NewEthtool := hw }
      = Except.error Panic.sliceBounds := by
  have h : e.resetMetrics.scrapeCpu (some (str "a b c d e f"))
      = Except.error Panic.sliceBounds := by
    have hf : strings.Fields (str "a b c d e f")
        = [str "a", str "b", str "c", str "d", str "e", str "f"] := by decide
    have hsp : strings.Split 0x0A (str "a b c d e f") = [str "a b c d e f"] := by decide
    rw [scrapeCpu_one_line _ _ _ hsp, hf,
      scrapeCpuLine_short _ _ _ _ _ _ _ _ _ (by decide) (by decide)]
  simp only [Exporter.Collect, Exporter.scrape, h]

/-! ## C10: the four named CPU components -/

/-- C10, as amended. For every content of the CPU source in which no line of
at least 6 fields has a first field shorter than 3 bytes, and whose last
aggregate line (first field exactly `cpu`, at least 6 fields) has decimal
integers of the signed 64-bit range as its fields 1, 3, 4 and 5: `scrapeCpu`
completes and sets `used_cpu_user`, `used_cpu_sys`, `used_cpu_idle` and
`used_cpu_iowait` to `float64(v) / 100` for the integers `v` that the fields
1, 3, 4 and 5 denote. Field 2 feeds none of them: nothing is asked of it. -/
theorem scrapeCpu_named_components (e : Exporter) (s : GoString) (pre post : List GoString)
    (l t1 t2 t3 t4 t5 : GoString) (rest : List GoString)
    (hs : strings.Split 0x0A s = pre ++ l :: post)
    (hl : strings.Fields l = str "cpu" :: t1 :: t2 :: t3 :: t4 :: t5 :: rest)
    (h1 : IsInt64 t1 = true) (h3 : IsInt64 t3 = true) (h4 : IsInt64 t4 = true)
    (h5 : IsInt64 t5 = true)
    (hlast : ∀ m ∈ post, isAggregate m = false)
    (hsafe : ∀ m ∈ strings.Split 0x0A s, hasShortHead m = false) :
    gaugeAfter (e.scrapeCpu (some s)) GlobalName.used_cpu_user
        = (integerValue? t1).map float64.ofIntDiv100
    ∧ gaugeAfter (e.scrapeCpu (some s)) GlobalName.used_cpu_sys
        = (integerValue? t3).map float64.ofIntDiv100
    ∧ gaugeAfter (e.scrapeCpu (some s)) GlobalName.used_cpu_idle
        = (integerValue? t4).map float64.ofIntDiv100
    ∧ gaugeAfter (e.scrapeCpu (some s)) GlobalName.used_cpu_iowait
        = (integerValue? t5).map float64.ofIntDiv100
    ∧ (integerValue? t1).isSome = true ∧ (integerValue? t3).isSome = true
    ∧ (integerValue? t4).isSome = true ∧ (integerValue? t5).isSome = true := by
  rw [hs] at hsafe
  obtain ⟨e1, n1, hpre⟩ := scrapeCpuLoop_ok pre e 1
    (fun m hm => hsafe m (List.mem_append_left _ hm))
  obtain ⟨n2, hpost⟩ := scrapeCpuLoop_tail post
    (((((e1.setGlobal GlobalName.used_cpu_user
                  (float64.ofIntDiv100 (strconv.ParseInt t1).1)).setGlobal
                GlobalName.used_cpu_sys (float64.ofIntDiv100 (strconv.ParseInt t3).1)).setGlobal
              GlobalName.used_cpu_idle (float64.ofIntDiv100 (strconv.ParseInt t4).1)).setGlobal
            GlobalName.used_cpu_iowait (float64.ofIntDiv100 (strconv.ParseInt t5).1)).setGlobal
          GlobalName.used_cpu
            (float64.ofIntDiv100 (usedLoop (t1 :: t2 :: t3 :: t4 :: t5 :: rest) 1 0))) n1 hlast
    (fun m hm => hsafe m (List.mem_append_right _ (List.mem_cons_of_mem _ hm)))
  obtain ⟨v1, hv1, a1, b1⟩ := IsInt64_value t1 h1
  obtain ⟨v3, hv3, a3, b3⟩ := IsInt64_value t3 h3
  obtain ⟨v4, hv4, a4, b4⟩ := IsInt64_value t4 h4
  obtain ⟨v5, hv5, a5, b5⟩ := IsInt64_value t5 h5
  have p1 : (strconv.ParseInt t1).1 = v1 := by rw [ParseInt_integer t1 v1 hv1 a1 b1]
  have p3 : (strconv.ParseInt t3).1 = v3 := by rw [ParseInt_integer t3 v3 hv3 a3 b3]
  have p4 : (strconv.ParseInt t4).1 = v4 := by rw [ParseInt_integer t4 v4 hv4 a4 b4]
  have p5 : (strconv.ParseInt t5).1 = v5 := by rw [ParseInt_integer t5 v5 hv5 a5 b5]
  rw [p1, p3, p4, p5] at hpost
  unfold Exporter.scrapeCpu
  simp only [hs]
  rw [scrapeCpuLoop_append pre (l :: post) e e1 1 n1 hpre]
  simp only [scrapeCpuLoop, hl, scrapeCpuLine_cpu, p1, p3, p4, p5, hpost]
  simp only [gaugeAfter, hv1, hv3, hv4, hv5, Option.map_some', Option.isSome_some, and_true]
  refine ⟨?_, ?_, ?_, ?_⟩ <;> simp [Exporter.setGlobal]

/-- C10, witness: after an earlier aggregate line and before a per-core line,
`cpu 100 0 200 700 50 0` gives 100/100 = 1, 200/100 = 2, 700/100 = 7 and
50/100 = 1/2. -/
theorem scrapeCpu_named_components_witness :
    gaugeAfter (NewExporter.scrapeCpu
        (some (str "cpu 9 9 9 9 9 9\ncpu 100 0 200 700 50 0\ncpu0 1 2 3 4 5 6")))
        GlobalName.used_cpu_user = some (float64.ofIntDiv100 100)
    ∧ gaugeAfter (NewExporter.scrapeCpu
        (some (str "cpu 9 9 9 9 9 9\ncpu 100 0 200 700 50 0\ncpu0 1 2 3 4 5 6")))
        GlobalName.used_cpu_sys = some (float64.ofIntDiv100 200)
    ∧ gaugeAfter (NewExporter.scrapeCpu
        (some (str "cpu 9 9 9 9 9 9\ncpu 100 0 200 700 50 0\ncpu0 1 2 3 4 5 6")))
        GlobalName.used_cpu_idle = some (float64.ofIntDiv100 700)
    ∧ gaugeAfter (NewExporter.scrapeCpu
        (some (str "cpu 9 9 9 9 9 9\ncpu 100 0 200 700 50 0\ncpu0 1 2 3 4 5 6")))
        GlobalName.used_cpu_iowait = some (float64.ofIntDiv100 50)
    ∧ (float64.ofIntDiv100 100).exact = 1 ∧ (float64.ofIntDiv100 200).exact = 2
    ∧ (float64.ofIntDiv100 700).exact = 7 ∧ (float64.ofIntDiv100 50).exact = 1 / 2 := by
  have h := scrapeCpu_named_components NewExporter
    (str "cpu 9 9 9 9 9 9\ncpu 100 0 200 700 50 0\ncpu0 1 2 3 4 5 6")
    [str "cpu 9 9 9 9 9 9"] [str "cpu0 1 2 3 4 5 6"] (str "cpu 100 0 200 700 50 0")
    (str "100") (str "0") (str "200") (str "700") (str "50") [str "0"]
    (by decide) (by decide) (by decide) (by decide) (by decide) (by decide) (by decide)
    (by decide)
  refine ⟨h.1.trans (by decide), h.2.1.trans (by decide), h.2.2.1.trans (by decide),
    h.2.2.2.1.trans (by decide), ?_, ?_, ?_, ?_⟩ <;> norm_num [float64.exact]

/-- C10, counterexample. The user field of `cpu 99999999999999999999 0 0 0 0`
is the decimal integer 99999999999999999999, and `used_cpu_user` is set to
`float64(2^63 - 1) / 100`, which is not that integer over 100. And on
`a b c d e f` followed by the aggregate line `cpu 100 0 200 700 50 0` the
scrape panics before the aggregate line is read: no gauge is set. -/
theorem scrapeCpu_named_components_counterexample :
    (strings.Fields (str "cpu 99999999999999999999 0 0 0 0")
        = [str "cpu", str "99999999999999999999", str "0", str "0", str "0", str "0"]
      ∧ integerValue? (str "99999999999999999999") = some 99999999999999999999
      ∧ gaugeAfter (NewExporter.scrapeCpu (some (str "cpu 99999999999999999999 0 0 0 0")))
          GlobalName.used_cpu_user = some (float64.ofIntDiv100 (2 ^ 63 - 1))
      ∧ (float64.ofIntDiv100 (2 ^ 63 - 1)).exact ≠ 99999999999999999999 / 100)
    ∧ (isAggregate (str "cpu 100 0 200 700 50 0") = true
      ∧ NewExporter.scrapeCpu (some (str "a b c d e f\ncpu 100 0 200 700 50 0"))
          = Except.error Panic.sliceBounds
      ∧ gaugeAfter (NewExporter.scrapeCpu (some (str "a b c d e f\ncpu 100 0 200 700 50 0")))
          GlobalName.used_cpu_user = none) := by
  refine ⟨⟨by decide, by decide, by decide, ?_⟩, by decide, rfl, by decide⟩
  norm_num [float64.exact]

/-! ## C4: `unit` -/

/-- C4. For every string `s`, `unit s` is `2^10` when `s` is `kb` up to case,
`2^20` for `mb`, `2^30` for `gb`, `2^40` for `tb`, and 1 for every other
string, the empty one included; and a memory line with value 1 and suffix
`kb`, `mb`, `gb` stores 1024, 1048576, 1073741824. -/
theorem unit_values :
    (∀ s : GoString,
      unit s = if s ∈ spellings_kb then 2 ^ 10
        else if s ∈ spellings_mb then 2 ^ 20
        else if s ∈ spellings_gb then 2 ^ 30
        else if s ∈ spellings_tb then 2 ^ 40
        else 1)
    ∧ unit [] = 1
    ∧ lineValue (str "MemTotal: 1 kb") = 1024
    ∧ lineValue (str "MemTotal: 1 mb") = 1048576
    ∧ lineValue (str "MemTotal: 1 gb") = 1073741824
    ∧ (NewExporter.scrapeMem (some (str "MemTotal: 1 kB"))).globalGauges
        GlobalName.total_memory = float64.ofInt 1024 := by
  refine ⟨?_, by decide, by decide, by decide, by decide, by decide⟩
  intro s
  simp only [unit, ToLower_eq_kb, ToLower_eq_mb, ToLower_eq_gb, ToLower_eq_tb]

/-! ## C3: `scrapeMem` -/

theorem scrapeMemLine_keys (mem : MemMap) (ss : List GoString) (k : GoString) :
    (scrapeMemLine mem ss k).isSome = (mem k).isSome := by
  unfold scrapeMemLine
  split
  · rename_i s0 s1 s2 rest
    by_cases h0 : (mem s0).isSome = true
    · simp only [h0, if_true]
      by_cases hk : k = s0
      · simp [hk, h0]
      · simp [hk]
    · simp [h0]
  · rfl

theorem scrapeMemLine_value (mem : MemMap) (line name : GoString) (c : Int)
    (h : mem name = some c) :
    scrapeMemLine mem (strings.Fields line) name
      = some (if isFieldLine name line = true then lineValue line else c) := by
  unfold scrapeMemLine isFieldLine lineValue
  generalize strings.Fields line = ss
  rcases ss with _ | ⟨s0, _ | ⟨s1, _ | ⟨s2, rest⟩⟩⟩
  · simp [h]
  · simp [h]
  · simp [h]
  · by_cases hk : s0 = name
    · subst hk
      simp [h]
    · have hk2 : ¬ name = s0 := fun h => hk h.symm
      by_cases h0 : (mem s0).isSome = true
      · simp [h0, hk, hk2, h]
      · simp [h0, hk, h]

theorem scrapeMemLoop_value (lines : List GoString) (mem : MemMap) (name : GoString) (c : Int)
    (h : mem name = some c) :
    scrapeMemLoop lines mem name = some (memField name lines c) := by
  induction lines generalizing mem c with
  | nil => simpa [scrapeMemLoop, memField] using h
  | cons l ls ih =>
    simp only [scrapeMemLoop, memField]
    exact ih _ _ (scrapeMemLine_value mem l name c h)

theorem scrapeMemLoop_at (s name : GoString) (h : memInit name = some 0) :
    (scrapeMemLoop (strings.Split 0x0A s) memInit).value name = memValue name s := by
  unfold MemMap.value memValue
  rw [scrapeMemLoop_value _ _ _ 0 h]
  rfl

/-- The three integers `scrapeMem` writes. -/
theorem scrapeMem_written (e : Exporter) (s : GoString) :
    ∃ available : Int,
      available
          = (if memValue (str "MemAvailable:") s = 0 then
              wrap64 (wrap64 (memValue (str "MemFree:") s + memValue (str "Buffers:") s)
                + memValue (str "Cached:") s)
             else memValue (str "MemAvailable:") s)
      ∧ (e.scrapeMem (some s)).globalGauges GlobalName.used_memory
          = float64.ofInt (wrap64 (memValue (str "MemTotal:") s - available))
      ∧ (e.scrapeMem (some s)).globalGauges GlobalName.available_memory
          = float64.ofInt available
      ∧ (e.scrapeMem (some s)).globalGauges GlobalName.total_memory
          = float64.ofInt (memValue (str "MemTotal:") s) := by
  have hT := scrapeMemLoop_at s (str "MemTotal:") (by decide)
  have hF := scrapeMemLoop_at s (str "MemFree:") (by decide)
  have hA := scrapeMemLoop_at s (str "MemAvailable:") (by decide)
  have hB := scrapeMemLoop_at s (str "Buffers:") (by decide)
  have hC := scrapeMemLoop_at s (str "Cached:") (by decide)
  refine ⟨_, rfl, ?_, ?_, ?_⟩ <;>
    simp only [Exporter.scrapeMem, hT, hF, hA, hB, hC] <;>
    simp [Exporter.setGlobal]

theorem unit_eq_specUnit (s : GoString) : unit s = specUnit s := by
  simp only [unit, specUnit, ToLower_eq_kb, ToLower_eq_mb, ToLower_eq_gb, ToLower_eq_tb]

/-- A line whose value as the specification gives it lies in the `int64`
range gives that value. -/
theorem specLineValue_lineValue (line : GoString) (V : Int)
    (h : specLineValue line = some V) (hr : inInt64 V = true) : lineValue line = V := by
  unfold specLineValue at h
  unfold lineValue
  simp only [inInt64, decide_eq_true_eq] at hr
  rcases hf : strings.Fields line with _ | ⟨s0, _ | ⟨s1, _ | ⟨s2, rest⟩⟩⟩
  · rw [hf] at h; exact absurd h (by simp)
  · rw [hf] at h; exact absurd h (by simp)
  · rw [hf] at h; exact absurd h (by simp)
  · rw [hf] at h
    simp only at h ⊢
    cases hv : integerValue? s1 with
    | none => rw [hv] at h; exact absurd h (by simp)
    | some v =>
      rw [hv] at h
      simp only [Option.map_some', Option.some.injEq] at h
      have hb : -(2 ^ 63) ≤ v ∧ v < 2 ^ 63 := by
        unfold specUnit at h
        split_ifs at h <;> omega
      rw [ParseInt_integer s1 v hv hb.1 hb.2, unit_eq_specUnit, h]
      exact wrap64_of_range V hr.1 hr.2

theorem specMemField_memField (name : GoString) (lines : List GoString) (cur : Option Int)
    (c V : Int) (hrel : ∀ W, cur = some W → inInt64 W = true → c = W)
    (h : specMemField name lines cur = some V) (hr : inInt64 V = true) :
    memField name lines c = V := by
  induction lines generalizing cur c with
  | nil =>
    simp only [specMemField] at h
    exact hrel V h hr
  | cons l ls ih =>
    simp only [specMemField] at h
    simp only [memField]
    refine ih _ _ ?_ h
    intro W hW hWr
    by_cases hf : isFieldLine name l = true
    · rw [if_pos hf] at hW ⊢
      exact specLineValue_lineValue l W hW hWr
    · rw [if_neg hf] at hW ⊢
      exact hrel W hW hWr

/-- A field whose value as the specification gives it lies in the `int64`
range is read by the scrape with that value. -/
theorem specMemValue_memValue (name s : GoString) (V : Int)
    (h : specMemValue name s = some V) (hr : inInt64 V = true) : memValue name s = V :=
  specMemField_memField name _ (some 0) 0 V (fun _ hW _ => Option.some.inj hW) h hr

/-- C3, as amended. For every content of the memory source, with `MemTotal`,
`MemFree`, `MemAvailable`, `Buffers`, `Cached` the unit-normalised values of
the last lines of at least 3 fields that name them (the decimal integer of the
second field times the multiplier of the third; 0 when there is no such line),
provided the five values, `available` and `MemTotal - available` lie in the
signed 64-bit range: `available` is `MemAvailable` when that is not zero and
`MemFree + Buffers + Cached` otherwise, and the gauges are set to
`used_memory = MemTotal - available`, `available_memory = available`,
`total_memory = MemTotal`, each as the `float64` of its integer. -/
theorem scrapeMem_exact (e : Exporter) (s : GoString) (T F A B C : Int)
    (hT : specMemValue (str "MemTotal:") s = some T)
    (hF : specMemValue (str "MemFree:") s = some F)
    (hA : specMemValue (str "MemAvailable:") s = some A)
    (hB : specMemValue (str "Buffers:") s = some B)
    (hC : specMemValue (str "Cached:") s = some C)
    (hr : inInt64 T = true ∧ inInt64 F = true ∧ inInt64 A = true ∧ inInt64 B = true
      ∧ inInt64 C = true)
    (havail : inInt64 (if A ≠ 0 then A else F + B + C) = true)
    (hdiff : inInt64 (T - (if A ≠ 0 then A else F + B + C)) = true) :
    (e.scrapeMem (some s)).globalGauges GlobalName.used_memory
        = float64.ofInt (T - (if A ≠ 0 then A else F + B + C))
    ∧ (e.scrapeMem (some s)).globalGauges GlobalName.available_memory
        = float64.ofInt (if A ≠ 0 then A else F + B + C)
    ∧ (e.scrapeMem (some s)).globalGauges GlobalName.total_memory = float64.ofInt T := by
  obtain ⟨rT, rF, rA, rB, rC⟩ := hr
  obtain ⟨available, hav, h1, h2, h3⟩ := scrapeMem_written e s
  rw [specMemValue_memValue _ s T hT rT] at h1 h3
  rw [specMemValue_memValue _ s F hF rF, specMemValue_memValue _ s A hA rA,
    specMemValue_memValue _ s B hB rB, specMemValue_memValue _ s C hC rC] at hav
  simp only [inInt64, decide_eq_true_eq] at havail hdiff rF rB rC
  have hval : available = if A ≠ 0 then A else F + B + C := by
    rw [hav]
    by_cases h0 : A = 0
    · have hne : ¬ A ≠ 0 := fun h => h h0
      rw [if_pos h0, if_neg hne]
      rw [if_neg hne] at havail
      unfold wrap64
      omega
    · rw [if_neg h0, if_pos h0]
  rw [hval] at h1 h2
  rw [wrap64_of_range _ hdiff.1 hdiff.2] at h1
  exact ⟨h1, h2, h3⟩

/-- C3, witness: `MemTotal: 2048 kB`, `MemFree: 1024 kB` and no `MemAvailable`
give `available = 1048576` and `used = 1048576`; with `MemAvailable: 512 kB`
as well, `available = 524288` and `used = 1572864`. -/
theorem scrapeMem_exact_witness :
    ((NewExporter.scrapeMem (some (str "MemTotal: 2048 kB\nMemFree: 1024 kB"))).globalGauges
          GlobalName.used_memory = float64.ofInt 1048576
      ∧ (NewExporter.scrapeMem (some (str "MemTotal: 2048 kB\nMemFree: 1024 kB"))).globalGauges
          GlobalName.available_memory = float64.ofInt 1048576
      ∧ (NewExporter.scrapeMem (some (str "MemTotal: 2048 kB\nMemFree: 1024 kB"))).globalGauges
          GlobalName.total_memory = float64.ofInt 2097152)
    ∧ ((NewExporter.scrapeMem
          (some (str "MemTotal: 2048 kB\nMemFree: 1024 kB\nMemAvailable: 512 kB"))).globalGauges
          GlobalName.used_memory = float64.ofInt 1572864
      ∧ (NewExporter.scrapeMem
          (some (str "MemTotal: 2048 kB\nMemFree: 1024 kB\nMemAvailable: 512 kB"))).globalGauges
          GlobalName.available_memory = float64.ofInt 524288
      ∧ (NewExporter.scrapeMem
          (some (str "MemTotal: 2048 kB\nMemFree: 1024 kB\nMemAvailable: 512 kB"))).globalGauges
          GlobalName.total_memory = float64.ofInt 2097152) :=
  ⟨scrapeMem_exact NewExporter (str "MemTotal: 2048 kB\nMemFree: 1024 kB")
      2097152 1048576 0 0 0 (by decide) (by decide) (by decide) (by decide) (by decide)
      (by decide) (by decide) (by decide),
    scrapeMem_exact NewExporter
      (str "MemTotal: 2048 kB\nMemFree: 1024 kB\nMemAvailable: 512 kB")
      2097152 1048576 524288 0 0 (by decide) (by decide) (by decide) (by decide) (by decide)
      (by decide) (by decide) (by decide)⟩

/-- C3, counterexample. The unit-normalised value of `MemAvailable: 16777216 tb`
is `2^64`, which is not zero, yet the scrape stores 0 for it, takes the
fallback and sets `available_memory` to 0. On `MemFree: 9223372036854775807 B`
with `Buffers: 1 B` the sum `MemFree + Buffers + Cached` is `2^63` and
`available_memory` is set to `-2^63`. And the line `MemTotal: 5` is present
with the value 5, yet `total_memory` is set to 0. -/
theorem scrapeMem_exact_counterexample :
    (specMemValue (str "MemAvailable:") (str "MemAvailable: 16777216 tb") = some (2 ^ 64)
      ∧ (NewExporter.scrapeMem (some (str "MemAvailable: 16777216 tb"))).globalGauges
          GlobalName.available_memory = float64.ofInt 0)
    ∧ (specMemValue (str "MemFree:") (str "MemFree: 9223372036854775807 B\nBuffers: 1 B")
          = some (2 ^ 63 - 1)
      ∧ specMemValue (str "Buffers:") (str "MemFree: 9223372036854775807 B\nBuffers: 1 B")
          = some 1
      ∧ specMemValue (str "Cached:") (str "MemFree: 9223372036854775807 B\nBuffers: 1 B")
          = some 0
      ∧ specMemValue (str "MemAvailable:") (str "MemFree: 9223372036854775807 B\nBuffers: 1 B")
          = some 0
      ∧ (NewExporter.scrapeMem
          (some (str "MemFree: 9223372036854775807 B\nBuffers: 1 B"))).globalGauges
          GlobalName.available_memory = float64.ofInt (-(2 ^ 63)))
    ∧ (strings.Fields (str "MemTotal: 5") = [str "MemTotal:", str "5"]
      ∧ integerValue? (str "5") = some 5
      ∧ (NewExporter.scrapeMem (some (str "MemTotal: 5"))).globalGauges
          GlobalName.total_memory = float64.ofInt 0) := by
  refine ⟨⟨by decide, by decide⟩, ⟨by decide, by decide, by decide, by decide, by decide⟩,
    ⟨by decide, by decide, by decide⟩⟩

/-! ## C7: tokens on which parsing fails -/

theorem usedLoop_congr (ts ts1 : List GoString) (i : Nat) (u : Int)
    (h : ts.map (fun t => (strconv.ParseInt t).1) = ts1.map (fun t => (strconv.ParseInt t).1)) :
    usedLoop ts i u = usedLoop ts1 i u := by
  induction ts generalizing ts1 i u with
  | nil =>
    cases ts1 with
    | nil => rfl
    | cons a l => simp at h
  | cons a l ih =>
    cases ts1 with
    | nil => simp at h
    | cons b l1 =>
      simp only [List.map_cons, List.cons.injEq] at h
      simp only [usedLoop, h.1]
      exact ih l1 _ _ h.2

/-- The body of the CPU loop reads the fields after the first only through
the integers `ParseInt` returns for them. -/
theorem scrapeCpuLine_congr (e : Exporter) (n : Int) (s0 : GoString) (ts ts1 : List GoString)
    (h : ts.map (fun t => (strconv.ParseInt t).1) = ts1.map (fun t => (strconv.ParseInt t).1)) :
    scrapeCpuLine e n (s0 :: ts) = scrapeCpuLine e n (s0 :: ts1) := by
  have hu := usedLoop_congr ts ts1 1 0 h
  rcases ts with _ | ⟨a1, _ | ⟨a2, _ | ⟨a3, _ | ⟨a4, _ | ⟨a5, ra⟩⟩⟩⟩⟩ <;>
    rcases ts1 with _ | ⟨b1, _ | ⟨b2, _ | ⟨b3, _ | ⟨b4, _ | ⟨b5, rb⟩⟩⟩⟩⟩ <;>
    simp only [List.map_cons, List.map_nil, List.cons.injEq, and_true, and_false, false_and,
      reduceCtorEq] at h <;>
    first
      | rfl
      | (obtain ⟨h1, h2, h3, h4, h5, -⟩ := h
         simp only [scrapeCpuLine, h1, h3, h4, h5, hu])

theorem map_ParseInt_replace (pre post : List GoString) (t t1 : GoString)
    (h : (strconv.ParseInt t).1 = (strconv.ParseInt t1).1) :
    (pre ++ t :: post).map (fun t => (strconv.ParseInt t).1)
      = (pre ++ t1 :: post).map (fun t => (strconv.ParseInt t).1) := by
  simp only [List.map_append, List.map_cons, h]

theorem ParseInt_range_value (t : GoString)
    (h : (strconv.ParseInt t).2 = some strconv.NumError.ErrRange) :
    (strconv.ParseInt t).1 = if t.head? = some 0x2D then -(2 ^ 63) else 2 ^ 63 - 1 := by
  cases t with
  | nil => simp [strconv.ParseInt] at h
  | cons c cs =>
    cases hp : strconv.ParseUint (if c = 0x2B ∨ c = 0x2D then cs else c :: cs) with
    | mk un err =>
      rw [ParseInt_cons c cs un err hp] at h ⊢
      simp only [List.head?_cons, Option.some.injEq]
      split_ifs at h ⊢ <;> simp_all

theorem ParseInt_neg_overflow (cs : GoString) (hd : IsDecimal cs)
    (hv : 2 ^ 63 < decimalValue cs) :
    strconv.ParseInt (0x2D :: cs) = (-(2 ^ 63), some strconv.NumError.ErrRange) := by
  have hne : cs ≠ [] := hd.1
  by_cases hbig : decimalValue cs < 2 ^ 64
  · have hp : strconv.ParseUint (if (0x2D : Nat) = 0x2B ∨ (0x2D : Nat) = 0x2D then cs
        else 0x2D :: cs) = (decimalValue cs, none) := by
      rw [if_pos (Or.inr rfl)]
      unfold strconv.ParseUint
      rw [if_neg hne]
      exact parseUintLoop_digits _ 0 hd.2 hbig
    rw [ParseInt_cons _ cs _ _ hp, if_neg (by simp), if_neg (by simp), if_pos ⟨rfl, hv⟩]
  · have hp : strconv.ParseUint (if (0x2D : Nat) = 0x2B ∨ (0x2D : Nat) = 0x2D then cs
        else 0x2D :: cs) = (2 ^ 64 - 1, some strconv.NumError.ErrRange) := by
      rw [if_pos (Or.inr rfl)]
      unfold strconv.ParseUint
      rw [if_neg hne]
      exact parseUintLoop_overflow _ 0 (by norm_num) hd.2
        (by unfold decimalValue at hbig; omega)
    rw [ParseInt_cons _ cs _ _ hp, if_neg (by simp), if_neg (by simp),
      if_pos ⟨rfl, by norm_num⟩]

/-- C7, as amended. A token on which `ParseInt` fails with a syntax error is
treated as the value zero: in a CPU line it can be replaced by `0` without any
change to what the line does (so it adds 0 to its named component and to the
`used_cpu` sum), and a recognised memory field with such a value token is
stored as 0. A token on which `ParseInt` fails with a range error, as every
decimal integer outside the signed 64-bit range does, is taken as the bound
of its sign, `2^63 - 1` or `-2^63`. -/
theorem parse_failure_value (t : GoString) :
    ((strconv.ParseInt t).2 = some strconv.NumError.ErrSyn →
        (strconv.ParseInt t).1 = 0
        ∧ (∀ (e : Exporter) (n : Int) (s0 : GoString) (pre post : List GoString),
            scrapeCpuLine e n (s0 :: (pre ++ t :: post))
              = scrapeCpuLine e n (s0 :: (pre ++ str "0" :: post)))
        ∧ (∀ (mem : MemMap) (s0 u : GoString) (rest : List GoString),
            (mem s0).isSome = true →
              scrapeMemLine mem (s0 :: t :: u :: rest) s0 = some 0))
    ∧ ((strconv.ParseInt t).2 = some strconv.NumError.ErrRange →
        (strconv.ParseInt t).1 = if t.head? = some 0x2D then -(2 ^ 63) else 2 ^ 63 - 1)
    ∧ (IsDecimal t → 2 ^ 63 ≤ decimalValue t →
        strconv.ParseInt t = (2 ^ 63 - 1, some strconv.NumError.ErrRange))
    ∧ (IsDecimal t → 2 ^ 63 < decimalValue t →
        strconv.ParseInt (0x2D :: t) = (-(2 ^ 63), some strconv.NumError.ErrRange)) := by
  refine ⟨?_, ParseInt_range_value t, ParseInt_decimal_overflow t, ParseInt_neg_overflow t⟩
  intro h
  have h0 : (strconv.ParseInt t).1 = 0 := (ParseInt_error t).1 h
  have hz : (strconv.ParseInt (str "0")).1 = 0 := by decide
  refine ⟨h0, ?_, ?_⟩
  · intro e n s0 pre post
    exact scrapeCpuLine_congr e n s0 _ _ (map_ParseInt_replace pre post t (str "0")
      (by rw [h0, hz]))
  · intro mem s0 u rest hs
    simp [scrapeMemLine, hs, h0, wrap64]

/-- C7, witness: `1x` is a syntax error and counts as 0; `9223372036854775808`
is a range error and counts as `2^63 - 1`. -/
theorem parse_failure_value_witness :
    (strconv.ParseInt (str "1x")).1 = 0
    ∧ strconv.ParseInt (str "9223372036854775808")
        = (2 ^ 63 - 1, some strconv.NumError.ErrRange) :=
  ⟨((parse_failure_value (str "1x")).1 (by decide)).1,
    (parse_failure_value (str "9223372036854775808")).2.2.1 (by decide) (by decide)⟩

/-- C7, counterexample. Parsing fails on the decimal integer
`9223372036854775808`; as the user field of the aggregate line it gives
`used_cpu_user` and `used_cpu` the value `float64(2^63 - 1) / 100`, and as the
value of `MemTotal:` it is stored as `2^63 - 1`: not zero. -/
theorem parse_failure_value_counterexample :
    IsDecimal (str "9223372036854775808")
    ∧ (strconv.ParseInt (str "9223372036854775808")).2 = some strconv.NumError.ErrRange
    ∧ gaugeAfter (NewExporter.scrapeCpu (some (str "cpu 9223372036854775808 0 0 0 0")))
        GlobalName.used_cpu_user = some (float64.ofIntDiv100 (2 ^ 63 - 1))
    ∧ gaugeAfter (NewExporter.scrapeCpu (some (str "cpu 9223372036854775808 0 0 0 0")))
        GlobalName.used_cpu = some (float64.ofIntDiv100 (2 ^ 63 - 1))
    ∧ memValue (str "MemTotal:") (str "MemTotal: 9223372036854775808 B") = 2 ^ 63 - 1
    ∧ (NewExporter.scrapeMem (some (str "MemTotal: 9223372036854775808 B"))).globalGauges
        GlobalName.total_memory = float64.ofInt (2 ^ 63 - 1) := by
  refine ⟨by decide, by decide, by decide, by decide, by decide, by decide⟩

/-! ## scrapeNet -/

theorem bind_eq_ok {α β : Type} (x : Except Panic α) (f : α → Except Panic β) (b : β) :
    (x >>= f) = Except.ok b ↔ ∃ a, x = Except.ok a ∧ f a = Except.ok b := by
  cases x with
  | error p => simp [bind, Except.bind]
  | ok a => simp [bind, Except.bind]

/-- A `Set` through `WithLabelValues` that returns had a valid label value. -/
theorem setNetGauge_ok (e e1 : Exporter) (name : NetName) (iface : GoString) (v : float64)
    (h : e.setNetGauge name iface v = Except.ok e1) :
    utf8.ValidString iface = true ∧ e1 = e.storeNet name iface v := by
  unfold Exporter.setNetGauge at h
  by_cases hv : utf8.ValidString iface = true
  · rw [if_pos hv] at h
    exact ⟨hv, (Except.ok.inj h).symm⟩
  · rw [if_neg hv] at h
    exact absurd h (by simp)

theorem setNetGauge_valid (e : Exporter) (name : NetName) (iface : GoString) (v : float64)
    (h : utf8.ValidString iface = true) :
    e.setNetGauge name iface v = Except.ok (e.storeNet name iface v) := by
  unfold Exporter.setNetGauge
  rw [if_pos h]

/-- What a `setNet` that returns has done. -/
theorem setNet_spec (e e1 : Exporter) (name : NetName) (val iface : GoString)
    (h : e.setNet name val iface = Except.ok e1) :
    (∀ (k : NetName) (l : GoString),
      e1.netGauges k l
        = if k = name ∧ l = iface then (parsedField val).orElse (fun _ => e.netGauges k l)
          else e.netGauges k l)
    ∧ e1.globalGauges = e.globalGauges := by
  unfold Exporter.setNet at h
  unfold parsedField
  rcases hp : strconv.ParseInt val with ⟨v, _ | err⟩
  · simp only [hp] at h
    obtain ⟨-, h1⟩ := setNetGauge_ok _ _ _ _ _ h
    subst h1
    refine ⟨fun k l => ?_, rfl⟩
    by_cases hc : k = name ∧ l = iface <;> simp [Exporter.storeNet, hc]
  · simp only [hp] at h
    have h1 := Except.ok.inj h
    subst h1
    refine ⟨fun k l => ?_, rfl⟩
    by_cases hc : k = name ∧ l = iface <;> simp [hc]

theorem setNet_valid (e : Exporter) (name : NetName) (val iface : GoString)
    (h : utf8.ValidString iface = true) : ∃ e1, e.setNet name val iface = Except.ok e1 := by
  unfold Exporter.setNet
  rcases strconv.ParseInt val with ⟨v, _ | err⟩
  · exact ⟨_, setNetGauge_valid e name iface _ h⟩
  · exact ⟨e, rfl⟩

/-- What the body of the network loop has done to one gauge and to `ifaces`
when it returns. -/
theorem scrapeNetLine_spec (e : Exporter) (ifaces : List GoString) (line : GoString)
    (r : Exporter × List GoString) (h : scrapeNetLine e ifaces line = Except.ok r) :
    (∀ (k : NetName) (l : GoString),
      r.1.netGauges k l
        = if ifaceOfLine line = some l then
            (counterOfLine k line).orElse (fun _ => e.netGauges k l)
          else e.netGauges k l)
    ∧ r.2 = ifaces ++ (ifaceOfLine line).toList
    ∧ r.1.globalGauges = e.globalGauges := by
  unfold scrapeNetLine at h
  unfold ifaceOfLine counterOfLine statsOfLine
  rcases hsp : strings.Split 0x3A line with _ | ⟨seg0, _ | ⟨seg1, _ | ⟨seg2, rest⟩⟩⟩
  · simp only [hsp] at h
    have h1 := Except.ok.inj h
    subst h1
    simp
  · simp only [hsp] at h
    have h1 := Except.ok.inj h
    subst h1
    simp
  · simp only [hsp] at h
    by_cases hlen : (strings.Fields seg1).length < 16
    · have h16 : ¬ 16 ≤ (strings.Fields seg1).length := by omega
      rw [if_pos hlen] at h
      have h1 := Except.ok.inj h
      subst h1
      simp [h16]
    · have h16 : 16 ≤ (strings.Fields seg1).length := by omega
      rw [if_neg hlen] at h
      simp only [bind_eq_ok] at h
      obtain ⟨e1, h1, e2, h2, e3, h3, e4, h4, e5, h5, e6, h6, h7⟩ := h
      have h8 := Except.ok.inj h7
      subst h8
      obtain ⟨g1, q1⟩ := setNet_spec _ _ _ _ _ h1
      obtain ⟨g2, q2⟩ := setNet_spec _ _ _ _ _ h2
      obtain ⟨g3, q3⟩ := setNet_spec _ _ _ _ _ h3
      obtain ⟨g4, q4⟩ := setNet_spec _ _ _ _ _ h4
      obtain ⟨g5, q5⟩ := setNet_spec _ _ _ _ _ h5
      obtain ⟨g6, q6⟩ := setNet_spec _ _ _ _ _ h6
      simp only [h16, if_true, Option.toList, Option.some.injEq]
      refine ⟨?_, trivial, ?_⟩
      · intro k l
        rw [g6, g5, g4, g3, g2, g1]
        by_cases hl : strings.Trim seg0 0x20 = l
        · subst hl
          cases k <;> simp [fieldIndex]
        · have hl2 : ¬ l = strings.Trim seg0 0x20 := fun h => hl h.symm
          simp [hl, hl2]
      · rw [q6, q5, q4, q3, q2, q1]
  · simp only [hsp] at h
    have h1 := Except.ok.inj h
    subst h1
    simp

/-- The body of the network loop returns on every line whose interface name,
if it is a valid line, is valid UTF-8. -/
theorem scrapeNetLine_valid (e : Exporter) (ifaces : List GoString) (line : GoString)
    (hv : ∀ l, ifaceOfLine line = some l → utf8.ValidString l = true) :
    ∃ r, scrapeNetLine e ifaces line = Except.ok r := by
  unfold ifaceOfLine at hv
  unfold scrapeNetLine
  rcases hsp : strings.Split 0x3A line with _ | ⟨seg0, _ | ⟨seg1, _ | ⟨seg2, rest⟩⟩⟩
  · exact ⟨_, rfl⟩
  · exact ⟨_, rfl⟩
  · simp only [hsp] at hv ⊢
    by_cases hlen : (strings.Fields seg1).length < 16
    · rw [if_pos hlen]
      exact ⟨_, rfl⟩
    · have h16 : 16 ≤ (strings.Fields seg1).length := by omega
      rw [if_neg hlen]
      have hval : utf8.ValidString (strings.Trim seg0 0x20) = true := by
        apply hv
        rw [if_pos h16]
      obtain ⟨e1, h1⟩ := setNet_valid e NetName.total_net_input_bytes
        ((strings.Fields seg1).getD 0 []) _ hval
      obtain ⟨e2, h2⟩ := setNet_valid e1 NetName.total_net_input_errs
        ((strings.Fields seg1).getD 2 []) _ hval
      obtain ⟨e3, h3⟩ := setNet_valid e2 NetName.total_net_input_drop
        ((strings.Fields seg1).getD 3 []) _ hval
      obtain ⟨e4, h4⟩ := setNet_valid e3 NetName.total_net_output_bytes
        ((strings.Fields seg1).getD 8 []) _ hval
      obtain ⟨e5, h5⟩ := setNet_valid e4 NetName.total_net_output_errs
        ((strings.Fields seg1).getD 10 []) _ hval
      obtain ⟨e6, h6⟩ := setNet_valid e5 NetName.total_net_output_drop
        ((strings.Fields seg1).getD 11 []) _ hval
      refine ⟨(e6, ifaces ++ [strings.Trim seg0 0x20]), ?_⟩
      simp only [bind_eq_ok]
      exact ⟨e1, h1, e2, h2, e3, h3, e4, h4, e5, h5, e6, h6, rfl⟩
  · exact ⟨_, rfl⟩

theorem scrapeNetLoop_spec (lines : List GoString) (e : Exporter) (ifaces : List GoString)
    (r : Exporter × List GoString) (h : scrapeNetLoop lines e ifaces = Except.ok r) :
    (∀ (k : NetName) (l : GoString),
      r.1.netGauges k l = lastCounter k l lines (e.netGauges k l))
    ∧ r.2 = ifaces ++ lines.filterMap ifaceOfLine
    ∧ r.1.globalGauges = e.globalGauges := by
  induction lines generalizing e ifaces with
  | nil =>
    simp only [scrapeNetLoop] at h
    have h1 := Except.ok.inj h
    subst h1
    simp [lastCounter]
  | cons line lines ih =>
    simp only [scrapeNetLoop] at h
    cases hl : scrapeNetLine e ifaces line with
    | error p => rw [hl] at h; exact absurd h (by simp)
    | ok r1 =>
      obtain ⟨e1, ifaces1⟩ := r1
      rw [hl] at h
      obtain ⟨h1, h2, h3⟩ := scrapeNetLine_spec e ifaces line _ hl
      obtain ⟨i1, i2, i3⟩ := ih e1 ifaces1 h
      simp only at h1 h2 h3
      simp only [lastCounter]
      refine ⟨?_, ?_, ?_⟩
      · intro k l
        rw [i1, h1]
      · rw [i2, h2]
        cases hi : ifaceOfLine line <;> simp [List.filterMap_cons, hi]
      · rw [i3, h3]

theorem scrapeNetLoop_valid (lines : List GoString) (e : Exporter) (ifaces : List GoString)
    (hv : ∀ l ∈ lines.filterMap ifaceOfLine, utf8.ValidString l = true) :
    ∃ r, scrapeNetLoop lines e ifaces = Except.ok r := by
  induction lines generalizing e ifaces with
  | nil => exact ⟨_, rfl⟩
  | cons line lines ih =>
    obtain ⟨r1, h1⟩ := scrapeNetLine_valid e ifaces line
      (fun l hl => hv l (List.mem_filterMap.mpr ⟨line, List.mem_cons_self _ _, hl⟩))
    obtain ⟨e1, ifaces1⟩ := r1
    obtain ⟨r, h2⟩ := ih e1 ifaces1 (fun l hl => by
      obtain ⟨x, hx, hxl⟩ := List.mem_filterMap.mp hl
      exact hv l (List.mem_filterMap.mpr ⟨x, List.mem_cons_of_mem _ hx, hxl⟩))
    exact ⟨r, by simp only [scrapeNetLoop, h1, h2]⟩

theorem speedLoop_spec (CmdGet : GoString → Option Nat) (ifaces : List GoString) (e : Exporter)
    (calls : List HwCall) (r : Exporter × List HwCall)
    (h : speedLoop CmdGet ifaces e calls = Except.ok r) :
    (∀ (k : NetName) (l : GoString),
      r.1.netGauges k l
        = if k = NetName.interface_speed ∧ l ∈ ifaces then
            (hwSpeed (some CmdGet) l).orElse (fun _ => e.netGauges k l)
          else e.netGauges k l)
    ∧ r.2 = calls ++ (ifaces.filter (fun i => decide (i ≠ str "lo"))).map HwCall.CmdGet
    ∧ r.1.globalGauges = e.globalGauges := by
  induction ifaces generalizing e calls with
  | nil =>
    simp only [speedLoop] at h
    have h1 := Except.ok.inj h
    subst h1
    simp
  | cons i rest ih =>
    by_cases hlo : i = str "lo"
    · simp only [speedLoop, if_pos hlo] at h
      cases hs : e.setNetGauge NetName.interface_speed i (float64.ofInt 0) with
      | error p => rw [hs] at h; exact absurd h (by simp)
      | ok e1 =>
        rw [hs] at h
        obtain ⟨-, he1⟩ := setNetGauge_ok _ _ _ _ _ hs
        subst he1
        obtain ⟨i1, i2, i3⟩ := ih _ calls h
        refine ⟨?_, ?_, ?_⟩
        · intro k l
          rw [i1]
          by_cases hk : k = NetName.interface_speed
          · by_cases hl : l = i
            · subst hl
              by_cases hr : l ∈ rest <;> simp [hk, hr, hwSpeed, hlo, Exporter.storeNet]
            · have hl2 : ¬ l = str "lo" := fun h => hl (h.trans hlo.symm)
              by_cases hr : l ∈ rest <;> simp [hk, hr, hl, hl2, Exporter.storeNet]
          · simp [hk, Exporter.storeNet]
        · rw [i2]
          simp [List.filter_cons, hlo]
        · rw [i3]
          rfl
    · cases hq : CmdGet i with
      | none =>
        simp only [speedLoop, if_neg hlo, hq] at h
        obtain ⟨i1, i2, i3⟩ := ih e (calls ++ [HwCall.CmdGet i]) h
        refine ⟨?_, ?_, ?_⟩
        · intro k l
          rw [i1]
          by_cases hk : k = NetName.interface_speed
          · by_cases hl : l = i
            · subst hl
              by_cases hr : l ∈ rest <;> simp [hk, hr, hwSpeed, hlo, hq]
            · by_cases hr : l ∈ rest <;> simp [hk, hr, hl]
          · simp [hk]
        · rw [i2]
          simp [List.filter_cons, hlo]
        · rw [i3]
      | some speed =>
        simp only [speedLoop, if_neg hlo, hq] at h
        cases hs : e.setNetGauge NetName.interface_speed i
            (float64.ofInt ((speed * 2 ^ 17 % 2 ^ 32 : Nat) : Int)) with
        | error p => rw [hs] at h; exact absurd h (by simp)
        | ok e1 =>
          rw [hs] at h
          obtain ⟨-, he1⟩ := setNetGauge_ok _ _ _ _ _ hs
          subst he1
          obtain ⟨i1, i2, i3⟩ := ih _ (calls ++ [HwCall.CmdGet i]) h
          refine ⟨?_, ?_, ?_⟩
          · intro k l
            rw [i1]
            by_cases hk : k = NetName.interface_speed
            · by_cases hl : l = i
              · subst hl
                by_cases hr : l ∈ rest <;>
                  simp [hk, hr, hwSpeed, hlo, hq, Exporter.storeNet]
              · by_cases hr : l ∈ rest <;> simp [hk, hr, hl, Exporter.storeNet]
            · simp [hk, Exporter.storeNet]
          · rw [i2]
            simp [List.filter_cons, hlo]
          · rw [i3]
            rfl

theorem speedLoop_valid (CmdGet : GoString → Option Nat) (ifaces : List GoString)
    (e : Exporter) (calls : List HwCall)
    (hv : ∀ l ∈ ifaces, utf8.ValidString l = true) :
    ∃ r, speedLoop CmdGet ifaces e calls = Except.ok r := by
  induction ifaces generalizing e calls with
  | nil => exact ⟨_, rfl⟩
  | cons i rest ih =>
    have hi : utf8.ValidString i = true := hv i (List.mem_cons_self _ _)
    have hr : ∀ l ∈ rest, utf8.ValidString l = true :=
      fun l hl => hv l (List.mem_cons_of_mem _ hl)
    by_cases hlo : i = str "lo"
    · obtain ⟨r, h⟩ := ih (e.storeNet NetName.interface_speed i (float64.ofInt 0)) calls hr
      exact ⟨r, by simp only [speedLoop, if_pos hlo, setNetGauge_valid _ _ _ _ hi, h]⟩
    · cases hq : CmdGet i with
      | none =>
        obtain ⟨r, h⟩ := ih e (calls ++ [HwCall.CmdGet i]) hr
        exact ⟨r, by simp only [speedLoop, if_neg hlo, hq, h]⟩
      | some speed =>
        obtain ⟨r, h⟩ := ih (e.storeNet NetName.interface_speed i
          (float64.ofInt ((speed * 2 ^ 17 % 2 ^ 32 : Nat) : Int)))
          (calls ++ [HwCall.CmdGet i]) hr
        exact ⟨r, by simp only [speedLoop, if_neg hlo, hq, setNetGauge_valid _ _ _ _ hi, h]⟩

/-- `scrapeNet` on a readable source, when it returns: gauge by gauge, and the
calls it has made. -/
theorem scrapeNet_spec (e : Exporter) (s : GoString) (hw : Option (GoString → Option Nat))
    (r : Exporter × List HwCall) (h : e.scrapeNet (some s) hw = Except.ok r) :
    (∀ (k : NetName) (l : GoString),
      r.1.netGauges k l
        = if k = NetName.interface_speed ∧ l ∈ parsedIfaces s then
            (hwSpeed hw l).orElse
              (fun _ => lastCounter k l ((strings.Split 0x0A s).drop 2) (e.netGauges k l))
          else lastCounter k l ((strings.Split 0x0A s).drop 2) (e.netGauges k l))
    ∧ r.2
        = (if parsedIfaces s = [] then []
           else match hw with
             | none => [HwCall.NewEthtool]
             | some _ =>
               HwCall.NewEthtool
                 :: ((parsedIfaces s).filter (fun i => decide (i ≠ str "lo"))).map HwCall.CmdGet
                 ++ [HwCall.Close])
    ∧ r.1.globalGauges = e.globalGauges := by
  unfold Exporter.scrapeNet at h
  simp only at h
  by_cases hlen : (strings.Split 0x0A s).length ≤ 2
  · have hd : (strings.Split 0x0A s).drop 2 = [] := List.drop_eq_nil_of_le hlen
    rw [if_pos hlen] at h
    have h1 := Except.ok.inj h
    subst h1
    simp [parsedIfaces, hd, lastCounter]
  · rw [if_neg hlen] at h
    cases hloop : scrapeNetLoop ((strings.Split 0x0A s).drop 2) e [] with
    | error p => rw [hloop] at h; exact absurd h (by simp)
    | ok r1 =>
      obtain ⟨e1, ifaces⟩ := r1
      rw [hloop] at h
      simp only at h
      obtain ⟨l1, l2, l3⟩ := scrapeNetLoop_spec _ e [] _ hloop
      simp only [List.nil_append] at l1 l2 l3
      have hpi : parsedIfaces s = ifaces := l2.symm
      by_cases hnil : ifaces = []
      · have h0 : ¬ ifaces.length > 0 := by simp [hnil]
        rw [if_neg h0] at h
        have h1 := Except.ok.inj h
        subst h1
        rw [hpi]
        simp only [hnil, if_true, List.not_mem_nil, and_false, if_false, l3, and_true]
        exact fun k l => l1 k l
      · have h0 : ifaces.length > 0 := List.length_pos.mpr hnil
        rw [if_pos h0] at h
        rw [hpi, if_neg hnil]
        cases hw with
        | none =>
          simp only at h
          have h1 := Except.ok.inj h
          subst h1
          simp only [l3, and_true]
          intro k l
          rw [l1]
          by_cases hc : k = NetName.interface_speed ∧ l ∈ ifaces <;> simp [hc, hwSpeed]
        | some CmdGet =>
          simp only at h
          cases hsl : speedLoop CmdGet ifaces e1 [HwCall.NewEthtool] with
          | error p => rw [hsl] at h; exact absurd h (by simp)
          | ok r2 =>
            obtain ⟨e2, calls⟩ := r2
            rw [hsl] at h
            simp only at h
            have h1 := Except.ok.inj h
            subst h1
            obtain ⟨s1, s2, s3⟩ := speedLoop_spec CmdGet ifaces e1 _ _ hsl
            simp only at s1 s2 s3
            refine ⟨?_, ?_, ?_⟩
            · intro k l
              rw [s1, l1]
            · rw [s2]
              rfl
            · rw [s3, l3]

/-- `scrapeNet` returns when every interface name of a valid line is valid
UTF-8. -/
theorem scrapeNet_valid (e : Exporter) (src : Option GoString)
    (hw : Option (GoString → Option Nat))
    (hv : ∀ s, src = some s → ∀ l ∈ parsedIfaces s, utf8.ValidString l = true) :
    ∃ r, e.scrapeNet src hw = Except.ok r := by
  cases src with
  | none => exact ⟨_, rfl⟩
  | some s =>
    have hv1 := hv s rfl
    unfold Exporter.scrapeNet
    simp only
    by_cases hlen : (strings.Split 0x0A s).length ≤ 2
    · rw [if_pos hlen]
      exact ⟨_, rfl⟩
    · rw [if_neg hlen]
      obtain ⟨r1, hloop⟩ := scrapeNetLoop_valid ((strings.Split 0x0A s).drop 2) e [] hv1
      obtain ⟨e1, ifaces⟩ := r1
      obtain ⟨-, l2, -⟩ := scrapeNetLoop_spec _ e [] _ hloop
      simp only [List.nil_append] at l2
      rw [hloop]
      simp only
      by_cases h0 : ifaces.length > 0
      · rw [if_pos h0]
        cases hw with
        | none => exact ⟨_, rfl⟩
        | some CmdGet =>
          obtain ⟨r2, hsl⟩ := speedLoop_valid CmdGet ifaces e1 [HwCall.NewEthtool]
            (by rw [l2]; exact hv1)
          simp only [hsl]
          exact ⟨_, rfl⟩
      · rw [if_neg h0]
        exact ⟨_, rfl⟩

/-- `scrapeNet` leaves every global gauge as it is. -/
theorem scrapeNet_globalGauges (e : Exporter) (src : Option GoString)
    (hw : Option (GoString → Option Nat)) (r : Exporter × List HwCall)
    (h : e.scrapeNet src hw = Except.ok r) : r.1.globalGauges = e.globalGauges := by
  cases src with
  | none =>
    have h1 := Except.ok.inj h
    subst h1
    rfl
  | some s => exact (scrapeNet_spec e s hw r h).2.2

theorem parsedField_integer (ss : List GoString) (i : Nat) (hi : i < ss.length)
    (hint : ∀ f ∈ ss, IsInt64 f = true) :
    parsedField (ss.getD i []) = (integerValue? (ss.getD i [])).map float64.ofInt := by
  have hmem : ss.getD i [] ∈ ss := by
    rw [List.getD_eq_getElem _ _ hi]
    exact List.getElem_mem hi
  obtain ⟨v, hv, h0, h1⟩ := IsInt64_value _ (hint _ hmem)
  unfold parsedField
  rw [ParseInt_integer _ v hv h0 h1, hv]
  rfl

/-! ## C6: the six counters of a valid line -/

theorem lastCounter_append (k : NetName) (l : GoString) (a b : List GoString)
    (cur : Option float64) :
    lastCounter k l (a ++ b) cur = lastCounter k l b (lastCounter k l a cur) := by
  induction a generalizing cur with
  | nil => rfl
  | cons x xs ih =>
    simp only [List.cons_append, lastCounter]
    exact ih _

theorem lastCounter_skip (k : NetName) (l : GoString) (lines : List GoString)
    (cur : Option float64) (h : ∀ x ∈ lines, ifaceOfLine x ≠ some l) :
    lastCounter k l lines cur = cur := by
  induction lines generalizing cur with
  | nil => rfl
  | cons x xs ih =>
    simp only [lastCounter]
    rw [if_neg (h x (List.mem_cons_self _ _))]
    exact ih _ (fun y hy => h y (List.mem_cons_of_mem _ hy))

/-- The last valid line of an interface decides a counter it publishes. -/
theorem lastCounter_last (k : NetName) (l line : GoString) (pre post : List GoString)
    (cur : Option float64) (v : float64) (hi : ifaceOfLine line = some l)
    (hc : counterOfLine k line = some v) (hpost : ∀ x ∈ post, ifaceOfLine x ≠ some l) :
    lastCounter k l (pre ++ line :: post) cur = some v := by
  rw [lastCounter_append]
  simp only [lastCounter]
  rw [if_pos hi, hc, lastCounter_skip k l post _ hpost]
  rfl

/-- C6, as amended. For every content of the network source in which the
interface names of the valid lines are valid UTF-8, and every valid interface
line of it after the two header lines (exactly one colon, at least 16 fields
after it) whose fields are decimal integers in the signed 64-bit range and
which no later valid line of the same interface follows: the scrape completes
and the six gauges labelled with the interface name hold the `float64` of the
fields 0, 2, 3, 8, 10 and 11 of the line. -/
theorem scrapeNet_counters (e : Exporter) (s : GoString)
    (hw : Option (GoString → Option Nat)) (pre post : List GoString)
    (line seg0 seg1 : GoString)
    (hs : (strings.Split 0x0A s).drop 2 = pre ++ line :: post)
    (hsplit : strings.Split 0x3A line = [seg0, seg1])
    (hlen : 16 ≤ (strings.Fields seg1).length)
    (hint : ∀ f ∈ strings.Fields seg1, IsInt64 f = true)
    (hlast : ∀ x ∈ post, ifaceOfLine x ≠ some (strings.Trim seg0 0x20))
    (hutf : ∀ l ∈ parsedIfaces s, utf8.ValidString l = true) :
    netGaugeAfter (e.scrapeNet (some s) hw) NetName.total_net_input_bytes
        (strings.Trim seg0 0x20)
      = (integerValue? ((strings.Fields seg1).getD 0 [])).map float64.ofInt
    ∧ netGaugeAfter (e.scrapeNet (some s) hw) NetName.total_net_input_errs
        (strings.Trim seg0 0x20)
      = (integerValue? ((strings.Fields seg1).getD 2 [])).map float64.ofInt
    ∧ netGaugeAfter (e.scrapeNet (some s) hw) NetName.total_net_input_drop
        (strings.Trim seg0 0x20)
      = (integerValue? ((strings.Fields seg1).getD 3 [])).map float64.ofInt
    ∧ netGaugeAfter (e.scrapeNet (some s) hw) NetName.total_net_output_bytes
        (strings.Trim seg0 0x20)
      = (integerValue? ((strings.Fields seg1).getD 8 [])).map float64.ofInt
    ∧ netGaugeAfter (e.scrapeNet (some s) hw) NetName.total_net_output_errs
        (strings.Trim seg0 0x20)
      = (integerValue? ((strings.Fields seg1).getD 10 [])).map float64.ofInt
    ∧ netGaugeAfter (e.scrapeNet (some s) hw) NetName.total_net_output_drop
        (strings.Trim seg0 0x20)
      = (integerValue? ((strings.Fields seg1).getD 11 [])).map float64.ofInt
    ∧ (e.scrapeNet (some s) hw).isOk = true
    ∧ (∀ i, i < 16 → (integerValue? ((strings.Fields seg1).getD i [])).isSome = true) := by
  have hi : ifaceOfLine line = some (strings.Trim seg0 0x20) := by
    simp [ifaceOfLine, hsplit, hlen]
  have hst : statsOfLine line = strings.Fields seg1 := by
    simp [statsOfLine, hsplit]
  have hsome : ∀ i, i < 16 →
      (integerValue? ((strings.Fields seg1).getD i [])).isSome = true := by
    intro i h16
    have hmem : (strings.Fields seg1).getD i [] ∈ strings.Fields seg1 := by
      rw [List.getD_eq_getElem _ _ (by omega)]
      exact List.getElem_mem _
    obtain ⟨v, hv, -, -⟩ := IsInt64_value _ (hint _ hmem)
    rw [hv]
    rfl
  obtain ⟨r, hr⟩ := scrapeNet_valid e (some s) hw
    (fun s1 h1 => by rw [← Option.some.inj h1]; exact hutf)
  have key : ∀ (k : NetName) (i : Nat), fieldIndex k = some i → i < 16 →
      netGaugeAfter (e.scrapeNet (some s) hw) k (strings.Trim seg0 0x20)
        = (integerValue? ((strings.Fields seg1).getD i [])).map float64.ofInt := by
    intro k i hk h16
    have hks : k ≠ NetName.interface_speed := by
      intro h
      rw [h] at hk
      simp [fieldIndex] at hk
    have h2 := hsome i h16
    have hc : counterOfLine k line
        = (integerValue? ((strings.Fields seg1).getD i [])).map float64.ofInt := by
      unfold counterOfLine
      rw [hk, hst]
      exact parsedField_integer _ i (by omega) hint
    rw [hr]
    show r.1.netGauges k (strings.Trim seg0 0x20) = _
    rw [(scrapeNet_spec e s hw r hr).1, if_neg (fun h => hks h.1), hs]
    cases hv : integerValue? ((strings.Fields seg1).getD i []) with
    | none => rw [hv] at h2; exact absurd h2 (by simp)
    | some v =>
      rw [hv] at hc
      exact lastCounter_last k _ line pre post _ _ hi hc hlast
  refine ⟨key _ 0 rfl (by omega), key _ 2 rfl (by omega), key _ 3 rfl (by omega),
    key _ 8 rfl (by omega), key _ 10 rfl (by omega), key _ 11 rfl (by omega), ?_, hsome⟩
  rw [hr]
  rfl

/-- C6, witness: in a source with an earlier `eth0` line and a later `lo`
line, the line `eth0: 1000 0 5 2 0 0 0 0 500 0 3 1 0 0 0 0` yields 1000, 5, 2,
500, 3 and 1 for `eth0`. -/
theorem scrapeNet_counters_witness :
    netGaugeAfter (staleExporter.scrapeNet (some (str
          "h1\nh2\neth0: 7 7 7 7 7 7 7 7 7 7 7 7 7 7 7 7\neth0: 1000 0 5 2 0 0 0 0 500 0 3 1 0 0 0 0\nlo: 1 0 0 0 0 0 0 0 1 0 0 0 0 0 0 0"))
        none) NetName.total_net_input_bytes (str "eth0") = some (float64.ofInt 1000)
    ∧ netGaugeAfter (staleExporter.scrapeNet (some (str
          "h1\nh2\neth0: 7 7 7 7 7 7 7 7 7 7 7 7 7 7 7 7\neth0: 1000 0 5 2 0 0 0 0 500 0 3 1 0 0 0 0\nlo: 1 0 0 0 0 0 0 0 1 0 0 0 0 0 0 0"))
        none) NetName.total_net_input_errs (str "eth0") = some (float64.ofInt 5)
    ∧ netGaugeAfter (staleExporter.scrapeNet (some (str
          "h1\nh2\neth0: 7 7 7 7 7 7 7 7 7 7 7 7 7 7 7 7\neth0: 1000 0 5 2 0 0 0 0 500 0 3 1 0 0 0 0\nlo: 1 0 0 0 0 0 0 0 1 0 0 0 0 0 0 0"))
        none) NetName.total_net_input_drop (str "eth0") = some (float64.ofInt 2)
    ∧ netGaugeAfter (staleExporter.scrapeNet (some (str
          "h1\nh2\neth0: 7 7 7 7 7 7 7 7 7 7 7 7 7 7 7 7\neth0: 1000 0 5 2 0 0 0 0 500 0 3 1 0 0 0 0\nlo: 1 0 0 0 0 0 0 0 1 0 0 0 0 0 0 0"))
        none) NetName.total_net_output_bytes (str "eth0") = some (float64.ofInt 500)
    ∧ netGaugeAfter (staleExporter.scrapeNet (some (str
          "h1\nh2\neth0: 7 7 7 7 7 7 7 7 7 7 7 7 7 7 7 7\neth0: 1000 0 5 2 0 0 0 0 500 0 3 1 0 0 0 0\nlo: 1 0 0 0 0 0 0 0 1 0 0 0 0 0 0 0"))
        none) NetName.total_net_output_errs (str "eth0") = some (float64.ofInt 3)
    ∧ netGaugeAfter (staleExporter.scrapeNet (some (str
          "h1\nh2\neth0: 7 7 7 7 7 7 7 7 7 7 7 7 7 7 7 7\neth0: 1000 0 5 2 0 0 0 0 500 0 3 1 0 0 0 0\nlo: 1 0 0 0 0 0 0 0 1 0 0 0 0 0 0 0"))
        none) NetName.total_net_output_drop (str "eth0") = some (float64.ofInt 1) := by
  have h := scrapeNet_counters staleExporter (str
      "h1\nh2\neth0: 7 7 7 7 7 7 7 7 7 7 7 7 7 7 7 7\neth0: 1000 0 5 2 0 0 0 0 500 0 3 1 0 0 0 0\nlo: 1 0 0 0 0 0 0 0 1 0 0 0 0 0 0 0")
    none [str "eth0: 7 7 7 7 7 7 7 7 7 7 7 7 7 7 7 7"]
    [str "lo: 1 0 0 0 0 0 0 0 1 0 0 0 0 0 0 0"]
    (str "eth0: 1000 0 5 2 0 0 0 0 500 0 3 1 0 0 0 0") (str "eth0")
    (str " 1000 0 5 2 0 0 0 0 500 0 3 1 0 0 0 0") (by decide) (by decide) (by decide)
    (by decide) (by decide) (by decide)
  have ht : strings.Trim (str "eth0") 0x20 = str "eth0" := by decide
  rw [ht] at h
  exact ⟨h.1.trans (by decide), h.2.1.trans (by decide), h.2.2.1.trans (by decide),
    h.2.2.2.1.trans (by decide), h.2.2.2.2.1.trans (by decide),
    h.2.2.2.2.2.1.trans (by decide)⟩

/-- C6, counterexample. Every field of
`eth0: 9223372036854775808 0 5 2 0 0 0 0 500 0 3 1 0 0 0 0` is a decimal
integer and the line is valid, but after the scrape `total_net_input_bytes`
has no value for `eth0`: the first field is outside the `int64` range. With
the two valid lines `eth0: 5 0 ...` and `eth0: 7 0 ...` the gauge holds 7
after the scrape, not the 5 of the first of them. And on a valid line of
decimal integers whose name is the byte FF the scrape panics. -/
theorem scrapeNet_counters_counterexample :
    (ifaceOfLine (str "eth0: 9223372036854775808 0 5 2 0 0 0 0 500 0 3 1 0 0 0 0")
        = some (str "eth0")
      ∧ (∀ f ∈ statsOfLine (str "eth0: 9223372036854775808 0 5 2 0 0 0 0 500 0 3 1 0 0 0 0"),
          IsDecimal f)
      ∧ (NewExporter.scrapeNet
          (some (str "h1\nh2\neth0: 9223372036854775808 0 5 2 0 0 0 0 500 0 3 1 0 0 0 0"))
          none).isOk = true
      ∧ netGaugeAfter (NewExporter.scrapeNet
          (some (str "h1\nh2\neth0: 9223372036854775808 0 5 2 0 0 0 0 500 0 3 1 0 0 0 0"))
          none) NetName.total_net_input_bytes (str "eth0") = none)
    ∧ (ifaceOfLine (str "eth0: 5 0 0 0 0 0 0 0 0 0 0 0 0 0 0 0") = some (str "eth0")
      ∧ (∀ f ∈ statsOfLine (str "eth0: 5 0 0 0 0 0 0 0 0 0 0 0 0 0 0 0"), IsInt64 f = true)
      ∧ netGaugeAfter (NewExporter.scrapeNet
          (some (str
            "h1\nh2\neth0: 5 0 0 0 0 0 0 0 0 0 0 0 0 0 0 0\neth0: 7 0 0 0 0 0 0 0 0 0 0 0 0 0 0 0"))
          none) NetName.total_net_input_bytes (str "eth0") = some (float64.ofInt 7))
    ∧ (ifaceOfLine (0xFF :: str ": 1 2 3 4 5 6 7 8 9 10 11 12 13 14 15 16") = some [0xFF]
      ∧ (∀ f ∈ statsOfLine (0xFF :: str ": 1 2 3 4 5 6 7 8 9 10 11 12 13 14 15 16"),
          IsInt64 f = true)
      ∧ NewExporter.scrapeNet
          (some (str "h1\nh2\n" ++ 0xFF :: str ": 1 2 3 4 5 6 7 8 9 10 11 12 13 14 15 16"))
          none = Except.error Panic.invalidLabelValue) := by
  refine ⟨⟨by decide, by decide, by decide, by decide⟩, ⟨by decide, by decide, by decide⟩,
    ⟨by decide, by decide, rfl⟩⟩

/-! ## C8: the loopback interface -/

/-- C8, as amended. For every content of the network source in which `lo` is
the interface name of a valid line and the interface names of the valid lines
are valid UTF-8: for every outcome of the hardware query layer in which the
handle opens, `interface_speed{iface=lo}` is published with value 0 after the
scrape; and for every outcome, the failure to open the handle included, the
scrape completes and the per-interface query is never invoked for `lo`. -/
theorem scrapeNet_lo (e : Exporter) (s : GoString) (hlo : str "lo" ∈ parsedIfaces s)
    (hutf : ∀ l ∈ parsedIfaces s, utf8.ValidString l = true) :
    (∀ CmdGet : GoString → Option Nat,
      netGaugeAfter (e.scrapeNet (some s) (some CmdGet)) NetName.interface_speed (str "lo")
        = some (float64.ofInt 0))
    ∧ (∀ hw : Option (GoString → Option Nat),
      (e.scrapeNet (some s) hw).isOk = true
      ∧ HwCall.CmdGet (str "lo") ∉ callsAfter (e.scrapeNet (some s) hw)) := by
  have hok : ∀ hw, ∃ r, e.scrapeNet (some s) hw = Except.ok r := fun hw =>
    scrapeNet_valid e (some s) hw (fun s1 h1 => by rw [← Option.some.inj h1]; exact hutf)
  refine ⟨?_, ?_⟩
  · intro CmdGet
    obtain ⟨r, hr⟩ := hok (some CmdGet)
    rw [hr]
    show r.1.netGauges NetName.interface_speed (str "lo") = _
    rw [(scrapeNet_spec e s (some CmdGet) r hr).1, if_pos ⟨rfl, hlo⟩]
    simp [hwSpeed]
  · intro hw
    obtain ⟨r, hr⟩ := hok hw
    rw [hr]
    refine ⟨rfl, ?_⟩
    show HwCall.CmdGet (str "lo") ∉ r.2
    rw [(scrapeNet_spec e s hw r hr).2.1]
    have hne : parsedIfaces s ≠ [] := List.ne_nil_of_mem hlo
    rw [if_neg hne]
    cases hw with
    | none => simp
    | some CmdGet => simp

/-- C8, witness: a source with a valid `lo` line and a handle that opens. -/
theorem scrapeNet_lo_witness :
    netGaugeAfter (NewExporter.scrapeNet
        (some (str "h1\nh2\n    lo: 1 2 3 4 5 6 7 8 9 10 11 12 13 14 15 16"))
        (some (fun _ => some 1000))) NetName.interface_speed (str "lo")
      = some (float64.ofInt 0) :=
  (scrapeNet_lo NewExporter (str "h1\nh2\n    lo: 1 2 3 4 5 6 7 8 9 10 11 12 13 14 15 16")
    (by decide) (by decide)).1 (fun _ => some 1000)

/-- C8, counterexample. `lo` is the interface name of a valid line, the query
handle does not open, and after the scrape, which completes,
`interface_speed{iface=lo}` has no value. And with a valid line named by the
byte FF after the `lo` line the scrape panics, although the handle would
open: nothing is published. -/
theorem scrapeNet_lo_counterexample :
    str "lo" ∈ parsedIfaces (str "h1\nh2\n    lo: 1 2 3 4 5 6 7 8 9 10 11 12 13 14 15 16")
    ∧ (NewExporter.scrapeNet
          (some (str "h1\nh2\n    lo: 1 2 3 4 5 6 7 8 9 10 11 12 13 14 15 16"))
          none).isOk = true
    ∧ netGaugeAfter (NewExporter.scrapeNet
          (some (str "h1\nh2\n    lo: 1 2 3 4 5 6 7 8 9 10 11 12 13 14 15 16"))
          none) NetName.interface_speed (str "lo") = none
    ∧ str "lo" ∈ parsedIfaces (str "h1\nh2\nlo: 1 2 3 4 5 6 7 8 9 10 11 12 13 14 15 16\n"
          ++ 0xFF :: str ": 1 2 3 4 5 6 7 8 9 10 11 12 13 14 15 16")
    ∧ NewExporter.scrapeNet
          (some (str "h1\nh2\nlo: 1 2 3 4 5 6 7 8 9 10 11 12 13 14 15 16\n"
            ++ 0xFF :: str ": 1 2 3 4 5 6 7 8 9 10 11 12 13 14 15 16"))
          (some (fun _ => some 1000)) = Except.error Panic.invalidLabelValue := by
  refine ⟨by decide, by decide, by decide, by decide, rfl⟩

/-! ## C9: the link speed -/

/-- The speed published for an interface other than `lo` with a valid line,
whose query succeeds with the `uint32` result `r`: the `float64` of `r << 17`
as a `uint32`, which is `r * 2^17` reduced modulo `2^32`. -/
theorem scrapeNet_speed (e : Exporter) (s : GoString) (CmdGet : GoString → Option Nat)
    (iface : GoString) (r : Nat) (hi : iface ∈ parsedIfaces s) (hlo : iface ≠ str "lo")
    (hr : CmdGet iface = some r)
    (hutf : ∀ l ∈ parsedIfaces s, utf8.ValidString l = true) :
    netGaugeAfter (e.scrapeNet (some s) (some CmdGet)) NetName.interface_speed iface
      = some (float64.ofInt ((r * 2 ^ 17 % 2 ^ 32 : Nat) : Int)) := by
  obtain ⟨q, hq⟩ := scrapeNet_valid e (some s) (some CmdGet)
    (fun s1 h1 => by rw [← Option.some.inj h1]; exact hutf)
  rw [hq]
  show q.1.netGauges NetName.interface_speed iface = _
  rw [(scrapeNet_spec e s (some CmdGet) q hq).1, if_pos ⟨rfl, hi⟩]
  simp [hwSpeed, hlo, hr]

/-- C9, at the failing input: a 40 Gb/s link. The query returns 40000 and the
gauge is set to 947912704, which is not `40000 * 2^17 = 5242880000`. -/
theorem scrapeNet_speed_overflow :
    netGaugeAfter (NewExporter.scrapeNet
        (some (str "h1\nh2\n  eth0: 1000 0 5 2 0 0 0 0 500 0 3 1 0 0 0 0"))
        (some (fun _ => some 40000))) NetName.interface_speed (str "eth0")
      = some (float64.ofInt 947912704)
    ∧ (40000 : Nat) < 2 ^ 32
    ∧ (947912704 : Int) ≠ 40000 * 2 ^ 17 :=
  ⟨(scrapeNet_speed NewExporter
      (str "h1\nh2\n  eth0: 1000 0 5 2 0 0 0 0 500 0 3 1 0 0 0 0") (fun _ => some 40000)
      (str "eth0") 40000 (by decide) (by decide) rfl (by decide)).trans (by decide),
    by decide, by decide⟩

/-! ## C5: the interfaces that carry a value after a cycle -/

theorem lastCounter_isSome (k : NetName) (l : GoString) (lines : List GoString)
    (cur : Option float64) :
    (lastCounter k l lines cur).isSome = true
      ↔ cur.isSome = true
        ∨ ∃ line ∈ lines, ifaceOfLine line = some l ∧ (counterOfLine k line).isSome = true := by
  induction lines generalizing cur with
  | nil => simp [lastCounter]
  | cons line lines ih =>
    simp only [lastCounter]
    rw [ih]
    by_cases hi : ifaceOfLine line = some l
    · rw [if_pos hi]
      cases hc : counterOfLine k line with
      | none => simp [hi, hc]
      | some v => simp [hi, hc]
    · rw [if_neg hi]
      simp [hi]

theorem scrapeCpuLine_netGauges (e e1 : Exporter) (n n1 : Int) (ss : List GoString)
    (h : scrapeCpuLine e n ss = Except.ok (e1, n1)) : e1.netGauges = e.netGauges := by
  unfold scrapeCpuLine at h
  split at h
  · dsimp only at h
    split_ifs at h <;>
      simp only [Except.ok.injEq, Prod.mk.injEq, reduceCtorEq] at h <;>
      (obtain ⟨h1, -⟩ := h; subst h1; rfl)
  · simp only [Except.ok.injEq, Prod.mk.injEq] at h
    obtain ⟨h1, -⟩ := h
    subst h1
    rfl

theorem scrapeCpuLoop_netGauges (lines : List GoString) (e e1 : Exporter) (n n1 : Int)
    (h : scrapeCpuLoop lines e n = Except.ok (e1, n1)) : e1.netGauges = e.netGauges := by
  induction lines generalizing e n with
  | nil =>
    simp only [scrapeCpuLoop, Except.ok.injEq, Prod.mk.injEq] at h
    rw [← h.1]
  | cons l ls ih =>
    simp only [scrapeCpuLoop] at h
    cases hl : scrapeCpuLine e n (strings.Fields l) with
    | error p => rw [hl] at h; exact absurd h (by simp)
    | ok r =>
      obtain ⟨e2, n2⟩ := r
      rw [hl] at h
      rw [ih e2 n2 h, scrapeCpuLine_netGauges e e2 n n2 _ hl]

theorem scrapeCpu_netGauges (e e1 : Exporter) (src : Option GoString)
    (h : e.scrapeCpu src = Except.ok e1) : e1.netGauges = e.netGauges := by
  unfold Exporter.scrapeCpu at h
  cases src with
  | none =>
    simp only [Except.ok.injEq] at h
    rw [← h]
  | some s =>
    simp only at h
    cases hl : scrapeCpuLoop (strings.Split 0x0A s) e 1 with
    | error p => rw [hl] at h; exact absurd h (by simp)
    | ok r =>
      obtain ⟨e2, n2⟩ := r
      rw [hl] at h
      simp only [Except.ok.injEq] at h
      rw [← h, setGlobal_netGauges, scrapeCpuLoop_netGauges _ e e2 1 n2 hl]

theorem scrapeMem_netGauges (e : Exporter) (src : Option GoString) :
    (e.scrapeMem src).netGauges = e.netGauges := by
  unfold Exporter.scrapeMem
  cases src with
  | none => rfl
  | some s => rfl

/-- Without a short first field in the CPU source, `scrapeCpu` completes. -/
theorem scrapeCpu_ok (e : Exporter) (src : Option GoString)
    (hsafe : ∀ s, src = some s → ∀ l ∈ strings.Split 0x0A s, hasShortHead l = false) :
    ∃ e1, e.scrapeCpu src = Except.ok e1 := by
  cases src with
  | none => exact ⟨e, rfl⟩
  | some s =>
    obtain ⟨e1, n1, h⟩ := scrapeCpuLoop_ok (strings.Split 0x0A s) e 1 (hsafe s rfl)
    exact ⟨e1.setGlobal GlobalName.cpu (float64.ofInt n1),
      by simp only [Exporter.scrapeCpu, h]⟩

/-- What a collection that completes is made of. -/
theorem Collect_ok_inv (e e1 : Exporter) (m : Machine) (calls : List HwCall)
    (h : e.Collect m = Except.ok (e1, calls)) :
    ∃ ec, e.resetMetrics.scrapeCpu m.proc_stat = Except.ok ec
      ∧ (ec.scrapeMem m.proc_meminfo).scrapeNet m.proc_net_dev m.NewEthtool
          = Except.ok (e1, calls)
      ∧ (∀ k l, (ec.scrapeMem m.proc_meminfo).netGauges k l = none) := by
  unfold Exporter.Collect Exporter.scrape at h
  cases hc : e.resetMetrics.scrapeCpu m.proc_stat with
  | error p => rw [hc] at h; exact absurd h (by simp)
  | ok ec =>
    rw [hc] at h
    refine ⟨ec, rfl, h, ?_⟩
    intro k l
    rw [scrapeMem_netGauges, scrapeCpu_netGauges _ _ _ hc]
    rfl

theorem Collect_of_scrapeCpu (e ec : Exporter) (m : Machine)
    (h : e.resetMetrics.scrapeCpu m.proc_stat = Except.ok ec) :
    e.Collect m = (ec.scrapeMem m.proc_meminfo).scrapeNet m.proc_net_dev m.NewEthtool := by
  simp only [Exporter.Collect, Exporter.scrape, h]

/-- The collection completes when the CPU source has no line with a short first
field and the interface names of the valid lines of the network source are
valid UTF-8. -/
theorem Collect_ok (e : Exporter) (m : Machine)
    (hsafe : ∀ s, m.proc_stat = some s → ∀ l ∈ strings.Split 0x0A s, hasShortHead l = false)
    (hutf : ∀ s, m.proc_net_dev = some s → ∀ l ∈ parsedIfaces s, utf8.ValidString l = true) :
    ∃ e1 calls, e.Collect m = Except.ok (e1, calls) := by
  obtain ⟨ec, hc⟩ := scrapeCpu_ok e.resetMetrics m.proc_stat hsafe
  obtain ⟨r, hr⟩ := scrapeNet_valid (ec.scrapeMem m.proc_meminfo) m.proc_net_dev
    m.NewEthtool hutf
  exact ⟨r.1, r.2, by rw [Collect_of_scrapeCpu e ec m hc, hr]⟩

/-- C5, as amended. For every prior container state and every content of the
network source in which the interface names of the valid lines are valid
UTF-8, with a CPU source on which the scan does not panic: the collection
cycle completes, and afterwards an interface label carries a published value
exactly when one of the valid lines of the content (exactly one colon, at
least 16 fields after it, the two header lines left out) names it and has a
consumed field that parses, or the content names it and its speed is
published. So every labelled interface is one parsed from the valid lines of
this cycle: none persists from a prior cycle and none appears that the input
does not have. -/
theorem Collect_labels (e : Exporter) (m : Machine) (net : GoString)
    (hnet : m.proc_net_dev = some net)
    (hsafe : ∀ s, m.proc_stat = some s → ∀ l ∈ strings.Split 0x0A s, hasShortHead l = false)
    (hutf : ∀ l ∈ parsedIfaces net, utf8.ValidString l = true) :
    ∃ e1 calls, e.Collect m = Except.ok (e1, calls)
      ∧ (∀ l, e1.labelled l ↔
          ((∃ line ∈ (strings.Split 0x0A net).drop 2,
              ifaceOfLine line = some l ∧ ∃ k, (counterOfLine k line).isSome = true)
            ∨ (l ∈ parsedIfaces net ∧ (hwSpeed m.NewEthtool l).isSome = true)))
      ∧ (∀ l, e1.labelled l → l ∈ parsedIfaces net) := by
  obtain ⟨e1, calls, hc⟩ := Collect_ok e m hsafe
    (fun s hs => by
      rw [hnet] at hs
      rw [← Option.some.inj hs]
      exact hutf)
  obtain ⟨ec, -, hrun, hn0⟩ := Collect_ok_inv e e1 m calls hc
  rw [hnet] at hrun
  have hspec := (scrapeNet_spec _ net m.NewEthtool _ hrun).1
  simp only at hspec
  have hiff : ∀ l, e1.labelled l ↔
      ((∃ line ∈ (strings.Split 0x0A net).drop 2,
          ifaceOfLine line = some l ∧ ∃ k, (counterOfLine k line).isSome = true)
        ∨ (l ∈ parsedIfaces net ∧ (hwSpeed m.NewEthtool l).isSome = true)) := by
    intro l
    unfold Exporter.labelled
    constructor
    · rintro ⟨k, hk⟩
      rw [hspec, hn0] at hk
      by_cases hc : k = NetName.interface_speed ∧ l ∈ parsedIfaces net
      · rw [if_pos hc] at hk
        cases hs : hwSpeed m.NewEthtool l with
        | some v => exact Or.inr ⟨hc.2, rfl⟩
        | none =>
          rw [hs] at hk
          simp only [Option.orElse] at hk
          obtain hk | ⟨line, hl, hi, hcl⟩ := (lastCounter_isSome _ _ _ _).mp hk
          · exact absurd hk (by simp)
          · exact Or.inl ⟨line, hl, hi, k, hcl⟩
      · rw [if_neg hc] at hk
        obtain hk | ⟨line, hl, hi, hcl⟩ := (lastCounter_isSome _ _ _ _).mp hk
        · exact absurd hk (by simp)
        · exact Or.inl ⟨line, hl, hi, k, hcl⟩
    · rintro (⟨line, hl, hi, k, hcl⟩ | ⟨hp, hs⟩)
      · refine ⟨k, ?_⟩
        have hk : k ≠ NetName.interface_speed := by
          intro hk
          rw [hk] at hcl
          simp [counterOfLine, fieldIndex] at hcl
        rw [hspec, if_neg (fun h => hk h.1)]
        exact (lastCounter_isSome _ _ _ _).mpr (Or.inr ⟨line, hl, hi, hcl⟩)
      · refine ⟨NetName.interface_speed, ?_⟩
        rw [hspec, if_pos ⟨rfl, hp⟩]
        cases hv : hwSpeed m.NewEthtool l with
        | none => rw [hv] at hs; exact absurd hs (by simp)
        | some v => rfl
  refine ⟨e1, calls, hc, hiff, ?_⟩
  intro l hl
  rcases (hiff l).mp hl with ⟨line, hmem, hi, -⟩ | ⟨hp, -⟩
  · unfold parsedIfaces
    exact List.mem_filterMap.mpr ⟨line, hmem, hi⟩
  · exact hp

/-- C5, witness: a cycle from a state that still holds a value for `eth9`, on
a machine with the interfaces `eth0` and `lo`. -/
theorem Collect_labels_witness :
    ∃ e1 calls, staleExporter.Collect exampleMachine = Except.ok (e1, calls)
      ∧ (∀ l, e1.labelled l ↔
          ((∃ line ∈ (strings.Split 0x0A (str
                "h1\nh2\n  eth0: 1000 0 5 2 0 0 0 0 500 0 3 1 0 0 0 0\n    lo: 1 0 0 0 0 0 0 0 1 0 0 0 0 0 0 0")).drop 2,
              ifaceOfLine line = some l ∧ ∃ k, (counterOfLine k line).isSome = true)
            ∨ (l ∈ parsedIfaces (str
                "h1\nh2\n  eth0: 1000 0 5 2 0 0 0 0 500 0 3 1 0 0 0 0\n    lo: 1 0 0 0 0 0 0 0 1 0 0 0 0 0 0 0")
              ∧ (hwSpeed exampleMachine.NewEthtool l).isSome = true)))
      ∧ (∀ l, e1.labelled l → l ∈ parsedIfaces (str
          "h1\nh2\n  eth0: 1000 0 5 2 0 0 0 0 500 0 3 1 0 0 0 0\n    lo: 1 0 0 0 0 0 0 0 1 0 0 0 0 0 0 0")) :=
  Collect_labels staleExporter exampleMachine _ rfl
    (fun s hs => by
      have h : s = str "cpu 100 0 200 700 50 0\ncpu0 100 0 200 700 50 0" :=
        (Option.some.inj hs).symm
      subst h
      decide)
    (by decide)

/-- C5, counterexample. The content names `eth0` on a valid line, and after
the cycle, which completes, `eth0` carries no value: none of its consumed
fields parses and its speed query fails. The stale `eth9` is gone as well. And
on a machine whose one valid line is named by the byte FF, which is not valid
UTF-8, the cycle panics and no label is published at all. -/
theorem Collect_labels_counterexample :
    parsedIfaces (str "h1\nh2\n  eth0: x x x x x x x x x x x x x x x x") = [str "eth0"]
    ∧ silentMachine.proc_net_dev = some (str "h1\nh2\n  eth0: x x x x x x x x x x x x x x x x")
    ∧ (staleExporter.Collect silentMachine).isOk = true
    ∧ labelledAfter (staleExporter.Collect silentMachine) (str "eth0") = false
    ∧ labelledAfter (staleExporter.Collect silentMachine) (str "eth9") = false
    ∧ rawNameMachine.proc_net_dev
        = some (str "h1\nh2\n" ++ 0xFF :: str ": 1 2 3 4 5 6 7 8 9 10 11 12 13 14 15 16")
    ∧ parsedIfaces (str "h1\nh2\n" ++ 0xFF :: str ": 1 2 3 4 5 6 7 8 9 10 11 12 13 14 15 16")
        = [[0xFF]]
    ∧ staleExporter.Collect rawNameMachine = Except.error Panic.invalidLabelValue := by
  refine ⟨by decide, rfl, by decide, by decide, by decide, rfl, by decide, rfl⟩

/-! ## C12: the value stored for a memory field -/

theorem unit_of_other (s : GoString) (h : isUnitSuffix s = false) : unit s = 1 := by
  simp only [isUnitSuffix, decide_eq_false_iff_not, not_or] at h
  simp only [unit, ToLower_eq_kb, ToLower_eq_mb, ToLower_eq_gb, ToLower_eq_tb, h.1, h.2.1,
    h.2.2.1, h.2.2.2, if_false]

/-- C12, as amended. For every line of at least 3 fields whose first field is
one of the five names and whose second field is a decimal integer `v` in the
signed 64-bit range, with `v` times the unit multiplier of the third field in
that range too, the value stored for the field is `v` times the multiplier;
an unrecognised third field gives multiplier 1, so the stored value is `v`.
A line with only the name and the value stores nothing. -/
theorem scrapeMemLine_stored (mem : MemMap) (s0 s1 s2 : GoString) (rest : List GoString)
    (v : Int) (hname : s0 ∈ memNames)
    (hkeys : ∀ k, (mem k).isSome = (memInit k).isSome)
    (hv : integerValue? s1 = some v) (h0 : -(2 ^ 63) ≤ v) (h1 : v < 2 ^ 63)
    (hp0 : -(2 ^ 63) ≤ v * unit s2) (hp1 : v * unit s2 < 2 ^ 63) :
    scrapeMemLine mem (s0 :: s1 :: s2 :: rest) s0 = some (v * unit s2)
    ∧ (isUnitSuffix s2 = false → scrapeMemLine mem (s0 :: s1 :: s2 :: rest) s0 = some v)
    ∧ scrapeMemLine mem [s0, s1] = mem := by
  have hk : (mem s0).isSome = true := by
    rw [hkeys]
    simp only [memNames, List.mem_cons, List.mem_singleton, List.not_mem_nil, or_false]
      at hname
    unfold memInit
    rw [if_pos hname]
    rfl
  have hst : scrapeMemLine mem (s0 :: s1 :: s2 :: rest) s0 = some (v * unit s2) := by
    simp only [scrapeMemLine, hk, if_true, ParseInt_integer s1 v hv h0 h1]
    rw [wrap64_of_range _ hp0 hp1]
  refine ⟨hst, ?_, rfl⟩
  intro hu
  rw [hst, unit_of_other s2 hu, mul_one]

/-- C12, witness: `MemTotal: 16000 kB` stores 16384000, and `MemTotal: 7 pages`
stores 7. -/
theorem scrapeMemLine_stored_witness :
    scrapeMemLine memInit [str "MemTotal:", str "16000", str "kB"] (str "MemTotal:")
        = some (16000 * unit (str "kB"))
    ∧ scrapeMemLine memInit [str "MemTotal:", str "7", str "pages"] (str "MemTotal:")
        = some 7 :=
  ⟨(scrapeMemLine_stored memInit (str "MemTotal:") (str "16000") (str "kB") [] 16000
      (by decide) (fun _ => rfl) (by decide) (by decide) (by decide) (by decide)
      (by decide)).1,
    (scrapeMemLine_stored memInit (str "MemTotal:") (str "7") (str "pages") [] 7
      (by decide) (fun _ => rfl) (by decide) (by decide) (by decide) (by decide)
      (by decide)).2.1 (by decide)⟩

/-- C12, counterexample. The line `MemTotal: 5` has the name `MemTotal:` and
the decimal integer 5 and no suffix; nothing is stored for it: the value of
the field stays 0 and `total_memory` is set to 0, not 5. -/
theorem scrapeMemLine_stored_counterexample :
    strings.Fields (str "MemTotal: 5") = [str "MemTotal:", str "5"]
    ∧ scrapeMemLine memInit (strings.Fields (str "MemTotal: 5")) (str "MemTotal:") = some 0
    ∧ (NewExporter.scrapeMem (some (str "MemTotal: 5"))).globalGauges GlobalName.total_memory
        = float64.ofInt 0 := by
  refine ⟨by decide, by decide, by decide⟩

/-! ## C13: the colons of a line -/

theorem Split_ne_nil (sep : Nat) (s : GoString) : strings.Split sep s ≠ [] := by
  cases s with
  | nil => simp [strings.Split]
  | cons b rest =>
    unfold strings.Split
    split_ifs
    · simp
    · split <;> simp

theorem Split_length (sep : Nat) (s : GoString) :
    (strings.Split sep s).length = s.count sep + 1 := by
  induction s with
  | nil => simp [strings.Split]
  | cons b rest ih =>
    unfold strings.Split
    by_cases hb : b = sep
    · subst hb
      rw [if_pos rfl]
      simp [ih]
    · rw [if_neg hb]
      have hc : (b :: rest).count sep = rest.count sep := by
        rw [List.count_cons]
        simp [hb]
      rw [hc, ← ih]
      cases hs : strings.Split sep rest with
      | nil => exact absurd hs (Split_ne_nil sep rest)
      | cons p ps => rfl

theorem Split_no_sep (sep : Nat) (s : GoString) (h : sep ∉ s) : strings.Split sep s = [s] := by
  induction s with
  | nil => rfl
  | cons b rest ih =>
    have hb : ¬ b = sep := fun hb => h (by simp [hb])
    have hr : sep ∉ rest := fun hr => h (List.mem_cons_of_mem _ hr)
    unfold strings.Split
    rw [if_neg hb, ih hr]

theorem Split_append (sep : Nat) (a b : GoString) (h : sep ∉ a) :
    strings.Split sep (a ++ sep :: b) = a :: strings.Split sep b := by
  induction a with
  | nil =>
    simp only [List.nil_append]
    rw [strings.Split, if_pos rfl]
  | cons c rest ih =>
    have hc : ¬ c = sep := fun hc => h (by simp [hc])
    have hr : sep ∉ rest := fun hr => h (List.mem_cons_of_mem _ hr)
    simp only [List.cons_append]
    rw [strings.Split, if_neg hc, ih hr]

/-- C13, as amended. Every line after the two header lines is split on every
colon and is processed only when it holds exactly one: a line with no colon
or with more than one is skipped, whatever stands right of its first colon.
For a line with exactly one colon the interface name is the text left of the
colon, without its surrounding spaces, and the statistics blob is the text
right of it; the line adds the name when the blob has at least 16 fields (and
the body of the loop returns when the blob is shorter or the name is valid
UTF-8). -/
theorem scrapeNetLine_colons (e : Exporter) (ifaces : List GoString) (line : GoString) :
    (line.count 0x3A ≠ 1 → scrapeNetLine e ifaces line = Except.ok (e, ifaces))
    ∧ (∀ a b : GoString, line = a ++ 0x3A :: b → 0x3A ∉ a → 0x3A ∉ b →
        strings.Split 0x3A line = [a, b]
        ∧ (∀ r, scrapeNetLine e ifaces line = Except.ok r →
            r.2 = if 16 ≤ (strings.Fields b).length then ifaces ++ [strings.Trim a 0x20]
              else ifaces)
        ∧ ((strings.Fields b).length < 16 ∨ utf8.ValidString (strings.Trim a 0x20) = true →
            ifacesAfter (scrapeNetLine e ifaces line)
              = some (if 16 ≤ (strings.Fields b).length then ifaces ++ [strings.Trim a 0x20]
                  else ifaces))) := by
  refine ⟨?_, ?_⟩
  · intro hc
    have hl : (strings.Split 0x3A line).length ≠ 2 := by
      rw [Split_length]
      omega
    unfold scrapeNetLine
    split
    · rename_i seg0 seg1 heq
      rw [heq] at hl
      exact absurd rfl hl
    · rfl
  · intro a b hline ha hb
    have hs : strings.Split 0x3A line = [a, b] := by
      rw [hline, Split_append _ a b ha, Split_no_sep _ b hb]
    have hi : ifaceOfLine line
        = if 16 ≤ (strings.Fields b).length then some (strings.Trim a 0x20) else none := by
      unfold ifaceOfLine
      rw [hs]
    have hres : ∀ r, scrapeNetLine e ifaces line = Except.ok r →
        r.2 = if 16 ≤ (strings.Fields b).length then ifaces ++ [strings.Trim a 0x20]
          else ifaces := by
      intro r hr
      rw [(scrapeNetLine_spec e ifaces line r hr).2.1, hi]
      by_cases h16 : 16 ≤ (strings.Fields b).length
      · simp [h16]
      · simp [h16]
    refine ⟨hs, hres, ?_⟩
    intro hv
    obtain ⟨r, hr⟩ := scrapeNetLine_valid e ifaces line (by
      intro l hl
      rw [hi] at hl
      by_cases h16 : 16 ≤ (strings.Fields b).length
      · rw [if_pos h16] at hl
        rcases hv with hv | hv
        · omega
        · rw [← Option.some.inj hl]
          exact hv
      · rw [if_neg h16] at hl
        exact absurd hl (by simp))
    rw [hr, ← hres r hr]
    rfl

/-- C13, witness: `eth0: 1 2 ... 16` has one colon and adds `eth0`; a line
with no colon is skipped. -/
theorem scrapeNetLine_colons_witness :
    ifacesAfter (scrapeNetLine NewExporter []
        (str "eth0: 1 2 3 4 5 6 7 8 9 10 11 12 13 14 15 16")) = some [str "eth0"]
    ∧ scrapeNetLine NewExporter [] (str "face |bytes packets")
        = Except.ok (NewExporter, []) :=
  ⟨(((scrapeNetLine_colons NewExporter []
        (str "eth0: 1 2 3 4 5 6 7 8 9 10 11 12 13 14 15 16")).2 (str "eth0")
        (str " 1 2 3 4 5 6 7 8 9 10 11 12 13 14 15 16") (by decide) (by decide)
        (by decide)).2.2 (Or.inr (by decide))).trans (by decide),
    (scrapeNetLine_colons NewExporter [] (str "face |bytes packets")).1 (by decide)⟩

/-- C13, counterexample. The line `eth0:1: 1 2 ... 16` has more than one colon
and 17 fields right of its first colon; it is skipped: no interface is added
and nothing is published for `eth0`. -/
theorem scrapeNetLine_colons_counterexample :
    (strings.Fields (str "1: 1 2 3 4 5 6 7 8 9 10 11 12 13 14 15 16")).length = 17
    ∧ scrapeNetLine NewExporter []
        (str "eth0:1: 1 2 3 4 5 6 7 8 9 10 11 12 13 14 15 16") = Except.ok (NewExporter, [])
    ∧ ¬ NewExporter.labelled (str "eth0")
    ∧ (NewExporter.Collect
        { proc_stat := none, proc_meminfo := none,
          proc_net_dev := some (str "h1\nh2\neth0:1: 1 2 3 4 5 6 7 8 9 10 11 12 13 14 15 16"),
          NewEthtool := some (fun _ => some 1000) }).isOk = true
    ∧ labelledAfter (NewExporter.Collect
        { proc_stat := none, proc_meminfo := none,
          proc_net_dev := some (str "h1\nh2\neth0:1: 1 2 3 4 5 6 7 8 9 10 11 12 13 14 15 16"),
          NewEthtool := some (fun _ => some 1000) }) (str "eth0") = false := by
  refine ⟨by decide, rfl, by decide, by decide, by decide⟩

/-! ## C18: the label of a per-interface metric -/

theorem Trim_ends (s : GoString) (c : Nat) :
    (strings.Trim s c).head? ≠ some c ∧ (strings.Trim s c).getLast? ≠ some c := by
  unfold strings.Trim
  have hX := List.head?_dropWhile_not (fun b => decide (b = c)) s
  have hY := List.head?_dropWhile_not (fun b => decide (b = c))
    (s.dropWhile (fun b => decide (b = c))).reverse
  have hsuf := List.dropWhile_suffix (fun b => decide (b = c))
    (l := (s.dropWhile (fun b => decide (b = c))).reverse)
  have hpre : ((s.dropWhile (fun b => decide (b = c))).reverse.dropWhile
      (fun b => decide (b = c))).reverse <+: s.dropWhile (fun b => decide (b = c)) := by
    have := List.reverse_prefix.mpr hsuf
    simpa using this
  refine ⟨?_, ?_⟩
  · intro hh
    obtain ⟨t, ht⟩ := hpre
    cases hr : ((s.dropWhile (fun b => decide (b = c))).reverse.dropWhile
        (fun b => decide (b = c))).reverse with
    | nil => rw [hr] at hh; exact absurd hh (by simp)
    | cons a tl =>
      rw [hr] at hh ht
      simp only [List.head?_cons, Option.some.injEq] at hh
      subst hh
      rw [← ht] at hX
      simp at hX
  · intro hh
    rw [List.getLast?_reverse] at hh
    rw [hh] at hY
    simp at hY

theorem ifaceOfLine_some (line l : GoString) (h : ifaceOfLine line = some l) :
    ∃ seg0 seg1, strings.Split 0x3A line = [seg0, seg1]
      ∧ 16 ≤ (strings.Fields seg1).length ∧ l = strings.Trim seg0 0x20 := by
  unfold ifaceOfLine at h
  split at h
  · rename_i seg0 seg1 heq
    by_cases h16 : 16 ≤ (strings.Fields seg1).length
    · rw [if_pos h16] at h
      exact ⟨seg0, seg1, heq, h16, (Option.some.inj h).symm⟩
    · rw [if_neg h16] at h
      exact absurd h (by simp)
  · exact absurd h (by simp)

/-- After a `scrapeNet` that returns, from a state without labels, every
labelled interface is the name of a valid line of the content, the two header
lines left out. -/
theorem scrapeNet_labelled_line (e : Exporter) (net : GoString)
    (hw : Option (GoString → Option Nat)) (l : GoString) (r : Exporter × List HwCall)
    (he : ∀ k j, e.netGauges k j = none)
    (hr : e.scrapeNet (some net) hw = Except.ok r)
    (h : r.1.labelled l) :
    ∃ line ∈ (strings.Split 0x0A net).drop 2, ifaceOfLine line = some l := by
  obtain ⟨k, hk⟩ := h
  rw [(scrapeNet_spec e net hw r hr).1, he] at hk
  have hlast : (lastCounter k l ((strings.Split 0x0A net).drop 2) none).isSome = true →
      ∃ line ∈ (strings.Split 0x0A net).drop 2, ifaceOfLine line = some l := by
    intro hs
    obtain hs | ⟨line, hl, hi, -⟩ := (lastCounter_isSome _ _ _ _).mp hs
    · exact absurd hs (by simp)
    · exact ⟨line, hl, hi⟩
  by_cases hc : k = NetName.interface_speed ∧ l ∈ parsedIfaces net
  · obtain ⟨line, hl, hi⟩ := List.mem_filterMap.mp hc.2
    exact ⟨line, hl, hi⟩
  · rw [if_neg hc] at hk
    exact hlast hk

/-- C18, as amended. The interface name used as the label of every published
per-interface metric is the text left of the colon of a valid line with its
surrounding spaces (U+0020) removed; so it never begins or ends with a space.
Other white space, a tab for one, is not removed. -/
theorem Collect_label_trimmed (e : Exporter) (m : Machine) (l : GoString)
    (h : labelledAfter (e.Collect m) l = true) :
    (∃ net line seg0 seg1, m.proc_net_dev = some net
        ∧ line ∈ (strings.Split 0x0A net).drop 2
        ∧ strings.Split 0x3A line = [seg0, seg1]
        ∧ l = strings.Trim seg0 0x20)
    ∧ l.head? ≠ some 0x20 ∧ l.getLast? ≠ some 0x20 := by
  cases hc : e.Collect m with
  | error p =>
    rw [hc] at h
    exact absurd h (by simp [labelledAfter])
  | ok r =>
    obtain ⟨e1, calls⟩ := r
    rw [hc] at h
    have hl : e1.labelled l := by simpa [labelledAfter] using h
    obtain ⟨ec, -, hnet, hnone⟩ := Collect_ok_inv e e1 m calls hc
    cases hsrc : m.proc_net_dev with
    | none =>
      rw [hsrc] at hnet
      have h1 := Except.ok.inj hnet
      simp only [Prod.mk.injEq] at h1
      obtain ⟨k, hk⟩ := hl
      rw [← h1.1, hnone] at hk
      exact absurd hk (by simp)
    | some net =>
      rw [hsrc] at hnet
      obtain ⟨line, hmem, hi⟩ :=
        scrapeNet_labelled_line _ net m.NewEthtool l (e1, calls) hnone hnet hl
      obtain ⟨seg0, seg1, hsp, -, hname⟩ := ifaceOfLine_some line l hi
      refine ⟨⟨net, line, seg0, seg1, rfl, hmem, hsp, hname⟩, ?_⟩
      rw [hname]
      exact Trim_ends seg0 0x20

/-- C18, witness: the cycle on the example machine labels `eth0`, the name
left of the colon of `  eth0: 1000 0 ...` without its two spaces. -/
theorem Collect_label_trimmed_witness :
    labelledAfter (staleExporter.Collect exampleMachine) (str "eth0") = true
    ∧ (∃ net line seg0 seg1, exampleMachine.proc_net_dev = some net
        ∧ line ∈ (strings.Split 0x0A net).drop 2
        ∧ strings.Split 0x3A line = [seg0, seg1]
        ∧ str "eth0" = strings.Trim seg0 0x20)
    ∧ (str "eth0").head? ≠ some 0x20 ∧ (str "eth0").getLast? ≠ some 0x20 :=
  ⟨by decide, Collect_label_trimmed staleExporter exampleMachine (str "eth0") (by decide)⟩

/-- C18, counterexample. On a machine whose interface line is a tab followed
by `eth0: ...`, the cycle publishes under the label made of the tab and
`eth0`: it begins with a white space character. -/
theorem Collect_label_trimmed_counterexample :
    tabMachine.proc_net_dev
        = some (str "h1\nh2\n\teth0: 1000 0 5 2 0 0 0 0 500 0 3 1 0 0 0 0")
    ∧ labelledAfter (NewExporter.Collect tabMachine) (0x09 :: str "eth0") = true
    ∧ labelledAfter (NewExporter.Collect tabMachine) (str "eth0") = false
    ∧ unicode.IsSpace 0x09 = true := by
  refine ⟨rfl, by decide, by decide, by decide⟩

/-! ## C14: a counter is published exactly when its field parses -/

theorem parseUintLoop_ok (cs : GoString) (n v : Nat)
    (h : strconv.parseUintLoop cs n = (v, none)) :
    (∀ c ∈ cs, 0x30 ≤ c ∧ c ≤ 0x39) ∧ v = cs.foldl (fun n c => n * 10 + (c - 0x30)) n := by
  induction cs generalizing n with
  | nil =>
    simp only [strconv.parseUintLoop, Prod.mk.injEq, and_true] at h
    simp [h]
  | cons c cs ih =>
    unfold strconv.parseUintLoop at h
    by_cases hc : 0x30 ≤ c ∧ c ≤ 0x39
    · rw [if_pos hc] at h
      by_cases h1 : n ≥ (2 ^ 64 - 1) / 10 + 1
      · rw [if_pos h1] at h
        simp at h
      · rw [if_neg h1] at h
        dsimp only at h
        by_cases h2 : (n * 10 + (c - 0x30)) % 2 ^ 64 < n * 10
            ∨ (n * 10 + (c - 0x30)) % 2 ^ 64 > 2 ^ 64 - 1
        · rw [if_pos h2] at h
          simp at h
        · rw [if_neg h2] at h
          have hlt : n * 10 + (c - 0x30) < 2 ^ 64 := by
            by_contra hge
            have hmod : (n * 10 + (c - 0x30)) % 2 ^ 64 = n * 10 + (c - 0x30) - 2 ^ 64 := by
              omega
            omega
          rw [Nat.mod_eq_of_lt hlt] at h
          obtain ⟨i1, i2⟩ := ih _ h
          refine ⟨?_, ?_⟩
          · intro x hx
            rcases List.mem_cons.mp hx with hx | hx
            · rw [hx]
              exact hc
            · exact i1 x hx
          · simpa using i2
    · rw [if_neg hc] at h
      simp at h

theorem ParseUint_ok (s : GoString) (v : Nat) (h : strconv.ParseUint s = (v, none)) :
    IsDecimal s ∧ v = decimalValue s := by
  unfold strconv.ParseUint at h
  by_cases hs : s = []
  · rw [if_pos hs] at h
    simp at h
  · rw [if_neg hs] at h
    obtain ⟨h1, h2⟩ := parseUintLoop_ok s 0 v h
    exact ⟨⟨hs, h1⟩, h2⟩

/-- `ParseInt` returns no error only for a decimal integer in the signed
64-bit range, and then returns that integer. -/
theorem ParseInt_ok (t : GoString) (v : Int) (h : strconv.ParseInt t = (v, none)) :
    integerValue? t = some v ∧ -(2 ^ 63) ≤ v ∧ v < 2 ^ 63 := by
  cases t with
  | nil => simp [strconv.ParseInt] at h
  | cons c cs =>
    cases hp : strconv.ParseUint (if c = 0x2B ∨ c = 0x2D then cs else c :: cs) with
    | mk un err =>
      rw [ParseInt_cons c cs un err hp] at h
      have herr := ParseUint_error (if c = 0x2B ∨ c = 0x2D then cs else c :: cs)
      rw [hp] at herr
      simp only at herr
      by_cases he : err = some strconv.NumError.ErrSyn
      · rw [if_pos he] at h
        simp at h
      · rw [if_neg he] at h
        by_cases hr1 : c ≠ 0x2D ∧ un ≥ 2 ^ 63
        · rw [if_pos hr1] at h
          simp at h
        · rw [if_neg hr1] at h
          by_cases hr2 : c = 0x2D ∧ un > 2 ^ 63
          · rw [if_pos hr2] at h
            simp at h
          · rw [if_neg hr2] at h
            have hnone : err = none := by
              rcases err with _ | er
              · rfl
              · cases er
                · exact absurd rfl he
                · have hu := herr.2 rfl
                  exfalso
                  by_cases hm : c = 0x2D
                  · exact hr2 ⟨hm, by omega⟩
                  · exact hr1 ⟨hm, by omega⟩
            rw [hnone] at hp
            obtain ⟨hd, hval⟩ := ParseUint_ok _ un hp
            simp only [integerValue?]
            by_cases hm : c = 0x2D
            · rw [if_pos hm] at h
              rw [if_pos (Or.inr hm)] at hd hval
              simp only [Prod.mk.injEq, and_true] at h
              rw [if_pos hm, if_pos hd, ← hval, h]
              refine ⟨rfl, ?_, ?_⟩ <;> omega
            · rw [if_neg hm] at h
              simp only [Prod.mk.injEq, and_true] at h
              rw [if_neg hm]
              by_cases hpl : c = 0x2B
              · rw [if_pos (Or.inl hpl)] at hd hval
                rw [if_pos hpl, if_pos hd, ← hval, h]
                refine ⟨rfl, ?_, ?_⟩ <;> omega
              · rw [if_neg (by tauto)] at hd hval
                rw [if_neg hpl, if_pos hd, ← hval, h]
                refine ⟨rfl, ?_, ?_⟩ <;> omega

/-- What `setNet` publishes, in terms of the integer the field denotes. -/
theorem parsedField_eq (f : GoString) :
    parsedField f = if IsInt64 f = true then (integerValue? f).map float64.ofInt else none := by
  by_cases hi : IsInt64 f = true
  · rw [if_pos hi]
    obtain ⟨v, hv, h0, h1⟩ := IsInt64_value f hi
    unfold parsedField
    rw [ParseInt_integer f v hv h0 h1, hv]
    rfl
  · rw [if_neg hi]
    unfold parsedField
    rcases hp : strconv.ParseInt f with ⟨v, _ | err⟩
    · exfalso
      obtain ⟨hv, h0, h1⟩ := ParseInt_ok f v hp
      apply hi
      unfold IsInt64
      rw [hv]
      simp only [decide_eq_true_eq]
      exact ⟨h0, h1⟩
    · rfl

theorem lastCounter_unique (k : NetName) (l line : GoString) (lines : List GoString)
    (cur : Option float64)
    (huniq : ∀ x ∈ lines, ifaceOfLine x = some l → x = line) :
    lastCounter k l lines cur
      = if ∃ x ∈ lines, ifaceOfLine x = some l then
          (counterOfLine k line).orElse (fun _ => cur)
        else cur := by
  induction lines generalizing cur with
  | nil => simp [lastCounter]
  | cons h rest ih =>
    have hu : ∀ x ∈ rest, ifaceOfLine x = some l → x = line :=
      fun x hx => huniq x (List.mem_cons_of_mem _ hx)
    simp only [lastCounter]
    rw [ih _ hu]
    by_cases hi : ifaceOfLine h = some l
    · have hh : h = line := huniq h (List.mem_cons_self _ _) hi
      have hex : ∃ x ∈ h :: rest, ifaceOfLine x = some l := ⟨h, List.mem_cons_self _ _, hi⟩
      rw [if_pos hi, if_pos hex, hh]
      by_cases hr : ∃ x ∈ rest, ifaceOfLine x = some l
      · rw [if_pos hr]
        cases counterOfLine k line <;> rfl
      · rw [if_neg hr]
    · rw [if_neg hi]
      by_cases hr : ∃ x ∈ rest, ifaceOfLine x = some l
      · have hex : ∃ x ∈ h :: rest, ifaceOfLine x = some l := by
          obtain ⟨x, hx, hxi⟩ := hr
          exact ⟨x, List.mem_cons_of_mem _ hx, hxi⟩
        rw [if_pos hr, if_pos hex]
      · have hex : ¬ ∃ x ∈ h :: rest, ifaceOfLine x = some l := by
          rintro ⟨x, hx, hxi⟩
          rcases List.mem_cons.mp hx with hx | hx
          · rw [hx] at hxi
            exact hi hxi
          · exact hr ⟨x, hx, hxi⟩
        rw [if_neg hr, if_neg hex]

/-- C14, as amended. In a cycle whose CPU scan does not panic, on a content of
the network source in which the interface names of the valid lines are valid
UTF-8: for every valid interface line whose interface name no other valid line
of the content carries, and each of the six consumed fields independently,
after the cycle the gauge of that field for the interface is published if and
only if the field is a decimal integer in the signed 64-bit range, and then
holds that integer; a field that fails to parse leaves its metric absent (not
0), whatever the other five fields do. -/
theorem Collect_counter_iff (e : Exporter) (m : Machine) (net line iface : GoString)
    (hnet : m.proc_net_dev = some net)
    (hsafe : ∀ s, m.proc_stat = some s → ∀ l ∈ strings.Split 0x0A s, hasShortHead l = false)
    (hutf : ∀ l ∈ parsedIfaces net, utf8.ValidString l = true)
    (hline : line ∈ (strings.Split 0x0A net).drop 2)
    (hi : ifaceOfLine line = some iface)
    (huniq : ∀ x ∈ (strings.Split 0x0A net).drop 2, ifaceOfLine x = some iface → x = line) :
    ∃ e1 calls, e.Collect m = Except.ok (e1, calls)
      ∧ ∀ k i, fieldIndex k = some i →
          ((e1.netGauges k iface).isSome = true
            ↔ IsInt64 ((statsOfLine line).getD i []) = true)
          ∧ e1.netGauges k iface
            = if IsInt64 ((statsOfLine line).getD i []) = true then
                (integerValue? ((statsOfLine line).getD i [])).map float64.ofInt
              else none := by
  obtain ⟨e1, calls, hc⟩ := Collect_ok e m hsafe
    (fun s hs => by
      rw [hnet] at hs
      rw [← Option.some.inj hs]
      exact hutf)
  obtain ⟨ec, -, hrun, hn0⟩ := Collect_ok_inv e e1 m calls hc
  rw [hnet] at hrun
  have hspec := (scrapeNet_spec _ net m.NewEthtool _ hrun).1
  simp only at hspec
  refine ⟨e1, calls, hc, ?_⟩
  intro k i hk
  have hks : k ≠ NetName.interface_speed := by
    intro h
    rw [h] at hk
    simp [fieldIndex] at hk
  have hval : e1.netGauges k iface
      = if IsInt64 ((statsOfLine line).getD i []) = true then
          (integerValue? ((statsOfLine line).getD i [])).map float64.ofInt
        else none := by
    rw [hspec, if_neg (fun h => hks h.1), hn0,
      lastCounter_unique k iface line _ none huniq, if_pos ⟨line, hline, hi⟩]
    unfold counterOfLine
    rw [hk]
    simp only
    rw [parsedField_eq]
    split_ifs <;> simp
  refine ⟨?_, hval⟩
  rw [hval]
  by_cases hint : IsInt64 ((statsOfLine line).getD i []) = true
  · obtain ⟨v, hv, -, -⟩ := IsInt64_value _ hint
    rw [if_pos hint, hv]
    exact ⟨fun _ => hint, fun _ => rfl⟩
  · rw [if_neg hint]
    exact ⟨fun h => absurd h (by simp), fun h => absurd h hint⟩

/-- C14, witness: the line `eth0: x 0 5 2 0 0 0 0 500 0 3 1 0 0 0 0` leaves
`total_net_input_bytes` absent for `eth0` and publishes the other five. -/
theorem Collect_counter_iff_witness :
    (∃ e1 calls, staleExporter.Collect partMachine = Except.ok (e1, calls)
      ∧ ∀ k i, fieldIndex k = some i →
          ((e1.netGauges k (str "eth0")).isSome = true
            ↔ IsInt64 ((statsOfLine
                (str "  eth0: x 0 5 2 0 0 0 0 500 0 3 1 0 0 0 0")).getD i []) = true)
          ∧ e1.netGauges k (str "eth0")
            = if IsInt64 ((statsOfLine
                (str "  eth0: x 0 5 2 0 0 0 0 500 0 3 1 0 0 0 0")).getD i []) = true then
                (integerValue? ((statsOfLine
                  (str "  eth0: x 0 5 2 0 0 0 0 500 0 3 1 0 0 0 0")).getD i [])).map
                  float64.ofInt
              else none)
    ∧ netGaugeAfter (staleExporter.Collect partMachine) NetName.total_net_input_bytes
        (str "eth0") = none
    ∧ netGaugeAfter (staleExporter.Collect partMachine) NetName.total_net_input_errs
        (str "eth0") = some (float64.ofInt 5)
    ∧ netGaugeAfter (staleExporter.Collect partMachine) NetName.total_net_output_drop
        (str "eth0") = some (float64.ofInt 1) :=
  ⟨Collect_counter_iff staleExporter partMachine _
      (str "  eth0: x 0 5 2 0 0 0 0 500 0 3 1 0 0 0 0") (str "eth0") rfl
      (fun s hs => by
        have h : s = str "cpu 100 0 200 700 50 0" := (Option.some.inj hs).symm
        subst h
        decide)
      (by decide) (by decide) (by decide) (by decide),
    by decide, by decide, by decide⟩

/-- C14, counterexample. The second `eth0` line is valid and its first field
`x` does not parse, yet after the cycle `total_net_input_bytes` is published
for `eth0`, with the 5 of the first `eth0` line. On a machine whose one valid
line is named by the byte FF, the first field `1` parses and nothing is
published: the cycle panics. And with the CPU source `a b c d e f` the first
field `1000` of the one `eth0` line parses and nothing is published either:
the cycle panics before the network source is read. -/
theorem Collect_counter_iff_counterexample :
    (ifaceOfLine (str "eth0: x 0 0 0 0 0 0 0 0 0 0 0 0 0 0 0") = some (str "eth0")
      ∧ str "eth0: x 0 0 0 0 0 0 0 0 0 0 0 0 0 0 0"
          ∈ (strings.Split 0x0A (str
            "h1\nh2\neth0: 5 0 0 0 0 0 0 0 0 0 0 0 0 0 0 0\neth0: x 0 0 0 0 0 0 0 0 0 0 0 0 0 0 0")).drop 2
      ∧ IsInt64 ((statsOfLine (str "eth0: x 0 0 0 0 0 0 0 0 0 0 0 0 0 0 0")).getD 0 []) = false
      ∧ netGaugeAfter (NewExporter.Collect dupMachine) NetName.total_net_input_bytes
          (str "eth0") = some (float64.ofInt 5))
    ∧ (ifaceOfLine (0xFF :: str ": 1 2 3 4 5 6 7 8 9 10 11 12 13 14 15 16") = some [0xFF]
      ∧ IsInt64 ((statsOfLine
          (0xFF :: str ": 1 2 3 4 5 6 7 8 9 10 11 12 13 14 15 16")).getD 0 []) = true
      ∧ NewExporter.Collect rawNameMachine = Except.error Panic.invalidLabelValue
      ∧ netGaugeAfter (NewExporter.Collect rawNameMachine) NetName.total_net_input_bytes
          [0xFF] = none)
    ∧ (ifaceOfLine (str "  eth0: 1000 0 5 2 0 0 0 0 500 0 3 1 0 0 0 0") = some (str "eth0")
      ∧ IsInt64 ((statsOfLine
          (str "  eth0: 1000 0 5 2 0 0 0 0 500 0 3 1 0 0 0 0")).getD 0 []) = true
      ∧ NewExporter.Collect shortHeadMachine = Except.error Panic.sliceBounds
      ∧ netGaugeAfter (NewExporter.Collect shortHeadMachine) NetName.total_net_input_bytes
          (str "eth0") = none) := by
  refine ⟨⟨by decide, by decide, by decide, by decide⟩, ⟨by decide, by decide, rfl, by decide⟩,
    ⟨by decide, by decide, rfl, by decide⟩⟩

/-! ## C11: the core count -/

theorem coreIndex?_nonneg (line : GoString) (N : Int) (h : coreIndex? line = some N) :
    0 ≤ N ∧ N < 2 ^ 63 - 1 := by
  unfold coreIndex? at h
  split at h
  · split_ifs at h
    · split at h
      · split_ifs at h with hr
        simp only [Option.some.injEq] at h
        rw [← h]
        exact hr
      · exact absurd h (by simp)
  · exact absurd h (by simp)

/-- The count after a line: the larger of the count before and what the line
asks for. -/
theorem scrapeCpuLine_count (e : Exporter) (n : Int) (line : GoString) (hn : 1 ≤ n)
    (hs : hasShortHead line = false) :
    ∃ e1, scrapeCpuLine e n (strings.Fields line) = Except.ok (e1, max n (coreStep line)) := by
  unfold hasShortHead at hs
  unfold coreStep coreIndex? scrapeCpuLine
  rcases hf : strings.Fields line with
    _ | ⟨s0, _ | ⟨s1, _ | ⟨s2, _ | ⟨s3, _ | ⟨s4, _ | ⟨s5, rest⟩⟩⟩⟩⟩⟩
  · exact ⟨e, by simp [max_eq_left hn]⟩
  · exact ⟨e, by simp [max_eq_left hn]⟩
  · exact ⟨e, by simp [max_eq_left hn]⟩
  · exact ⟨e, by simp [max_eq_left hn]⟩
  · exact ⟨e, by simp [max_eq_left hn]⟩
  · exact ⟨e, by simp [max_eq_left hn]⟩
  · rw [hf] at hs
    simp only [decide_eq_false_iff_not, not_lt] at hs
    simp only
    by_cases hc : s0 = str "cpu"
    · have hdrop : integerValue? (s0.drop 3) = none := by
        rw [hc]
        decide
      rw [if_pos hc, hdrop]
      dsimp only
      rw [ite_self]
      dsimp only
      rw [max_eq_left hn]
      exact ⟨_, rfl⟩
    · rw [if_neg hc, if_neg (by omega)]
      by_cases ht : s0.take 3 = str "cpu"
      · rw [if_pos ht, if_pos ht]
        simp only [strconv.Atoi]
        rcases hp : strconv.ParseInt (s0.drop 3) with ⟨v, _ | err⟩
        · obtain ⟨hv, h0, h1⟩ := ParseInt_ok _ v hp
          rw [hv]
          simp only
          by_cases hr : 0 ≤ v ∧ v < 2 ^ 63 - 1
          · rw [if_pos hr, wrap64_of_range _ (by omega) (by omega)]
            dsimp only
            by_cases hgt : v + 1 > n
            · rw [if_pos hgt]
              exact ⟨e, by rw [max_eq_right (by omega)]⟩
            · rw [if_neg hgt]
              exact ⟨e, by rw [max_eq_left (by omega)]⟩
          · rw [if_neg hr]
            dsimp only
            have hle : ¬ wrap64 (v + 1) > n := by
              unfold wrap64
              omega
            rw [if_neg hle]
            exact ⟨e, by rw [max_eq_left hn]⟩
        · have hnone : (match integerValue? (s0.drop 3) with
              | some N => if 0 ≤ N ∧ N < 2 ^ 63 - 1 then some N else none
              | none => none) = none := by
            cases hv : integerValue? (s0.drop 3) with
            | none => rfl
            | some N =>
              simp only
              by_cases hr : 0 ≤ N ∧ N < 2 ^ 63 - 1
              · exfalso
                have := ParseInt_integer _ N hv (by omega) (by omega)
                rw [this] at hp
                simp at hp
              · rw [if_neg hr]
          rw [hnone]
          dsimp only
          have herr := ParseInt_error (s0.drop 3)
          rw [hp] at herr
          simp only at herr
          have hle : ¬ wrap64 (v + 1) > n := by
            cases err with
            | ErrSyn =>
              have := herr.1 rfl
              unfold wrap64
              omega
            | ErrRange =>
              have := herr.2 rfl
              unfold wrap64
              omega
          rw [if_neg hle]
          exact ⟨e, by rw [max_eq_left hn]⟩
      · rw [if_neg ht, if_neg ht]
        exact ⟨e, by simp [max_eq_left hn]⟩

theorem scrapeCpuLoop_count (lines : List GoString) (e : Exporter) (n : Int) (hn : 1 ≤ n)
    (hs : ∀ l ∈ lines, hasShortHead l = false) :
    ∃ e1, scrapeCpuLoop lines e n
      = Except.ok (e1, lines.foldl (fun k l => max k (coreStep l)) n) := by
  induction lines generalizing e n with
  | nil => exact ⟨e, rfl⟩
  | cons l ls ih =>
    obtain ⟨e1, h1⟩ := scrapeCpuLine_count e n l hn (hs l (List.mem_cons_self _ _))
    simp only [scrapeCpuLoop, h1, List.foldl_cons]
    exact ih e1 _ (le_trans hn (le_max_left _ _))
      (fun m hm => hs m (List.mem_cons_of_mem _ hm))

theorem max?_step (N : Int) (L : List Int) (hN : 0 ≤ N) (hL : ∀ x ∈ L, 0 ≤ x) :
    (match (N :: L).max? with
      | some M => 1 + M
      | none => 1)
    = max (N + 1) (match L.max? with
      | some M => 1 + M
      | none => 1) := by
  cases L with
  | nil =>
    show 1 + N = max (N + 1) 1
    rw [max_eq_left (by omega : (1 : Int) ≤ N + 1), add_comm]
  | cons x xs =>
    show 1 + xs.foldl max (max N x) = max (N + 1) (1 + xs.foldl max x)
    have hfold : ∀ (ys : List Int) (a b : Int),
        1 + ys.foldl max (max a b) = max (a + 1) (1 + ys.foldl max b) := by
      intro ys
      induction ys with
      | nil =>
        intro a b
        simp only [List.foldl_nil]
        omega
      | cons y ys ih =>
        intro a b
        simp only [List.foldl_cons]
        rw [max_assoc, ih a (max b y)]
    exact hfold xs N x

theorem foldl_coreStep (lines : List GoString) (n : Int) (hn : 1 ≤ n) :
    lines.foldl (fun k l => max k (coreStep l)) n
      = max n (match (lines.filterMap coreIndex?).max? with
        | some M => 1 + M
        | none => 1) := by
  induction lines generalizing n with
  | nil => simp [max_eq_left hn]
  | cons l ls ih =>
    simp only [List.foldl_cons]
    rw [ih _ (le_trans hn (le_max_left _ _))]
    cases hc : coreIndex? l with
    | none =>
      have hstep : coreStep l = 1 := by simp [coreStep, hc]
      rw [hstep, max_eq_left hn, List.filterMap_cons_none hc]
    | some N =>
      have hstep : coreStep l = N + 1 := by simp [coreStep, hc]
      have hN := (coreIndex?_nonneg l N hc).1
      have hL : ∀ x ∈ ls.filterMap coreIndex?, 0 ≤ x := by
        intro x hx
        obtain ⟨a, -, ha⟩ := List.mem_filterMap.mp hx
        exact (coreIndex?_nonneg a x ha).1
      rw [hstep, List.filterMap_cons_some hc, max?_step N _ hN hL, max_assoc]

theorem coreCount_ge_one (s : GoString) : 1 ≤ coreCount s := by
  unfold coreCount
  cases hm : ((strings.Split 0x0A s).filterMap coreIndex?).max? with
  | none => exact le_refl 1
  | some N =>
    have hmem : N ∈ (strings.Split 0x0A s).filterMap coreIndex? :=
      List.max?_mem (fun a b => max_choice a b) hm
    obtain ⟨a, -, ha⟩ := List.mem_filterMap.mp hmem
    have := (coreIndex?_nonneg a N ha).1
    simp only
    omega

/-- C11, as amended. For every readable CPU source content in which no line
of at least 6 tokens has a first token shorter than 3 bytes, the core-count
gauge `cpu` is set to 1 + the maximum `N` over the lines (of at least 6
tokens) whose first token is `cpu` immediately followed by a decimal integer
`N` with `0 ≤ N < 2^63 - 1`, and to 1 when no such line exists; a token that
starts with `cpu` and whose suffix is no such integer does not change the
count. -/
theorem scrapeCpu_core_count (e : Exporter) (s : GoString)
    (hsafe : ∀ l ∈ strings.Split 0x0A s, hasShortHead l = false) :
    gaugeAfter (e.scrapeCpu (some s)) GlobalName.cpu = some (float64.ofInt (coreCount s)) := by
  obtain ⟨e1, h1⟩ := scrapeCpuLoop_count (strings.Split 0x0A s) e 1 (le_refl 1) hsafe
  have hge := coreCount_ge_one s
  unfold coreCount at hge ⊢
  rw [foldl_coreStep _ 1 (le_refl 1), max_eq_right hge] at h1
  simp only [Exporter.scrapeCpu, h1, gaugeAfter, setGlobal_same]

/-- C11, witness: four per-core lines, the largest index 3, give 4 cores; the
lines `cpux ...` and `cpu-2 ...` do not count. -/
theorem scrapeCpu_core_count_witness :
    gaugeAfter (NewExporter.scrapeCpu (some (str
        "cpu 9 9 9 9 9 9\ncpu0 1 1 1 1 1 1\ncpu3 1 1 1 1 1 1\ncpux 1 1 1 1 1 1\ncpu-2 1 1 1 1 1 1")))
      GlobalName.cpu = some (float64.ofInt 4) :=
  (scrapeCpu_core_count NewExporter (str
      "cpu 9 9 9 9 9 9\ncpu0 1 1 1 1 1 1\ncpu3 1 1 1 1 1 1\ncpux 1 1 1 1 1 1\ncpu-2 1 1 1 1 1 1")
    (by decide)).trans (by decide)

/-- C11, counterexample. The first token of `cpu9223372036854775807 1 2 3 4 5`
is `cpu` followed by the non-negative decimal integer `2^63 - 1`, and the
gauge `cpu` is set to 1, not to `1 + (2^63 - 1)`; and on the readable content
`x 1 2 3 4 5` the scrape panics and sets no gauge. -/
theorem scrapeCpu_core_count_counterexample :
    strings.Fields (str "cpu9223372036854775807 1 2 3 4 5")
        = [str "cpu" ++ str "9223372036854775807", str "1", str "2", str "3", str "4", str "5"]
    ∧ IsDecimal (str "9223372036854775807")
    ∧ decimalValue (str "9223372036854775807") = 2 ^ 63 - 1
    ∧ gaugeAfter (NewExporter.scrapeCpu (some (str "cpu9223372036854775807 1 2 3 4 5")))
        GlobalName.cpu = some (float64.ofInt 1)
    ∧ gaugeAfter (NewExporter.scrapeCpu (some (str "x 1 2 3 4 5"))) GlobalName.cpu = none := by
  refine ⟨by decide, by decide, by decide, by decide, by decide⟩

/-! ## C20: conservation in `scrapeMem` -/

theorem wrap64_range (x : Int) : -(2 ^ 63) ≤ wrap64 x ∧ wrap64 x < 2 ^ 63 := by
  unfold wrap64
  omega

theorem lineValue_range (line : GoString) :
    -(2 ^ 63) ≤ lineValue line ∧ lineValue line < 2 ^ 63 := by
  unfold lineValue
  split
  · exact wrap64_range _
  · norm_num

theorem memField_range (name : GoString) (lines : List GoString) (c : Int)
    (hc : -(2 ^ 63) ≤ c ∧ c < 2 ^ 63) :
    -(2 ^ 63) ≤ memField name lines c ∧ memField name lines c < 2 ^ 63 := by
  induction lines generalizing c with
  | nil => exact hc
  | cons l ls ih =>
    simp only [memField]
    apply ih
    split_ifs
    · exact lineValue_range l
    · exact hc

theorem memValue_range (name s : GoString) :
    -(2 ^ 63) ≤ memValue name s ∧ memValue name s < 2 ^ 63 :=
  memField_range name _ 0 (by norm_num)

/-- C20, as amended. For every readable memory source content the three
`int64` values one scrape writes satisfy `used_memory + available_memory =
total_memory` in `int64` arithmetic; and `used_memory` is negative exactly
when available exceeds total whenever the difference `total - available` lies
in the signed 64-bit range. -/
theorem scrapeMem_conservation (e : Exporter) (s : GoString) :
    ∃ used available total : Int,
      (e.scrapeMem (some s)).globalGauges GlobalName.used_memory = float64.ofInt used
      ∧ (e.scrapeMem (some s)).globalGauges GlobalName.available_memory
          = float64.ofInt available
      ∧ (e.scrapeMem (some s)).globalGauges GlobalName.total_memory = float64.ofInt total
      ∧ (-(2 ^ 63) ≤ used ∧ used < 2 ^ 63)
      ∧ (-(2 ^ 63) ≤ available ∧ available < 2 ^ 63)
      ∧ (-(2 ^ 63) ≤ total ∧ total < 2 ^ 63)
      ∧ wrap64 (used + available) = total
      ∧ (-(2 ^ 63) ≤ total - available ∧ total - available < 2 ^ 63 →
          (used < 0 ↔ total < available)) := by
  obtain ⟨available, hav, h1, h2, h3⟩ := scrapeMem_written e s
  have hT := memValue_range (str "MemTotal:") s
  have hA := memValue_range (str "MemAvailable:") s
  have hav_range : -(2 ^ 63) ≤ available ∧ available < 2 ^ 63 := by
    rw [hav]
    split_ifs
    · exact wrap64_range _
    · exact hA
  refine ⟨_, available, _, h1, h2, h3, wrap64_range _, hav_range, hT, ?_, ?_⟩
  · unfold wrap64
    omega
  · intro hr
    rw [wrap64_of_range _ hr.1 hr.2]
    omega

/-- C20, counterexample. With the content `MemAvailable: 8388608 tb` the scrape
writes available `-2^63`, total 0 and used `-2^63`: `used_memory` is negative
although available does not exceed total. -/
theorem scrapeMem_conservation_counterexample :
    (NewExporter.scrapeMem (some (str "MemAvailable: 8388608 tb"))).globalGauges
        GlobalName.used_memory = float64.ofInt (-(2 ^ 63))
    ∧ (NewExporter.scrapeMem (some (str "MemAvailable: 8388608 tb"))).globalGauges
        GlobalName.available_memory = float64.ofInt (-(2 ^ 63))
    ∧ (NewExporter.scrapeMem (some (str "MemAvailable: 8388608 tb"))).globalGauges
        GlobalName.total_memory = float64.ofInt 0
    ∧ (-(2 ^ 63) : Int) < 0
    ∧ ¬ ((0 : Int) < -(2 ^ 63)) := by
  refine ⟨by decide, by decide, by decide, by decide, by decide⟩

/-- C20, witness: an ordinary content, total 2097152 and available 1048576. -/
theorem scrapeMem_conservation_witness :
    ∃ used available total : Int,
      (NewExporter.scrapeMem (some (str "MemTotal: 2048 kB\nMemFree: 1024 kB"))).globalGauges
          GlobalName.used_memory = float64.ofInt used
      ∧ (NewExporter.scrapeMem (some (str "MemTotal: 2048 kB\nMemFree: 1024 kB"))).globalGauges
          GlobalName.available_memory = float64.ofInt available
      ∧ (NewExporter.scrapeMem (some (str "MemTotal: 2048 kB\nMemFree: 1024 kB"))).globalGauges
          GlobalName.total_memory = float64.ofInt total
      ∧ (-(2 ^ 63) ≤ used ∧ used < 2 ^ 63)
      ∧ (-(2 ^ 63) ≤ available ∧ available < 2 ^ 63)
      ∧ (-(2 ^ 63) ≤ total ∧ total < 2 ^ 63)
      ∧ wrap64 (used + available) = total
      ∧ (-(2 ^ 63) ≤ total - available ∧ total - available < 2 ^ 63 →
          (used < 0 ↔ total < available)) :=
  scrapeMem_conservation NewExporter (str "MemTotal: 2048 kB\nMemFree: 1024 kB")

/-! ## C15 and C16: sources that cannot be read -/

theorem scrapeCpuLine_memGauges (e e1 : Exporter) (n n1 : Int) (ss : List GoString)
    (k : GlobalName) (hk : k ∈ memGauges)
    (h : scrapeCpuLine e n ss = Except.ok (e1, n1)) : e1.globalGauges k = e.globalGauges k := by
  have hk1 : k ≠ GlobalName.used_cpu_user := by rintro rfl; revert hk; decide
  have hk2 : k ≠ GlobalName.used_cpu_sys := by rintro rfl; revert hk; decide
  have hk3 : k ≠ GlobalName.used_cpu_idle := by rintro rfl; revert hk; decide
  have hk4 : k ≠ GlobalName.used_cpu_iowait := by rintro rfl; revert hk; decide
  have hk5 : k ≠ GlobalName.used_cpu := by rintro rfl; revert hk; decide
  unfold scrapeCpuLine at h
  split at h
  · dsimp only at h
    split_ifs at h <;>
      simp only [Except.ok.injEq, Prod.mk.injEq, reduceCtorEq] at h <;>
      (obtain ⟨h1, -⟩ := h; subst h1) <;>
      simp [Exporter.setGlobal, hk1, hk2, hk3, hk4, hk5]
  · simp only [Except.ok.injEq, Prod.mk.injEq] at h
    rw [← h.1]

theorem scrapeCpuLoop_memGauges (lines : List GoString) (e e1 : Exporter) (n n1 : Int)
    (k : GlobalName) (hk : k ∈ memGauges)
    (h : scrapeCpuLoop lines e n = Except.ok (e1, n1)) : e1.globalGauges k = e.globalGauges k := by
  induction lines generalizing e n with
  | nil =>
    simp only [scrapeCpuLoop, Except.ok.injEq, Prod.mk.injEq] at h
    rw [← h.1]
  | cons l ls ih =>
    simp only [scrapeCpuLoop] at h
    cases hl : scrapeCpuLine e n (strings.Fields l) with
    | error p => rw [hl] at h; exact absurd h (by simp)
    | ok r =>
      obtain ⟨e2, n2⟩ := r
      rw [hl] at h
      rw [ih e2 n2 h, scrapeCpuLine_memGauges e e2 n n2 _ k hk hl]

/-- `scrapeCpu` leaves the memory gauges as they are. -/
theorem scrapeCpu_memGauges (e e1 : Exporter) (src : Option GoString) (k : GlobalName)
    (hk : k ∈ memGauges) (h : e.scrapeCpu src = Except.ok e1) :
    e1.globalGauges k = e.globalGauges k := by
  unfold Exporter.scrapeCpu at h
  cases src with
  | none =>
    simp only [Except.ok.injEq] at h
    rw [← h]
  | some s =>
    simp only at h
    cases hl : scrapeCpuLoop (strings.Split 0x0A s) e 1 with
    | error p => rw [hl] at h; exact absurd h (by simp)
    | ok r =>
      obtain ⟨e2, n2⟩ := r
      rw [hl] at h
      simp only [Except.ok.injEq] at h
      have hc : k ≠ GlobalName.cpu := by rintro rfl; revert hk; decide
      rw [← h, setGlobal_other _ _ _ _ hc, scrapeCpuLoop_memGauges _ e e2 1 n2 k hk hl]

/-- `scrapeMem` leaves the CPU gauges as they are. -/
theorem scrapeMem_cpuGauges (e : Exporter) (src : Option GoString) (k : GlobalName)
    (hk : k ∈ cpuGauges) : (e.scrapeMem src).globalGauges k = e.globalGauges k := by
  cases src with
  | none => rfl
  | some s =>
    have hk1 : k ≠ GlobalName.used_memory := by rintro rfl; revert hk; decide
    have hk2 : k ≠ GlobalName.available_memory := by rintro rfl; revert hk; decide
    have hk3 : k ≠ GlobalName.total_memory := by rintro rfl; revert hk; decide
    simp [Exporter.scrapeMem, Exporter.setGlobal, hk1, hk2, hk3]

/-- C15. For every container state: if the CPU source is unreadable, a
collection cycle leaves `used_cpu_user`, `used_cpu_sys`, `used_cpu_idle`,
`used_cpu_iowait`, `used_cpu` and `cpu` at their previous values; if the
memory source is unreadable, a cycle leaves `used_memory`, `available_memory`
and `total_memory` at their previous values; `resetMetrics` changes no global
gauge. The values are the previous ones after every cycle that completes, and
already in the state that `scrapeNet` starts from, whose one write, a `Set`
on a per-interface gauge, changes no global gauge: so they are not changed
before a panic of `scrapeNet` either. A cycle completes when no routine
panics: the CPU scan meets no short first field, and the interface names of
the valid lines of the network source are valid UTF-8. -/
theorem Collect_carry_over (e : Exporter) (m : Machine) :
    (m.proc_stat = none →
      (∀ e1 calls, e.Collect m = Except.ok (e1, calls) →
        ∀ k ∈ cpuGauges, e1.globalGauges k = e.globalGauges k)
      ∧ (∀ ec, e.resetMetrics.scrapeCpu m.proc_stat = Except.ok ec →
        ∀ k ∈ cpuGauges, (ec.scrapeMem m.proc_meminfo).globalGauges k = e.globalGauges k)
      ∧ ((∀ s, m.proc_net_dev = some s →
            ∀ l ∈ parsedIfaces s, utf8.ValidString l = true) →
          (e.Collect m).isOk = true))
    ∧ (m.proc_meminfo = none →
        (∀ e1 calls, e.Collect m = Except.ok (e1, calls) →
          ∀ k ∈ memGauges, e1.globalGauges k = e.globalGauges k)
        ∧ (∀ ec, e.resetMetrics.scrapeCpu m.proc_stat = Except.ok ec →
          ∀ k ∈ memGauges, (ec.scrapeMem m.proc_meminfo).globalGauges k = e.globalGauges k)
        ∧ ((∀ s, m.proc_stat = some s →
              ∀ l ∈ strings.Split 0x0A s, hasShortHead l = false) →
            (∀ s, m.proc_net_dev = some s →
              ∀ l ∈ parsedIfaces s, utf8.ValidString l = true) →
            (e.Collect m).isOk = true))
    ∧ (∀ (x : Exporter) (name : NetName) (iface : GoString) (v : float64),
        (x.storeNet name iface v).globalGauges = x.globalGauges)
    ∧ e.resetMetrics.globalGauges = e.globalGauges := by
  have hok : (∀ s, m.proc_stat = some s →
        ∀ l ∈ strings.Split 0x0A s, hasShortHead l = false) →
      (∀ s, m.proc_net_dev = some s → ∀ l ∈ parsedIfaces s, utf8.ValidString l = true) →
      (e.Collect m).isOk = true := by
    intro hsafe hutf
    obtain ⟨e1, calls, hc⟩ := Collect_ok e m hsafe hutf
    rw [hc]
    rfl
  have hcpu : m.proc_stat = none →
      ∀ ec, e.resetMetrics.scrapeCpu m.proc_stat = Except.ok ec →
        ∀ k ∈ cpuGauges, (ec.scrapeMem m.proc_meminfo).globalGauges k = e.globalGauges k := by
    intro hstat ec hc k hk
    rw [hstat] at hc
    have hec : ec = e.resetMetrics := (Except.ok.inj hc).symm
    rw [scrapeMem_cpuGauges _ _ k hk, hec]
    rfl
  have hmemg : m.proc_meminfo = none →
      ∀ ec, e.resetMetrics.scrapeCpu m.proc_stat = Except.ok ec →
        ∀ k ∈ memGauges, (ec.scrapeMem m.proc_meminfo).globalGauges k = e.globalGauges k := by
    intro hmem ec hc k hk
    rw [hmem]
    show ec.globalGauges k = e.globalGauges k
    rw [scrapeCpu_memGauges _ _ _ k hk hc]
    rfl
  refine ⟨?_, ?_, fun _ _ _ _ => rfl, rfl⟩
  · intro hstat
    refine ⟨?_, hcpu hstat,
      hok (fun s hs => by rw [hstat] at hs; exact absurd hs (by simp))⟩
    intro e1 calls h k hk
    obtain ⟨ec, hc, hnet, -⟩ := Collect_ok_inv e e1 m calls h
    have h1 := scrapeNet_globalGauges _ _ _ _ hnet
    simp only at h1
    rw [h1]
    exact hcpu hstat ec hc k hk
  · intro hmem
    refine ⟨?_, hmemg hmem, hok⟩
    intro e1 calls h k hk
    obtain ⟨ec, hc, hnet, -⟩ := Collect_ok_inv e e1 m calls h
    have h1 := scrapeNet_globalGauges _ _ _ _ hnet
    simp only at h1
    rw [h1]
    exact hmemg hmem ec hc k hk

/-- C15, witness: a cycle on a machine without readable sources, from a state
whose gauges are not 0. -/
theorem Collect_carry_over_witness :
    (∀ e1 calls, usedExporter.Collect darkMachine = Except.ok (e1, calls) →
        ∀ k ∈ cpuGauges, e1.globalGauges k = usedExporter.globalGauges k)
    ∧ (usedExporter.Collect darkMachine).isOk = true
    ∧ (∀ e1 calls, usedExporter.Collect darkMachine = Except.ok (e1, calls) →
        ∀ k ∈ memGauges, e1.globalGauges k = usedExporter.globalGauges k)
    ∧ usedExporter.globalGauges GlobalName.cpu = float64.ofInt 4 :=
  ⟨((Collect_carry_over usedExporter darkMachine).1 rfl).1,
    ((Collect_carry_over usedExporter darkMachine).1 rfl).2.2
      (fun s hs => absurd hs (by simp [darkMachine])),
    ((Collect_carry_over usedExporter darkMachine).2.1 rfl).1, by decide⟩

/-- C16. For every prior container state, if the network source is unreadable
then after a collection cycle no per-interface metric (the six counters and
`interface_speed`) has a value for any interface, and no call is made to the
hardware query layer; the cycle completes when the CPU scan does not
panic. -/
theorem Collect_net_unreadable (e : Exporter) (m : Machine) (hnet : m.proc_net_dev = none) :
    (∀ k l, netGaugeAfter (e.Collect m) k l = none)
    ∧ callsAfter (e.Collect m) = []
    ∧ ((∀ s, m.proc_stat = some s → ∀ l ∈ strings.Split 0x0A s, hasShortHead l = false) →
        (e.Collect m).isOk = true) := by
  refine ⟨?_, ?_, ?_⟩
  · intro k l
    cases hc : e.Collect m with
    | error p => rfl
    | ok r =>
      obtain ⟨e1, calls⟩ := r
      obtain ⟨ec, -, hn, hnone⟩ := Collect_ok_inv e e1 m calls hc
      rw [hnet] at hn
      have h1 := Except.ok.inj hn
      simp only [Prod.mk.injEq] at h1
      show e1.netGauges k l = none
      rw [← h1.1, hnone]
  · cases hc : e.Collect m with
    | error p => rfl
    | ok r =>
      obtain ⟨e1, calls⟩ := r
      obtain ⟨ec, -, hn, -⟩ := Collect_ok_inv e e1 m calls hc
      rw [hnet] at hn
      have h1 := Except.ok.inj hn
      simp only [Prod.mk.injEq] at h1
      show calls = []
      rw [← h1.2]
  · intro hsafe
    obtain ⟨e1, calls, hc⟩ := Collect_ok e m hsafe
      (fun s hs => by rw [hnet] at hs; exact absurd hs (by simp))
    rw [hc]
    rfl

/-- C16, witness: the state that still holds a value for `eth9`, on a machine
whose network source cannot be read. -/
theorem Collect_net_unreadable_witness :
    (∀ k l, netGaugeAfter (usedExporter.Collect darkMachine) k l = none)
    ∧ callsAfter (usedExporter.Collect darkMachine) = []
    ∧ (usedExporter.Collect darkMachine).isOk = true
    ∧ usedExporter.netGauges NetName.total_net_input_bytes (str "eth9")
        = some (float64.ofInt 7) :=
  ⟨(Collect_net_unreadable usedExporter darkMachine rfl).1,
    (Collect_net_unreadable usedExporter darkMachine rfl).2.1,
    (Collect_net_unreadable usedExporter darkMachine rfl).2.2
      (fun s hs => absurd hs (by simp [darkMachine])),
    by decide⟩

/-! ## C17: two cycles in a row -/

theorem Exporter.eq_of_fields (a b : Exporter) (h1 : a.globalGauges = b.globalGauges)
    (h2 : a.netGauges = b.netGauges) : a = b := by
  cases a
  cases b
  simp only at h1 h2
  rw [h1, h2]

theorem IsOverride_id : IsOverride (fun e => e) :=
  ⟨fun _ => none, fun _ => rfl⟩

theorem IsOverride_setGlobal (f : Exporter → Exporter) (name : GlobalName) (v : float64)
    (hf : IsOverride f) : IsOverride (fun e => (f e).setGlobal name v) := by
  obtain ⟨ov, hov⟩ := hf
  refine ⟨fun k => if k = name then some v else ov k, fun e => ?_⟩
  show (f e).setGlobal name v = _
  rw [hov]
  apply Exporter.eq_of_fields
  · funext k
    by_cases hk : k = name <;> simp [Exporter.setGlobal, Exporter.override, hk]
  · rfl

theorem IsOverride_comp (f g : Exporter → Exporter) (hf : IsOverride f) (hg : IsOverride g) :
    IsOverride (fun e => g (f e)) := by
  obtain ⟨a, ha⟩ := hf
  obtain ⟨b, hb⟩ := hg
  refine ⟨fun k => (b k).orElse (fun _ => a k), fun e => ?_⟩
  show g (f e) = _
  rw [ha, hb]
  apply Exporter.eq_of_fields
  · funext k
    simp only [Exporter.override]
    cases b k <;> rfl
  · rfl

/-- The body of the CPU loop does the same to every state: it panics, or it
overwrites some gauges with values read from the line. -/
theorem scrapeCpuLine_uniform (n : Int) (ss : List GoString) :
    (∃ p, ∀ e : Exporter, scrapeCpuLine e n ss = Except.error p)
    ∨ (∃ f n1, IsOverride f ∧ ∀ e : Exporter, scrapeCpuLine e n ss = Except.ok (f e, n1)) := by
  unfold scrapeCpuLine
  split
  · rename_i s0 s1 s2 s3 s4 s5 rest
    dsimp only
    by_cases hc : s0 = str "cpu"
    · right
      refine ⟨_, n, ?_, fun e => by rw [if_pos hc]⟩
      exact IsOverride_setGlobal _ _ _ (IsOverride_setGlobal _ _ _ (IsOverride_setGlobal _ _ _
        (IsOverride_setGlobal _ _ _ (IsOverride_setGlobal _ _ _ IsOverride_id))))
    · by_cases hs : s0.length < 3
      · left
        exact ⟨Panic.sliceBounds, fun e => by rw [if_neg hc, if_pos hs]⟩
      · right
        by_cases ht : s0.take 3 = str "cpu"
        · by_cases hgt : wrap64 ((strconv.Atoi (s0.drop 3)).1 + 1) > n
          · exact ⟨fun e => e, _, IsOverride_id,
              fun e => by rw [if_neg hc, if_neg hs, if_pos ht, if_pos hgt]⟩
          · exact ⟨fun e => e, _, IsOverride_id,
              fun e => by rw [if_neg hc, if_neg hs, if_pos ht, if_neg hgt]⟩
        · exact ⟨fun e => e, _, IsOverride_id,
            fun e => by rw [if_neg hc, if_neg hs, if_neg ht]⟩
  · right
    exact ⟨fun e => e, n, IsOverride_id, fun e => rfl⟩

theorem scrapeCpuLoop_uniform (lines : List GoString) (n : Int) :
    (∃ p, ∀ e : Exporter, scrapeCpuLoop lines e n = Except.error p)
    ∨ (∃ f n1, IsOverride f ∧ ∀ e : Exporter, scrapeCpuLoop lines e n = Except.ok (f e, n1)) := by
  induction lines generalizing n with
  | nil =>
    right
    exact ⟨fun e => e, n, IsOverride_id, fun e => rfl⟩
  | cons l ls ih =>
    rcases scrapeCpuLine_uniform n (strings.Fields l) with ⟨p, hp⟩ | ⟨f, n1, hf, hov⟩
    · left
      exact ⟨p, fun e => by simp only [scrapeCpuLoop, hp]⟩
    · rcases ih n1 with ⟨p, hp⟩ | ⟨g, n2, hg, hov2⟩
      · left
        exact ⟨p, fun e => by simp only [scrapeCpuLoop, hov, hp]⟩
      · right
        exact ⟨fun e => g (f e), n2, IsOverride_comp f g hf hg,
          fun e => by simp only [scrapeCpuLoop, hov, hov2]⟩

theorem scrapeCpu_uniform (src : Option GoString) :
    (∃ p, ∀ e : Exporter, e.scrapeCpu src = Except.error p)
    ∨ (∃ f, IsOverride f ∧ ∀ e : Exporter, e.scrapeCpu src = Except.ok (f e)) := by
  cases src with
  | none =>
    right
    exact ⟨fun e => e, IsOverride_id, fun e => rfl⟩
  | some s =>
    rcases scrapeCpuLoop_uniform (strings.Split 0x0A s) 1 with ⟨p, hp⟩ | ⟨f, n1, hf, hov⟩
    · left
      exact ⟨p, fun e => by simp only [Exporter.scrapeCpu, hp]⟩
    · right
      exact ⟨fun e => (f e).setGlobal GlobalName.cpu (float64.ofInt n1),
        IsOverride_setGlobal f _ _ hf, fun e => by simp only [Exporter.scrapeCpu, hov]⟩

theorem scrapeMem_uniform (src : Option GoString) :
    IsOverride (fun e => e.scrapeMem src) := by
  cases src with
  | none => exact IsOverride_id
  | some s =>
    exact IsOverride_setGlobal _ _ _ (IsOverride_setGlobal _ _ _
      (IsOverride_setGlobal _ _ _ IsOverride_id))

/-- C17. For every initial container state, every content of the three
sources and every fixed outcome of the hardware queries, two collection cycles
in a row end in the same result as one: the same global values, the same
per-interface values and the same calls (and a cycle that panics panics
again). -/
theorem Collect_idempotent (e : Exporter) (m : Machine) :
    collectTwice e m = e.Collect m := by
  rcases scrapeCpu_uniform m.proc_stat with ⟨p, hp⟩ | ⟨f, ⟨a, ha⟩, hf⟩
  · have h1 : e.Collect m = Except.error p := by
      simp only [Exporter.Collect, Exporter.scrape, hp]
    simp only [collectTwice, h1]
  · obtain ⟨b, hb⟩ := scrapeMem_uniform m.proc_meminfo
    have hcol : ∀ x : Exporter, x.Collect m
        = ((x.resetMetrics.override a).override b).scrapeNet m.proc_net_dev
            m.NewEthtool := by
      intro x
      have hbx := hb (x.resetMetrics.override a)
      simp only at hbx
      rw [Collect_of_scrapeCpu x _ m (by rw [hf, ha]), hbx]
    have hstate : ∀ x y : Exporter, y.globalGauges
          = ((x.resetMetrics.override a).override b).globalGauges →
        (y.resetMetrics.override a).override b = (x.resetMetrics.override a).override b := by
      intro x y hy
      apply Exporter.eq_of_fields
      · funext k
        have hk := congrFun hy k
        simp only [Exporter.override, Exporter.resetMetrics] at hk ⊢
        rw [hk]
        cases b k <;> cases a k <;> rfl
      · rfl
    have hfirst := hcol e
    cases hr : ((e.resetMetrics.override a).override b).scrapeNet m.proc_net_dev
        m.NewEthtool with
    | error p =>
      rw [hr] at hfirst
      simp only [collectTwice, hfirst]
    | ok r =>
      obtain ⟨e1, calls⟩ := r
      rw [hr] at hfirst
      have hg : e1.globalGauges = ((e.resetMetrics.override a).override b).globalGauges :=
        scrapeNet_globalGauges _ _ _ _ hr
      simp only [collectTwice, hfirst]
      rw [hcol e1, hstate e e1 hg, hr]

/-- C17, witness: the example machine, twice; both cycles leave `used_cpu` at
`float64(350) / 100` and the speed of `eth0` at the shifted 1000. -/
theorem Collect_idempotent_witness :
    collectTwice staleExporter exampleMachine = staleExporter.Collect exampleMachine
    ∧ netGaugeAfter (collectTwice staleExporter exampleMachine) NetName.interface_speed
        (str "eth0") = some (float64.ofInt 131072000)
    ∧ netGaugeAfter (collectTwice staleExporter exampleMachine)
        NetName.total_net_input_bytes (str "eth9") = none :=
  ⟨Collect_idempotent staleExporter exampleMachine, by decide, by decide⟩

end MachineExporter
